import Mathlib

/-!
# PayVoice — formal model of the voice-payment frontend

Shallow embedding of the voice-command orchestration of the PayVoice
repository: the intent router (`App_Paytm.jsx`), the PIN modal
(`PinModal`), the capture/transcription flow and language heuristics
(`VoiceInterface.jsx`), and the TTS services (`elevenlabs` service).
-/

namespace PayVoice

/-- A payment awaiting PIN confirmation, as stored by
`setPendingPayment({recipient, amount})` in `App_Paytm.jsx`. -/
structure PendingPayment where
  recipient : String
  amount : Nat
  deriving Repr, DecidableEq

/-- The `data` field of an intent-classification response
(`{recipient, amount, requires_pin}` as consumed by `handleVoiceResponse`). -/
structure VoiceData where
  requires_pin : Bool
  recipient : String
  amount : Nat
  deriving Repr, DecidableEq

/-- An intent-classification response `{intent, message, data}` returned by
`processVoiceCommand`; `data` is absent for some intents
(the source reads it with optional chaining `response.data?.requires_pin`). -/
structure VoiceResponse where
  intent : String
  message : String
  data : Option VoiceData
  deriving Repr, DecidableEq

/-- The relevant slice of the `PaytmApp` component state in `App_Paytm.jsx`:
the voice modal flag, the PIN modal flag, the pending-payment slot, and the
observable effects of the handlers (ledger refresh requests, success modal). -/
structure AppState where
  showVoiceModal : Bool
  showPinModal : Bool
  pendingPayment : Option PendingPayment
  loadUserDataCalls : Nat
  showSuccessModal : Bool
  successPayment : Option PendingPayment
  deriving Repr, DecidableEq

/-- The guard computed at the top of `handleVoiceResponse` (App_Paytm.jsx:105):
`(intent === 'payment' || intent === 'phone_confirmation' ||
intent === 'phone_account_creation') && response.data?.requires_pin`. -/
def needsPin (r : VoiceResponse) : Bool :=
  (r.intent == "payment" || r.intent == "phone_confirmation" ||
    r.intent == "phone_account_creation")
  && (match r.data with
      | some d => d.requires_pin
      | none => false)

/-- `handleVoiceResponse` (App_Paytm.jsx:104-120).  When the guard holds the
source stores `{recipient: response.data.recipient, amount: response.data.amount}`,
closes the voice modal and opens the PIN modal; otherwise, for `balance` and
`history` it refreshes the ledger snapshot, and in all other cases it changes
nothing.  (The `getD` defaults are unreachable: `needsPin` forces `data` to be
present.) -/
def handleVoiceResponse (s : AppState) (r : VoiceResponse) : AppState :=
  if needsPin r then
    { s with
      pendingPayment := some
        { recipient := (r.data.map VoiceData.recipient).getD ""
          amount := (r.data.map VoiceData.amount).getD 0 }
      showVoiceModal := false
      showPinModal := true }
  else if r.intent == "balance" || r.intent == "history" then
    { s with loadUserDataCalls := s.loadUserDataCalls + 1 }
  else
    s

/-- The `onSuccess` handler passed to `PinModal` (App_Paytm.jsx:266-289):
closes the PIN modal, moves the pending payment into the success modal, and
clears the pending-payment slot. -/
def pinModalOnSuccess (s : AppState) : AppState :=
  { s with
    showPinModal := false
    successPayment := s.pendingPayment
    showSuccessModal := true
    pendingPayment := none }

/-- The `onClose` handler passed to `PinModal` (App_Paytm.jsx:290-293):
closes the PIN modal and clears the pending-payment slot. -/
def pinModalOnClose (s : AppState) : AppState :=
  { s with
    showPinModal := false
    pendingPayment := none }

/-- The session-level events that touch the pending-payment slot. -/
inductive AppEvent
  | voice (r : VoiceResponse)
  | pinSuccess
  | pinClose
  deriving Repr, DecidableEq

/-- One step of the session: route a voice response, or resolve the PIN modal
by confirmation or by cancellation. -/
def appStep (s : AppState) : AppEvent → AppState
  | .voice r => handleVoiceResponse s r
  | .pinSuccess => pinModalOnSuccess s
  | .pinClose => pinModalOnClose s

/-! ## PIN modal (`PinModal` component) -/

/-- `/^\d+$/.test(value)` from `PinModal.handleChange`: a nonempty string of
decimal digits.  (The caller only reaches this test for nonempty `value`.) -/
def isAllDigits (v : String) : Bool :=
  v.toList.all Char.isDigit

/-- The `PinModal` component state: the four PIN cells, the error banner, the
loading flag, and which cell currently has focus (`inputRefs.current[i].focus()`). -/
structure PinModalState where
  pin : List String
  error : String
  loading : Bool
  focusIdx : Nat
  deriving Repr, DecidableEq

/-- The initial `PinModal` state: `useState(['', '', '', ''])`, no error, not
loading, focus forced to cell 0 by the mount effect. -/
def pinInit : PinModalState :=
  { pin := ["", "", "", ""], error := "", loading := false, focusIdx := 0 }

/-- `PinModal.handleChange(index, value)` (the `onChange` of cell `index`).
Returns the new component state together with `some pinValue` when the change
auto-submits (`index === 3 && value`), and `none` otherwise. -/
def handleChange (s : PinModalState) (index : Nat) (value : String) :
    PinModalState × Option String :=
  if value.length > 1 then (s, none)
  else if value ≠ "" && !isAllDigits value then (s, none)
  else
    let newPin := s.pin.set index value
    let s₁ : PinModalState := { s with pin := newPin, error := "" }
    let s₂ : PinModalState :=
      if value ≠ "" && index < 3 then { s₁ with focusIdx := index + 1 } else s₁
    if index == 3 && value ≠ "" then (s₂, some (String.join newPin))
    else (s₂, none)

/-- `PinModal.handleKeyDown(index, e)`: Backspace on an empty cell moves focus
to the previous cell. -/
def handleKeyDown (s : PinModalState) (index : Nat) (key : String) : PinModalState :=
  if key == "Backspace" && s.pin.getD index "" == "" && index > 0 then
    { s with focusIdx := index - 1 }
  else
    s

/-- The outcome of one `makePayment` call as observed by `PinModal.handleSubmit`:
a successful response, an unsuccessful response (with its optional message, read
as `response.message || 'Payment failed'`), or a thrown transport error. -/
inductive PaymentResult
  | success
  | failure (message : Option String)
  | transportError
  deriving Repr, DecidableEq

/-- The observable outcome of `PinModal.handleSubmit`: the final component
state, how many `makePayment` calls were issued, and whether `onSuccess` fired. -/
structure SubmitOutcome where
  state : PinModalState
  paymentCalls : Nat
  onSuccessCalled : Bool
  deriving Repr, DecidableEq

/-- `PinModal.handleSubmit(pinValue)` given the environment's payment result.
A short PIN is rejected with an error and no call; otherwise exactly one
`makePayment` call is made, and on any failure (unsuccessful response or thrown
error) the digits are cleared and focus returns to cell 0. -/
def handleSubmit (s : PinModalState) (pinValue : String) (result : PaymentResult) :
    SubmitOutcome :=
  if pinValue.length ≠ 4 then
    { state := { s with error := "Please enter 4-digit PIN" }
      paymentCalls := 0
      onSuccessCalled := false }
  else
    let s₁ : PinModalState := { s with loading := true, error := "" }
    match result with
    | .success =>
        { state := { s₁ with loading := false }
          paymentCalls := 1
          onSuccessCalled := true }
    | .failure msg =>
        { state := { s₁ with
            error := match msg with
              | none => "Payment failed"
              | some m => if m == "" then "Payment failed" else m
            pin := ["", "", "", ""]
            focusIdx := 0
            loading := false }
          paymentCalls := 1
          onSuccessCalled := false }
    | .transportError =>
        { state := { s₁ with
            error := "Payment failed. Please try again."
            pin := ["", "", "", ""]
            focusIdx := 0
            loading := false }
          paymentCalls := 1
          onSuccessCalled := false }

/-- The spec-side trigger condition for the PIN flow, written as §4.4 of the
spec states it: the intent is one of `payment`, `phone_confirmation`,
`phone_account_creation` and `data.requires_pin` is true. -/
def RequiresConfirmation (r : VoiceResponse) : Prop :=
  (r.intent = "payment" ∨ r.intent = "phone_confirmation" ∨
    r.intent = "phone_account_creation") ∧
  ∃ d, r.data = some d ∧ d.requires_pin = true

instance (r : VoiceResponse) : Decidable (RequiresConfirmation r) := by
  unfold RequiresConfirmation
  cases r.data <;> exact inferInstanceAs (Decidable _)

/-- A sample session state: home screen with the voice modal open. -/
def appState0 : AppState :=
  { showVoiceModal := true, showPinModal := false, pendingPayment := none
    loadUserDataCalls := 0, showSuccessModal := false, successPayment := none }

/-- A sample qualifying response: a payment intent that requires a PIN. -/
def respPayRahul : VoiceResponse :=
  { intent := "payment", message := "Please confirm the payment"
    data := some { requires_pin := true, recipient := "Rahul", amount := 500 } }

/-- A sample non-qualifying response: a balance query with no data payload. -/
def respBalance : VoiceResponse :=
  { intent := "balance", message := "Your balance is 1000", data := none }

/-! ## Character classes and whole-word regex matching

`VoiceInterface.jsx` builds regexes of the form `\bword\b` with flags `gi`
and applies them with `RegExp.test` (language detection) and
`String.replace` (transcript correction).  JavaScript's `\w` for these
non-`u` regexes is ASCII `[A-Za-z0-9_]`, and `\b` holds at a position iff
exactly one of the two surrounding characters is a `\w` character (a string
edge counts as a non-word character). -/

/-- JavaScript regex `\w`: ASCII letters `a`-`z` (97-122) and `A`-`Z`
(65-90), digits `0`-`9` (48-57), underscore (95). -/
def isWordChar (c : Char) : Bool :=
  (97 ≤ c.toNat && c.toNat ≤ 122) || (65 ≤ c.toNat && c.toNat ≤ 90) ||
  (48 ≤ c.toNat && c.toNat ≤ 57) || c.toNat == 95

/-- Case folding as JavaScript applies it to the characters appearing in this
code base: ASCII `A`-`Z` (65-90) and the Latin-1 uppercase range `À`-`Þ`
(192-222 without `×` 215, which covers `Ú`, `Ð`, `Þ` from the correction
table) map to their lowercase forms 32 code points higher. -/
def lowerJS (c : Char) : Char :=
  if (65 ≤ c.toNat && c.toNat ≤ 90) ||
      ((192 ≤ c.toNat && c.toNat ≤ 222) && c.toNat != 215) then
    Char.ofNat (c.toNat + 32)
  else
    c

/-- Case-insensitive character comparison (regex flag `i`). -/
def ciChar (a b : Char) : Bool := lowerJS a == lowerJS b

/-- Is `w` a case-insensitive prefix of `s`? -/
def ciPrefix : List Char → List Char → Bool
  | [], _ => true
  | _ :: _, [] => false
  | a :: w', c :: s' => ciChar c a && ciPrefix w' s'

/-- The `\b` condition after the end of a candidate match: `s` starts with the
matched text (of length `w.length ≥ 1`); the boundary compares the last matched
character of the text with the character that follows it (string end counts as
non-word). -/
def endBoundary (w s : List Char) : Bool :=
  match s.drop (w.length - 1) with
  | [] => false
  | last :: after =>
      isWordChar last != (match after with
        | [] => false
        | n :: _ => isWordChar n)

/-- `RegExp.test` for `\bw\b` with flag `i`: scan `s` left to right, carrying
the wordness of the previous character (`prev`, string start = non-word), and
report whether `\b w \b` matches anywhere. -/
def hasWordMatchAux (w : List Char) (prev : Bool) : List Char → Bool
  | [] => false
  | c :: rest =>
      (ciPrefix w (c :: rest) && (prev != isWordChar c) && endBoundary w (c :: rest))
      || hasWordMatchAux w (isWordChar c) rest

/-- `new RegExp('\\b' + word + '\\b', 'i').test(s)`. -/
def testWholeWord (w s : String) : Bool :=
  hasWordMatchAux w.toList false s.toList

/-! ## Fallback language detection (`VoiceInterface.jsx detectLanguage`) -/

/-- A character of the Devanagari Unicode block, the range `[ऀ-ॿ]`
of the `hindiRegex` in `detectLanguage`. -/
def isDevanagari (c : Char) : Bool :=
  0x900 ≤ c.toNat && c.toNat ≤ 0x97F

/-- `hindiRegex.test(text)`: does the text contain any Devanagari character? -/
def containsDevanagari (text : String) : Bool :=
  text.toList.any isDevanagari

/-- The `strongHindiWords` array of `detectLanguage`, in source order,
duplicates included. -/
def strongHindiWords : List String :=
  ["ko", "ka", "ki", "ke", "hai", "hain", "bhejo", "bhej", "kitna", "kya",
   "mera", "tera", "uska", "karo", "kaise", "kyun", "meri", "aap", "aapka",
   "sakti", "sakta", "kya", "kyun", "kaise", "rupaye", "rupaye", "sau",
   "pachas", "bees", "pachees", "paanch", "das"]

/-- `text.toLowerCase()` (the characters this code base feeds it are covered
by ASCII/Latin-1 folding). -/
def toLowerJS (s : String) : String :=
  String.mk (s.toList.map lowerJS)

/-- The `hindiWordCount` computation of `detectLanguage`: how many words of
the fixed list match case-insensitively as whole words in the lowercased text. -/
def hindiWordCount (text : String) : Nat :=
  (strongHindiWords.filter (fun word => testWholeWord word (toLowerJS text))).length

/-- `detectLanguage` (VoiceInterface.jsx:198-227): Devanagari → `hi`; else at
least one strong Hindi word → `hi`; else `en`. -/
def detectLanguage (text : String) : String :=
  if containsDevanagari text then "hi"
  else if hindiWordCount text ≥ 1 then "hi"
  else "en"

/-! ## Speech output: ElevenLabs service with browser fallback

The `elevenlabs` service module exposes `speakWithElevenLabs(text, language)`:
primary path is a `fetch` to the ElevenLabs TTS API followed by `Audio`
playback; on a missing API key, a non-2xx response, or a thrown network
error it calls `speakWithBrowserTTS(text, language)`.  Each `await`ed
operation is modelled by an environment value recording how it completed;
the browser is assumed to deliver exactly one terminal event (`ended` or
`error`) per playback, which is how a settled promise arises. -/

/-- How a promise settles; `pending` models a promise that never settles
(no code path of the model produces it, which is the content of the
no-hang claims). -/
inductive Settled
  | resolved
  | rejected
  | pending
  deriving Repr, DecidableEq

/-- Outcome of the `fetch` to the ElevenLabs endpoint. -/
inductive FetchOutcome
  | ok
  | httpError (status : Nat)
  | networkThrow
  deriving Repr, DecidableEq

/-- The single terminal event of an audio playback or utterance. -/
inductive AudioEvent
  | ended
  | error
  deriving Repr, DecidableEq

/-- Environment of one `speakWithElevenLabs` call. -/
structure TtsEnv where
  apiKey : Option String
  fetch : FetchOutcome
  audio : AudioEvent
  hasSynthesis : Bool
  uttEvent : AudioEvent
  deriving Repr, DecidableEq

/-- `VOICE_IDS.en` from the service module. -/
def voiceIdEn : String := "EXAVITQu4vr4xnSDxMaL"

/-- `VOICE_IDS.hi` from the service module. -/
def voiceIdHi : String := "jsCqWAovK2LkecY7zXl4"

/-- `VOICE_IDS[language] || VOICE_IDS.en`: unknown languages fall back to the
English voice. -/
def voiceIdFor (language : String) : String :=
  if language == "en" then voiceIdEn
  else if language == "hi" then voiceIdHi
  else voiceIdEn

/-- Result of `speakWithBrowserTTS`: the `lang` configured on the utterance
(none when speech synthesis is unavailable and the promise rejects
immediately), and how the returned promise settles. -/
structure BrowserSpeakResult where
  utteranceLang : Option String
  outcome : Settled
  deriving Repr, DecidableEq

/-- `speakWithBrowserTTS(text, language)`: reject if the platform has no
`speechSynthesis`; otherwise speak an utterance with `lang` `hi-IN`/`en-US`
and settle with the utterance's terminal event. -/
def speakWithBrowserTTS (env : TtsEnv) (language : String) : BrowserSpeakResult :=
  if !env.hasSynthesis then
    { utteranceLang := none, outcome := .rejected }
  else
    { utteranceLang := some (if language == "hi" then "hi-IN" else "en-US")
      outcome := match env.uttEvent with
        | .ended => .resolved
        | .error => .rejected }

/-- Observable result of `speakWithElevenLabs`. -/
structure ElevenLabsResult where
  usedFallback : Bool
  fallbackLanguage : Option String
  browser : Option BrowserSpeakResult
  primaryVoiceId : Option String
  outcome : Settled
  deriving Repr, DecidableEq

/-- `speakWithElevenLabs(text, language)`: missing key → immediate fallback;
otherwise fetch with the language's voice id; a 2xx plays the returned audio
(resolve on `ended`, reject on `error`); a non-2xx throws into the catch and
a network error rejects into the catch, both of which return the fallback
call's promise. -/
def speakWithElevenLabs (env : TtsEnv) (language : String) : ElevenLabsResult :=
  match env.apiKey with
  | none =>
      let b := speakWithBrowserTTS env language
      { usedFallback := true, fallbackLanguage := some language, browser := some b
        primaryVoiceId := none, outcome := b.outcome }
  | some _ =>
      match env.fetch with
      | .ok =>
          { usedFallback := false, fallbackLanguage := none, browser := none
            primaryVoiceId := some (voiceIdFor language)
            outcome := match env.audio with
              | .ended => .resolved
              | .error => .rejected }
      | .httpError _ =>
          let b := speakWithBrowserTTS env language
          { usedFallback := true, fallbackLanguage := some language, browser := some b
            primaryVoiceId := some (voiceIdFor language), outcome := b.outcome }
      | .networkThrow =>
          let b := speakWithBrowserTTS env language
          { usedFallback := true, fallbackLanguage := some language, browser := some b
            primaryVoiceId := some (voiceIdFor language), outcome := b.outcome }

/-! ## Orchestration speech output (`VoiceInterface.jsx speak`) -/

/-- Environment of one `speak` call in `VoiceInterface.jsx`: whether the
synchronous setup inside the `try` throws, which voices the voice-init effect
found, and the utterance's terminal event. -/
structure SpeakEnv where
  setupThrows : Bool
  enVoice : Option String
  hiVoice : Option String
  uttEvent : AudioEvent
  deriving Repr, DecidableEq

/-- Observable result of `speak`: how the promise settles, the final
`isSpeaking` flag, whether `synth.cancel()` ran first, and the `lang`
configured on the utterance (none when no matching voice was selected). -/
structure SpeakResult where
  outcome : Settled
  isSpeaking : Bool
  cancelledPrior : Bool
  utteranceLang : Option String
  deriving Repr, DecidableEq

/-- `speak(text)` (VoiceInterface.jsx:289-342): `setIsSpeaking(true)`, cancel
any ongoing speech, configure a Hindi voice when the text contains Devanagari
and a Hindi voice exists (else the English voice when one exists), then
resolve on `onend`, resolve on `onerror`, and resolve in the `catch` — every
path resolves and resets `isSpeaking`. -/
def speak (env : SpeakEnv) (text : String) : SpeakResult :=
  if env.setupThrows then
    { outcome := .resolved, isSpeaking := false, cancelledPrior := false
      utteranceLang := none }
  else
    let lang :=
      if containsDevanagari text && env.hiVoice.isSome then some "hi-IN"
      else if env.enVoice.isSome then some "en-US"
      else none
    match env.uttEvent with
    | .ended =>
        { outcome := .resolved, isSpeaking := false, cancelledPrior := true
          utteranceLang := lang }
    | .error =>
        { outcome := .resolved, isSpeaking := false, cancelledPrior := true
          utteranceLang := lang }

/-! ## Capture state machine (`VoiceInterface.jsx`)

`toggleListening` starts or stops the single `MediaRecorder`;
`startListening` is the auto-start entry point guarded by
`!isListening && !showTextInput`; the recorder's `onstop` leads into
`transcribeAudio`.  `Idle` is `¬isListening ∧ ¬transcribing`, `Recording`
is `isListening`, `Transcribing` is `transcribing`. -/

/-- The capture-relevant component state. -/
structure CaptureState where
  isListening : Bool
  transcribing : Bool
  showTextInput : Bool
  recorderRecording : Bool
  deriving Repr, DecidableEq

/-- Whether `navigator.mediaDevices.getUserMedia` succeeds. -/
structure MicEnv where
  micOk : Bool
  deriving Repr, DecidableEq

/-- `toggleListening`: when listening, stop the recorder and drop the flag
(`onstop` then fires asynchronously, see `recorderStopped`); when idle, start
a new recording, or surface the text-input fallback if the microphone is
unavailable. -/
def toggleListening (env : MicEnv) (s : CaptureState) : CaptureState :=
  if s.isListening then
    { s with isListening := false, recorderRecording := false }
  else if env.micOk then
    { s with isListening := true, recorderRecording := true }
  else
    { s with showTextInput := true }

/-- `startListening` (VoiceInterface.jsx:229-234): auto-start guarded by
`!isListening && !showTextInput`. -/
def startListening (env : MicEnv) (s : CaptureState) : CaptureState :=
  if !s.isListening && !s.showTextInput then toggleListening env s else s

/-- The recorder's `onstop` handler hands the buffered audio to
`transcribeAudio`, entering the transcribing phase. -/
def recorderStopped (s : CaptureState) : CaptureState :=
  { s with transcribing := true }

/-- End of `transcribeAudio`: success returns to idle; failure returns to
idle and opens the text-input fallback. -/
def transcriptionFinished (ok : Bool) (s : CaptureState) : CaptureState :=
  if ok then { s with transcribing := false }
  else { s with transcribing := false, showTextInput := true }

/-! ## Auto-continuation after a follow-up prompt (`handleVoiceCommand`) -/

/-- Case-sensitive list prefix test. -/
def isPrefixList : List Char → List Char → Bool
  | [], _ => true
  | _ :: _, [] => false
  | a :: w, c :: s => a == c && isPrefixList w s

/-- Scanning substring containment on lists. -/
def containsSubAux (needle : List Char) : List Char → Bool
  | [] => isPrefixList needle []
  | c :: rest => isPrefixList needle (c :: rest) || containsSubAux needle rest

/-- `hay.includes(needle)`. -/
def strIncludes (hay needle : String) : Bool :=
  containsSubAux needle.toList hay.toList

/-- `hay.endsWith(needle)`. -/
def strEndsWith (hay needle : String) : Bool :=
  isPrefixList needle.toList.reverse hay.toList.reverse

/-- The `needsVoiceInput` predicate of `handleVoiceCommand`
(VoiceInterface.jsx:255-265): fixed substring prompts on the lowercased
message, or any message ending in `?`. -/
def needsVoiceInput (message : String) : Bool :=
  let m := toLowerJS message
  strIncludes m "phone number" || strIncludes m "say the" ||
  strIncludes m "tell me" || strIncludes m "please tell" ||
  strIncludes m "10-digit" || strIncludes m "is this correct" ||
  strIncludes m "say yes or no" || strIncludes m "would you like to add" ||
  strEndsWith m "?"

/-- What `handleVoiceCommand` schedules after speech output: a 500ms
`setTimeout(startListening)` exactly when `needsVoiceInput` holds. -/
structure AutoContinue where
  scheduled : Bool
  delayMs : Nat
  deriving Repr, DecidableEq

/-- The scheduling decision taken after `await speak(response.message)`. -/
def scheduleAutoContinue (message : String) : AutoContinue :=
  if needsVoiceInput message then { scheduled := true, delayMs := 500 }
  else { scheduled := false, delayMs := 0 }

/-- The effect of the scheduled timer firing against the capture state at
fire time (`startListening` re-checks `isListening` and `showTextInput`). -/
def fireAutoContinue (message : String) (env : MicEnv) (s : CaptureState) :
    CaptureState :=
  if needsVoiceInput message then startListening env s else s

/-! ## Transcript correction (`transcribeAudio` nameCorrections)

`transcribeAudio` applies, in insertion order, one
`correctedText.replace(new RegExp('\\b' + wrong + '\\b', 'gi'), correct)`
per entry of the `nameCorrections` table.  `replace` with a global regex
scans the subject left to right, replaces non-overlapping matches, resumes
after each match at its end, and evaluates the `\b` assertions against the
original subject string.  `replaceWWAux` embeds this scanner: `prev` is the
wordness of the character before the current position (string start =
non-word). -/

/-- Case-insensitive list equality (regex flag `i` on a literal word). -/
def ciEqList : List Char → List Char → Bool
  | [], [] => true
  | a :: u, b :: w => ciChar a b && ciEqList u w
  | _, _ => false

/-- The scanner of `String.replace` for pattern `\bw\b` with flags `gi`:
at each position try the boundary test, the case-insensitive literal match
and the trailing boundary test; on a match emit `r` and resume after the
matched text (carrying the wordness of its last character); otherwise emit
the character and advance. -/
def replaceWWAux (w r : List Char) (prev : Bool) (s : List Char) : List Char :=
  if hw : w = [] then s
  else
    match s with
    | [] => []
    | c :: rest =>
        if ciPrefix w (c :: rest) && (prev != isWordChar c) &&
            endBoundary w (c :: rest) then
          r ++ replaceWWAux w r
            (isWordChar (((c :: rest).drop (w.length - 1)).headD c))
            ((c :: rest).drop w.length)
        else
          c :: replaceWWAux w r (isWordChar c) rest
termination_by s.length
decreasing_by
  · have hw1 : 1 ≤ w.length := List.length_pos.mpr hw
    simp only [List.length_drop, List.length_cons]
    omega
  · simp only [List.length_cons]
    omega

/-- `text.replace(new RegExp('\\b' + wrong + '\\b', 'gi'), correct)`. -/
def replaceWholeWord (wrong correct : String) (text : String) : String :=
  String.mk (replaceWWAux wrong.toList correct.toList false text.toList)

/-- The `nameCorrections` table of `transcribeAudio`
(VoiceInterface.jsx:137-159), in object-literal insertion order (the order
`Object.entries` yields for these non-numeric keys). -/
def nameCorrections : List (String × String) :=
  [("nudj", "Anuj"), ("anuj", "Anuj"),
   ("grazie", "Rahul"), ("grazi", "Rahul"),
   ("rúpeas", "rupees"), ("rupaye", "rupees"), ("rupay", "rupees"),
   ("það", "to"), ("að", "to"),
   ("sau", "100"), ("so", "100"), ("pachas", "50"), ("das", "10"),
   ("bees", "20"), ("pachees", "25"), ("paanch", "5")]

/-- The full correction pass: the `Object.entries(nameCorrections).forEach`
loop folding every substitution over the transcript. -/
def applyCorrections (text : String) : String :=
  nameCorrections.foldl (fun acc wr => replaceWholeWord wr.1 wr.2 acc) text

/-! ### Token view of a string

For the idempotence proof a string is decomposed into maximal runs of word
characters separated by individual non-word characters.  Every substitution
of the table rewrites this token list in a shape-preserving way, which is
where the second pass is shown to find nothing left to replace. -/

/-- A token: one non-word character, or a maximal nonempty run of word
characters. -/
inductive Tok
  | sep (c : Char)
  | run (u : List Char)
  deriving Repr, DecidableEq

/-- The characters of a token. -/
def Tok.flat : Tok → List Char
  | .sep c => [c]
  | .run u => u

/-- Flatten a token list back into a string. -/
def flatToks (ts : List Tok) : List Char :=
  (ts.map Tok.flat).flatten

/-- Tokenize: group consecutive word characters into runs. -/
def toToks : List Char → List Tok
  | [] => []
  | c :: rest =>
      if isWordChar c then
        match toToks rest with
        | Tok.run u :: ts => Tok.run (c :: u) :: ts
        | ts => Tok.run [c] :: ts
      else
        Tok.sep c :: toToks rest

/-- Does the token list not start with a run (so that runs are maximal)? -/
def noRunHead : List Tok → Bool
  | Tok.run _ :: _ => false
  | _ => true

/-- Well-formedness: separators are non-word characters, runs are nonempty
word-character lists, and no two runs are adjacent. -/
def wfToks : List Tok → Bool
  | [] => true
  | Tok.sep c :: ts => !isWordChar c && wfToks ts
  | Tok.run u :: ts => !u.isEmpty && u.all isWordChar && noRunHead ts && wfToks ts

/-- Map a function over the runs of a token list (the token-level action of a
substitution whose pattern is made of word characters only). -/
def mapRunToks (f : List Char → List Char) : List Tok → List Tok
  | [] => []
  | Tok.run u :: ts => Tok.run (f u) :: mapRunToks f ts
  | Tok.sep c :: ts => Tok.sep c :: mapRunToks f ts

/-- The run transformation of a word-pattern substitution: replace a run that
case-insensitively equals the pattern by the replacement. -/
def wordRuleFn (w r : List Char) (u : List Char) : List Char :=
  if ciEqList u w then r else u

/-- Prepend characters onto the first run of a token list, used where a
substitution glues its replacement to the following run. -/
def mergeOnto (u : List Char) : List Tok → List Tok
  | Tok.run v :: ts => Tok.run (u ++ v) :: ts
  | ts => Tok.run u :: ts

/-- Token-level action of `'rúpeas' → 'rupees'` (pattern `r`·`ú`·`peas`,
whose only non-word character is `ú`): a run `r`, the separator `ú` and a run
`peas` (case-insensitively) collapse into the run `rupees`. -/
def tokenPassRupeas : List Tok → List Tok
  | Tok.run r1 :: Tok.sep cu :: Tok.run r2 :: rest =>
      if ciEqList r1 ['r'] && ciChar cu 'ú' && ciEqList r2 ['p', 'e', 'a', 's'] then
        Tok.run ['r', 'u', 'p', 'e', 'e', 's'] :: tokenPassRupeas rest
      else
        Tok.run r1 :: tokenPassRupeas (Tok.sep cu :: Tok.run r2 :: rest)
  | t :: rest => t :: tokenPassRupeas rest
  | [] => []

/-- Token-level action of `'það' → 'to'`: the pattern needs a word character
on both sides, so a run, separator `þ`, run `a`, separator `ð`, run sequence
collapses into one merged run around `to`. -/
def tokenPassThad : List Tok → List Tok
  | Tok.run l :: Tok.sep c1 :: Tok.run a :: Tok.sep c2 :: Tok.run r :: rest =>
      if ciChar c1 'þ' && ciEqList a ['a'] && ciChar c2 'ð' then
        mergeOnto (l ++ ['t', 'o']) (tokenPassThad (Tok.run r :: rest))
      else
        Tok.run l :: tokenPassThad (Tok.sep c1 :: Tok.run a :: Tok.sep c2 :: Tok.run r :: rest)
  | t :: rest => t :: tokenPassThad rest
  | [] => []

/-- Token-level action of `'að' → 'to'`: the pattern needs a non-word (or
string start) on the left and a word character on the right, so a run `a`,
separator `ð`, run sequence collapses into a merged run starting with `to`. -/
def tokenPassAd : List Tok → List Tok
  | Tok.run a :: Tok.sep c2 :: Tok.run r :: rest =>
      if ciEqList a ['a'] && ciChar c2 'ð' then
        mergeOnto ['t', 'o'] (tokenPassAd (Tok.run r :: rest))
      else
        Tok.run a :: tokenPassAd (Tok.sep c2 :: Tok.run r :: rest)
  | t :: rest => t :: tokenPassAd rest
  | [] => []

/-- The match test the scanner applies at one position: case-insensitive
literal match plus both `\b` assertions. -/
def matchCond (w : List Char) (prev : Bool) : List Char → Bool
  | [] => false
  | c :: rest =>
      ciPrefix w (c :: rest) && (prev != isWordChar c) && endBoundary w (c :: rest)

/-- Does the token list contain an (adjacent) `run`·`ú`·`run` window on which
the `rúpeas` substitution would fire? -/
def hasPatRupeas : List Tok → Bool
  | Tok.run r1 :: Tok.sep cu :: Tok.run r2 :: rest =>
      (ciEqList r1 ['r'] && ciChar cu 'ú' && ciEqList r2 ['p', 'e', 'a', 's']) ||
      hasPatRupeas (Tok.sep cu :: Tok.run r2 :: rest)
  | _ :: rest => hasPatRupeas rest
  | [] => false

/-- Does the token list contain a window on which the `það` substitution
would fire? -/
def hasPatThad : List Tok → Bool
  | Tok.run _l :: Tok.sep c1 :: Tok.run a :: Tok.sep c2 :: Tok.run r :: rest =>
      (ciChar c1 'þ' && ciEqList a ['a'] && ciChar c2 'ð') ||
      hasPatThad (Tok.sep c1 :: Tok.run a :: Tok.sep c2 :: Tok.run r :: rest)
  | _ :: rest => hasPatThad rest
  | [] => false

/-- Does the token list contain a window on which the `að` substitution would
fire? -/
def hasPatAd : List Tok → Bool
  | Tok.run a :: Tok.sep c2 :: Tok.run r :: rest =>
      (ciEqList a ['a'] && ciChar c2 'ð') ||
      hasPatAd (Tok.sep c2 :: Tok.run r :: rest)
  | _ :: rest => hasPatAd rest
  | [] => false

/-- Would the `rúpeas` substitution fire at the very head of the token list,
assuming no word character immediately precedes it? -/
def rupeasHeadMatch : List Tok → Bool
  | Tok.run r1 :: Tok.sep cu :: Tok.run r2 :: _ =>
      ciEqList r1 ['r'] && ciChar cu 'ú' && ciEqList r2 ['p', 'e', 'a', 's']
  | _ => false

/-- Would the `það` substitution fire at the very head of the token list,
assuming a word character immediately precedes it? -/
def thadHeadMatch : List Tok → Bool
  | Tok.sep c1 :: Tok.run a :: Tok.sep c2 :: Tok.run _r :: _ =>
      ciChar c1 'þ' && ciEqList a ['a'] && ciChar c2 'ð'
  | _ => false

/-- No run of the token list case-insensitively equals the word `w`. -/
def RunsAvoid (w : List Char) (ts : List Tok) : Prop :=
  ∀ u, Tok.run u ∈ ts → ciEqList u w = false

/-- Every run that case-insensitively equals `w` is literally `r` (the fixed
point of the `anuj → Anuj` substitution). -/
def RunsFixed (w r : List Char) (ts : List Tok) : Prop :=
  ∀ u, Tok.run u ∈ ts → ciEqList u w = true → u = r

/-- The token-level pipeline mirroring the sixteen substitutions of
`nameCorrections` in order. -/
def tokenPipeline (ts : List Tok) : List Tok :=
  ts
  |> mapRunToks (wordRuleFn "nudj".toList "Anuj".toList)
  |> mapRunToks (wordRuleFn "anuj".toList "Anuj".toList)
  |> mapRunToks (wordRuleFn "grazie".toList "Rahul".toList)
  |> mapRunToks (wordRuleFn "grazi".toList "Rahul".toList)
  |> tokenPassRupeas
  |> mapRunToks (wordRuleFn "rupaye".toList "rupees".toList)
  |> mapRunToks (wordRuleFn "rupay".toList "rupees".toList)
  |> tokenPassThad
  |> tokenPassAd
  |> mapRunToks (wordRuleFn "sau".toList "100".toList)
  |> mapRunToks (wordRuleFn "so".toList "100".toList)
  |> mapRunToks (wordRuleFn "pachas".toList "50".toList)
  |> mapRunToks (wordRuleFn "das".toList "10".toList)
  |> mapRunToks (wordRuleFn "bees".toList "20".toList)
  |> mapRunToks (wordRuleFn "pachees".toList "25".toList)
  |> mapRunToks (wordRuleFn "paanch".toList "5".toList)

/-! ## Theorems -/

/-- Claim C4: the fallback classifier returns `hi` on any Devanagari
character; otherwise `hi` exactly when at least one word of the fixed list
matches case-insensitively as a whole word, and `en` otherwise; in particular
"Send ten rupees to Neeraj" is `en`, and any text with a standalone `kya` or
`hai` is `hi`. -/
theorem detect_language_policy (text : String) :
    (containsDevanagari text = true → detectLanguage text = "hi") ∧
    (containsDevanagari text = false →
      ((∃ w ∈ strongHindiWords, testWholeWord w (toLowerJS text) = true) ↔
        detectLanguage text = "hi")) ∧
    (containsDevanagari text = false →
      ((∀ w ∈ strongHindiWords, testWholeWord w (toLowerJS text) = false) ↔
        detectLanguage text = "en")) ∧
    ((testWholeWord "kya" (toLowerJS text) = true ∨
        testWholeWord "hai" (toLowerJS text) = true) →
      detectLanguage text = "hi") ∧
    detectLanguage "Send ten rupees to Neeraj" = "en" := by
  have hcount : ∀ t : String, 1 ≤ hindiWordCount t ↔
      ∃ w ∈ strongHindiWords, testWholeWord w (toLowerJS t) = true := by
    intro t
    unfold hindiWordCount
    constructor
    · intro h
      have hne : strongHindiWords.filter
          (fun word => testWholeWord word (toLowerJS t)) ≠ [] := by
        intro hnil
        rw [hnil] at h
        simp at h
      obtain ⟨w, hw⟩ := List.exists_mem_of_ne_nil _ hne
      have := List.mem_filter.mp hw
      exact ⟨w, this.1, this.2⟩
    · rintro ⟨w, hw, htest⟩
      exact List.length_pos_of_mem (List.mem_filter.mpr ⟨hw, htest⟩)
  have hdl : ∀ t : String, containsDevanagari t = false →
      detectLanguage t = if 1 ≤ hindiWordCount t then "hi" else "en" := by
    intro t ht
    simp [detectLanguage, ht, ge_iff_le]
  refine ⟨?_, ?_, ?_, ?_, by rfl⟩
  · intro h
    simp [detectLanguage, h]
  · intro h
    rw [← hcount, hdl text h]
    by_cases hge : 1 ≤ hindiWordCount text <;> simp [hge]
  · intro h
    have hiff : (∀ w ∈ strongHindiWords, testWholeWord w (toLowerJS text) = false) ↔
        ¬ (1 ≤ hindiWordCount text) := by
      rw [hcount text]
      constructor
      · rintro hall ⟨w, hw, ht⟩
        rw [hall w hw] at ht
        cases ht
      · intro hne w hw
        cases hq : testWholeWord w (toLowerJS text) with
        | false => rfl
        | true => exact absurd ⟨w, hw, hq⟩ hne
    rw [hiff, hdl text h]
    by_cases hge : 1 ≤ hindiWordCount text <;> simp [hge]
  · intro h
    by_cases hdev : containsDevanagari text
    · simp [detectLanguage, hdev]
    · have : ∃ w ∈ strongHindiWords, testWholeWord w (toLowerJS text) = true := by
        cases h with
        | inl h => exact ⟨"kya", by simp [strongHindiWords], h⟩
        | inr h => exact ⟨"hai", by simp [strongHindiWords], h⟩
      have h1 : 1 ≤ hindiWordCount text := (hcount text).mpr this
      simp [detectLanguage, h1]

/-- Witness for C4: a Devanagari text and a Hinglish text classify as `hi`,
and the English control sentence classifies as `en`. -/
theorem detect_language_policy_witness :
    detectLanguage "नमस्ते" = "hi" ∧
    detectLanguage "kya haal hai" = "hi" ∧
    detectLanguage "Send ten rupees to Neeraj" = "en" :=
  ⟨(detect_language_policy "नमस्ते").1 (by rfl),
    (detect_language_policy "kya haal hai").2.2.2.1 (Or.inl (by rfl)),
    (detect_language_policy "Send ten rupees to Neeraj").2.2.2.2⟩

/-- The source guard `needsPin` decides exactly the spec-side trigger
condition `RequiresConfirmation`. -/
theorem needsPin_iff (r : VoiceResponse) :
    needsPin r = true ↔ RequiresConfirmation r := by
  unfold needsPin RequiresConfirmation
  cases hd : r.data with
  | none => simp [hd]
  | some d => simp [hd, or_assoc]

/-- Claim C1: whenever the response intent is `payment`, `phone_confirmation`
or `phone_account_creation` and `data.requires_pin` is true, the router stores
the response's recipient and amount as the single pending payment, opens the
PIN modal and closes the voice modal; on every other response the
pending-payment slot, PIN modal and voice modal are untouched. -/
theorem router_pin_confirmation_gate (s : AppState) (r : VoiceResponse) :
    (RequiresConfirmation r →
      ∃ d, r.data = some d ∧
        (handleVoiceResponse s r).pendingPayment =
          some { recipient := d.recipient, amount := d.amount } ∧
        (handleVoiceResponse s r).showPinModal = true ∧
        (handleVoiceResponse s r).showVoiceModal = false) ∧
    (¬ RequiresConfirmation r →
      (handleVoiceResponse s r).pendingPayment = s.pendingPayment ∧
      (handleVoiceResponse s r).showPinModal = s.showPinModal ∧
      (handleVoiceResponse s r).showVoiceModal = s.showVoiceModal) := by
  constructor
  · intro h
    have hb : needsPin r = true := (needsPin_iff r).mpr h
    obtain ⟨_, d, hd, _⟩ := h
    exact ⟨d, hd, by simp [handleVoiceResponse, hb, hd]⟩
  · intro h
    have hb : needsPin r = false := by
      cases hnp : needsPin r with
      | false => rfl
      | true => exact absurd ((needsPin_iff r).mp hnp) h
    simp only [handleVoiceResponse, hb, Bool.false_eq_true, if_false]
    split <;> simp

/-- Witness for C1: the sample payment response stores `{Rahul, 500}` and
opens the PIN flow; the sample balance response leaves all three fields alone. -/
theorem router_pin_confirmation_gate_witness :
    (∃ d, respPayRahul.data = some d ∧
      (handleVoiceResponse appState0 respPayRahul).pendingPayment =
        some { recipient := d.recipient, amount := d.amount } ∧
      (handleVoiceResponse appState0 respPayRahul).showPinModal = true ∧
      (handleVoiceResponse appState0 respPayRahul).showVoiceModal = false) ∧
    ((handleVoiceResponse appState0 respBalance).pendingPayment =
        appState0.pendingPayment ∧
      (handleVoiceResponse appState0 respBalance).showPinModal =
        appState0.showPinModal ∧
      (handleVoiceResponse appState0 respBalance).showVoiceModal =
        appState0.showVoiceModal) :=
  ⟨(router_pin_confirmation_gate appState0 respPayRahul).1
      ⟨Or.inl rfl, _, rfl, rfl⟩,
    (router_pin_confirmation_gate appState0 respBalance).2
      (by simp [RequiresConfirmation, respBalance])⟩

/-- Claim C3: the pending-payment slot is a single-slot session state.  At most
one pending payment exists after any step; a slot value can only appear through
a qualifying (confirmation-requiring) response; a qualifying response
overwrites whatever was in the slot; both the confirm handler and the close
handler empty the slot. -/
theorem pending_payment_single_slot (s : AppState) (r : VoiceResponse) :
    (∀ e : AppEvent, (appStep s e).pendingPayment.toList.length ≤ 1) ∧
    (∀ p, (handleVoiceResponse s r).pendingPayment = some p →
      s.pendingPayment = some p ∨ RequiresConfirmation r) ∧
    (RequiresConfirmation r →
      ∃ d, r.data = some d ∧
        (handleVoiceResponse s r).pendingPayment =
          some { recipient := d.recipient, amount := d.amount }) ∧
    (pinModalOnSuccess s).pendingPayment = none ∧
    (pinModalOnClose s).pendingPayment = none := by
  refine ⟨?_, ?_, ?_, rfl, rfl⟩
  · intro e
    cases (appStep s e).pendingPayment <;> simp
  · intro p hp
    by_cases h : RequiresConfirmation r
    · exact Or.inr h
    · left
      have hb : needsPin r = false := by
        cases hnp : needsPin r with
        | false => rfl
        | true => exact absurd ((needsPin_iff r).mp hnp) h
      rw [← hp]
      simp only [handleVoiceResponse, hb, Bool.false_eq_true, if_false]
      split <;> simp
  · intro h
    have hb : needsPin r = true := (needsPin_iff r).mpr h
    obtain ⟨_, d, hd, _⟩ := h
    exact ⟨d, hd, by simp [handleVoiceResponse, hb, hd]⟩

/-- Witness for C3: with a stale pending payment in the slot, the sample
qualifying response overwrites it with `{Rahul, 500}`; confirm and close both
clear the slot; and the balance response cannot have created the stale value. -/
theorem pending_payment_single_slot_witness :
    (∀ e : AppEvent,
      (appStep { appState0 with pendingPayment := some ⟨"Old", 1⟩ } e).pendingPayment.toList.length ≤ 1) ∧
    (∃ d, respPayRahul.data = some d ∧
      (handleVoiceResponse { appState0 with pendingPayment := some ⟨"Old", 1⟩ }
          respPayRahul).pendingPayment =
        some { recipient := d.recipient, amount := d.amount }) ∧
    (pinModalOnSuccess { appState0 with pendingPayment := some ⟨"Old", 1⟩ }).pendingPayment = none ∧
    (pinModalOnClose { appState0 with pendingPayment := some ⟨"Old", 1⟩ }).pendingPayment = none :=
  ⟨(pending_payment_single_slot { appState0 with pendingPayment := some ⟨"Old", 1⟩ } respPayRahul).1,
    (pending_payment_single_slot { appState0 with pendingPayment := some ⟨"Old", 1⟩ }
        respPayRahul).2.2.1 ⟨Or.inl rfl, _, rfl, rfl⟩,
    (pending_payment_single_slot { appState0 with pendingPayment := some ⟨"Old", 1⟩ }
        respPayRahul).2.2.2.1,
    (pending_payment_single_slot { appState0 with pendingPayment := some ⟨"Old", 1⟩ }
        respPayRahul).2.2.2.2⟩

/-- Claim C2: every failing 4-digit payment attempt from the PIN modal —
unsuccessful response or thrown transport error — clears all four PIN cells,
returns focus to the first cell, issues exactly one `makePayment` call (no
automatic retry), and never fires `onSuccess`. -/
theorem pin_failure_is_terminal (s : PinModalState) (pinValue : String)
    (result : PaymentResult) (h4 : pinValue.length = 4)
    (hfail : result ≠ PaymentResult.success) :
    (handleSubmit s pinValue result).state.pin = ["", "", "", ""] ∧
    (handleSubmit s pinValue result).state.focusIdx = 0 ∧
    (handleSubmit s pinValue result).paymentCalls = 1 ∧
    (handleSubmit s pinValue result).onSuccessCalled = false := by
  cases result with
  | success => exact absurd rfl hfail
  | failure msg => simp [handleSubmit, h4]
  | transportError => simp [handleSubmit, h4]

/-- Witness for C2: submitting PIN `1234` against an `InvalidPin`-style
unsuccessful response clears the digits, refocuses cell 0, and makes exactly
one payment call. -/
theorem pin_failure_is_terminal_witness :
    (handleSubmit pinInit "1234" (PaymentResult.failure (some "Invalid PIN"))).state.pin =
      ["", "", "", ""] ∧
    (handleSubmit pinInit "1234" (PaymentResult.failure (some "Invalid PIN"))).state.focusIdx = 0 ∧
    (handleSubmit pinInit "1234" (PaymentResult.failure (some "Invalid PIN"))).paymentCalls = 1 ∧
    (handleSubmit pinInit "1234" (PaymentResult.failure (some "Invalid PIN"))).onSuccessCalled =
      false :=
  pin_failure_is_terminal pinInit "1234" (PaymentResult.failure (some "Invalid PIN"))
    rfl (by simp)

/-- Claim C6: the PIN pad collects exactly 4 digits: a digit typed in cells
0-2 advances focus to the next cell without submitting; Backspace on an empty
cell moves focus back; typing the 4th digit of the sequence `1`,`2`,`3`,`4`
auto-submits the concatenated PIN `1234`; and a submission with fewer than 4
digits is rejected with an error and issues no payment call. -/
theorem pin_pad_collects_four_digits :
    (∀ (s : PinModalState) (i : Nat) (v : String), v ≠ "" → isAllDigits v = true →
      v.length = 1 → i < 3 →
      (handleChange s i v).1.focusIdx = i + 1 ∧ (handleChange s i v).2 = none) ∧
    (∀ (s : PinModalState) (i : Nat), 0 < i → s.pin.getD i "" = "" →
      (handleKeyDown s i "Backspace").focusIdx = i - 1) ∧
    (handleChange (handleChange (handleChange
        (handleChange pinInit 0 "1").1 1 "2").1 2 "3").1 3 "4").2 = some "1234" ∧
    (∀ (s : PinModalState) (pv : String) (result : PaymentResult), pv.length ≠ 4 →
      (handleSubmit s pv result).paymentCalls = 0 ∧
      (handleSubmit s pv result).state.error = "Please enter 4-digit PIN") := by
  refine ⟨?_, ?_, by rfl, ?_⟩
  · intro s i v hne hdig hlen hi
    have hgt : ¬ v.length > 1 := by omega
    constructor <;>
      simp [handleChange, hgt, hdig, hne, hi, Nat.ne_of_lt hi]
  · intro s i hi hempty
    have h' : s.pin[i]?.getD "" = "" := by
      simpa [List.getD] using hempty
    simp [handleKeyDown, h', hi, Nat.pos_iff_ne_zero.mp hi]
  · intro s pv result h
    simp [handleSubmit, h]

/-- Witness for C6: typing `7` in cell 1 moves focus to cell 2 without
submitting; Backspace on the empty cell 1 of the initial state moves focus to
cell 0; a 2-digit submission is rejected without a payment call. -/
theorem pin_pad_collects_four_digits_witness :
    ((handleChange pinInit 1 "7").1.focusIdx = 2 ∧ (handleChange pinInit 1 "7").2 = none) ∧
    (handleKeyDown pinInit 1 "Backspace").focusIdx = 0 ∧
    ((handleSubmit pinInit "12" PaymentResult.transportError).paymentCalls = 0 ∧
      (handleSubmit pinInit "12" PaymentResult.transportError).state.error =
        "Please enter 4-digit PIN") :=
  ⟨pin_pad_collects_four_digits.1 pinInit 1 "7" (by decide) rfl rfl (by decide),
    pin_pad_collects_four_digits.2.1 pinInit 1 (by decide) rfl,
    pin_pad_collects_four_digits.2.2.2 pinInit "12" PaymentResult.transportError (by decide)⟩

/-- Claim C7: whenever the remote TTS path fails — missing API key, non-2xx
response, or thrown network error — `speakWithElevenLabs` invokes the browser
fallback with the same language, the fallback utterance carries the
language-appropriate `lang` (`hi-IN` for `hi`, `en-US` otherwise) whenever
synthesis is available, and the returned promise settles. -/
theorem tts_fallback_on_failure (env : TtsEnv) (language : String)
    (hfail : env.apiKey = none ∨ env.fetch ≠ FetchOutcome.ok) :
    (speakWithElevenLabs env language).usedFallback = true ∧
    (speakWithElevenLabs env language).fallbackLanguage = some language ∧
    (speakWithElevenLabs env language).browser =
      some (speakWithBrowserTTS env language) ∧
    (env.hasSynthesis = true →
      (speakWithBrowserTTS env language).utteranceLang =
        some (if language == "hi" then "hi-IN" else "en-US")) ∧
    (speakWithElevenLabs env language).outcome ≠ Settled.pending := by
  obtain ⟨ak, f, au, hs, ue⟩ := env
  have hbrowser : hs = true →
      (speakWithBrowserTTS ⟨ak, f, au, hs, ue⟩ language).utteranceLang =
        some (if language == "hi" then "hi-IN" else "en-US") := by
    intro h
    simp [speakWithBrowserTTS, h]
  have houtcome :
      (speakWithBrowserTTS ⟨ak, f, au, hs, ue⟩ language).outcome ≠ Settled.pending := by
    cases hs <;> cases ue <;> simp [speakWithBrowserTTS]
  cases ak with
  | none => exact ⟨rfl, rfl, rfl, hbrowser, houtcome⟩
  | some k =>
      cases f with
      | ok =>
          rcases hfail with h | h
          · exact absurd h (by simp)
          · exact absurd rfl h
      | httpError st => exact ⟨rfl, rfl, rfl, hbrowser, houtcome⟩
      | networkThrow => exact ⟨rfl, rfl, rfl, hbrowser, houtcome⟩

/-- Witness for C7: a 401 from the remote API with a configured key still
reaches the Hindi-voiced browser fallback and settles. -/
theorem tts_fallback_on_failure_witness :
    (speakWithElevenLabs
        { apiKey := some "k", fetch := FetchOutcome.httpError 401
          audio := AudioEvent.ended, hasSynthesis := true
          uttEvent := AudioEvent.ended } "hi").usedFallback = true ∧
    (speakWithElevenLabs
        { apiKey := some "k", fetch := FetchOutcome.httpError 401
          audio := AudioEvent.ended, hasSynthesis := true
          uttEvent := AudioEvent.ended } "hi").fallbackLanguage = some "hi" ∧
    (speakWithElevenLabs
        { apiKey := some "k", fetch := FetchOutcome.httpError 401
          audio := AudioEvent.ended, hasSynthesis := true
          uttEvent := AudioEvent.ended } "hi").browser =
      some (speakWithBrowserTTS
        { apiKey := some "k", fetch := FetchOutcome.httpError 401
          audio := AudioEvent.ended, hasSynthesis := true
          uttEvent := AudioEvent.ended } "hi") ∧
    ((true : Bool) = true →
      (speakWithBrowserTTS
        { apiKey := some "k", fetch := FetchOutcome.httpError 401
          audio := AudioEvent.ended, hasSynthesis := true
          uttEvent := AudioEvent.ended } "hi").utteranceLang =
        some (if ("hi" : String) == "hi" then "hi-IN" else "en-US")) ∧
    (speakWithElevenLabs
        { apiKey := some "k", fetch := FetchOutcome.httpError 401
          audio := AudioEvent.ended, hasSynthesis := true
          uttEvent := AudioEvent.ended } "hi").outcome ≠ Settled.pending :=
  tts_fallback_on_failure
    { apiKey := some "k", fetch := FetchOutcome.httpError 401
      audio := AudioEvent.ended, hasSynthesis := true
      uttEvent := AudioEvent.ended } "hi" (Or.inr (by decide))

/-- Claim C10: the orchestration's `speak` always resolves and never rejects
— normal completion, an utterance error event, and a synchronous setup throw
all resolve the promise and reset `isSpeaking`, so an awaiting
command-response cycle always proceeds past the speech step. -/
theorem speak_always_resolves (env : SpeakEnv) (text : String) :
    (speak env text).outcome = Settled.resolved ∧
    (speak env text).isSpeaking = false := by
  cases h : env.setupThrows <;> cases hu : env.uttEvent <;>
    simp [speak, h, hu]

/-- Claim C8 counterexample: in the `Transcribing` state (`isListening =
false`, `transcribing = true`, text input closed, recorder stopped), a start
attempt is not a no-op — a new recording begins while the transcription is
still in flight. -/
theorem start_during_transcribing_not_noop :
    (startListening { micOk := true }
        { isListening := false, transcribing := true
          showTextInput := false, recorderRecording := false }).isListening = true ∧
    startListening { micOk := true }
        { isListening := false, transcribing := true
          showTextInput := false, recorderRecording := false } ≠
      { isListening := false, transcribing := true
        showTextInput := false, recorderRecording := false } := by
  exact ⟨rfl, by decide⟩

/-- Claim C8 as amended: starting while `Recording` is a no-op (ignored, not
an error), and only one recording is ever active (a stop request halts the
active recorder); but while `Transcribing` a start attempt is not ignored — a
new recording begins and the in-flight transcription is not cancelled. -/
theorem start_listening_amended (env : MicEnv) (s : CaptureState) :
    (s.isListening = true → startListening env s = s) ∧
    (s.showTextInput = true → startListening env s = s) ∧
    (s.isListening = false → s.showTextInput = false → s.transcribing = true →
      env.micOk = true →
      (startListening env s).isListening = true ∧
      (startListening env s).transcribing = true ∧
      (startListening env s).recorderRecording = true) ∧
    (s.isListening = true → (toggleListening env s).recorderRecording = false) := by
  refine ⟨?_, ?_, ?_, ?_⟩
  · intro h
    simp [startListening, h]
  · intro h
    simp [startListening, h]
  · intro h1 h2 h3 h4
    simp [startListening, toggleListening, h1, h2, h3, h4]
  · intro h
    simp [toggleListening, h]

/-- Witness for the amended C8: while recording, the auto-start attempt
changes nothing; from the transcribing state a start attempt yields a live
recording with the transcription still in flight. -/
theorem start_listening_amended_witness :
    (startListening { micOk := true }
        { isListening := true, transcribing := false
          showTextInput := false, recorderRecording := true } =
      { isListening := true, transcribing := false
        showTextInput := false, recorderRecording := true }) ∧
    ((startListening { micOk := true }
        { isListening := false, transcribing := true
          showTextInput := false, recorderRecording := false }).isListening = true ∧
      (startListening { micOk := true }
        { isListening := false, transcribing := true
          showTextInput := false, recorderRecording := false }).transcribing = true ∧
      (startListening { micOk := true }
        { isListening := false, transcribing := true
          showTextInput := false, recorderRecording := false }).recorderRecording = true) :=
  ⟨(start_listening_amended { micOk := true }
      { isListening := true, transcribing := false
        showTextInput := false, recorderRecording := true }).1 rfl,
    (start_listening_amended { micOk := true }
      { isListening := false, transcribing := true
        showTextInput := false, recorderRecording := false }).2.2.1 rfl rfl rfl rfl⟩

/-- Claim C9 counterexample: the message "Is this correct?" matches the
needs-follow-up patterns, yet with text-input mode active (and no manual
start by the user) the fired timer does not re-open the capture flow. -/
theorem auto_continue_blocked_by_text_mode :
    needsVoiceInput "Is this correct?" = true ∧
    (fireAutoContinue "Is this correct?" { micOk := true }
        { isListening := false, transcribing := false
          showTextInput := true, recorderRecording := false }).isListening = false ∧
    fireAutoContinue "Is this correct?" { micOk := true }
      { isListening := false, transcribing := false
        showTextInput := true, recorderRecording := false } =
      { isListening := false, transcribing := false
        showTextInput := true, recorderRecording := false } :=
  ⟨rfl, rfl, rfl⟩

/-- Claim C9 as amended: a 500ms auto-continuation is scheduled iff the
message matches the needs-follow-up patterns; the fired timer re-opens the
capture flow only when capture is idle and text-input mode is inactive — in
particular it is nullified when the user already started a new command, and
also when text-input mode is active. -/
theorem auto_continue_amended (message : String) (env : MicEnv) (s : CaptureState) :
    (scheduleAutoContinue message).scheduled = needsVoiceInput message ∧
    (needsVoiceInput message = true → (scheduleAutoContinue message).delayMs = 500) ∧
    (needsVoiceInput message = false → fireAutoContinue message env s = s) ∧
    (s.isListening = true → fireAutoContinue message env s = s) ∧
    (s.showTextInput = true → fireAutoContinue message env s = s) ∧
    (needsVoiceInput message = true → s.isListening = false →
      s.showTextInput = false → env.micOk = true →
      (fireAutoContinue message env s).isListening = true) := by
  refine ⟨?_, ?_, ?_, ?_, ?_, ?_⟩
  · cases hm : needsVoiceInput message <;> simp [scheduleAutoContinue, hm]
  · intro hm
    simp [scheduleAutoContinue, hm]
  · intro hm
    simp [fireAutoContinue, hm]
  · intro h
    cases hm : needsVoiceInput message <;>
      simp [fireAutoContinue, startListening, hm, h]
  · intro h
    cases hm : needsVoiceInput message <;>
      simp [fireAutoContinue, startListening, hm, h]
  · intro hm h1 h2 h3
    simp [fireAutoContinue, startListening, toggleListening, hm, h1, h2, h3]

/-- Witness for the amended C9: the question schedules a 500ms timer; from an
idle, voice-mode state the timer opens capture; with the user already
recording the timer changes nothing; a plain statement schedules nothing. -/
theorem auto_continue_amended_witness :
    (scheduleAutoContinue "Is this correct?").delayMs = 500 ∧
    (fireAutoContinue "Is this correct?" { micOk := true }
        { isListening := false, transcribing := false
          showTextInput := false, recorderRecording := false }).isListening = true ∧
    fireAutoContinue "Is this correct?" { micOk := true }
        { isListening := true, transcribing := false
          showTextInput := false, recorderRecording := true } =
      { isListening := true, transcribing := false
        showTextInput := false, recorderRecording := true } ∧
    fireAutoContinue "Payment done" { micOk := true }
        { isListening := false, transcribing := false
          showTextInput := false, recorderRecording := false } =
      { isListening := false, transcribing := false
        showTextInput := false, recorderRecording := false } :=
  ⟨(auto_continue_amended "Is this correct?" { micOk := true }
      { isListening := false, transcribing := false
        showTextInput := false, recorderRecording := false }).2.1 rfl,
    (auto_continue_amended "Is this correct?" { micOk := true }
      { isListening := false, transcribing := false
        showTextInput := false, recorderRecording := false }).2.2.2.2.2 rfl rfl rfl rfl,
    (auto_continue_amended "Is this correct?" { micOk := true }
      { isListening := true, transcribing := false
        showTextInput := false, recorderRecording := true }).2.2.2.1 rfl,
    (auto_continue_amended "Payment done" { micOk := true }
      { isListening := false, transcribing := false
        showTextInput := false, recorderRecording := false }).2.2.1 rfl⟩

/-! ### Character-level facts -/

/-- `Char.ofNat` below the surrogate range reads back its code point. -/
theorem charOfNat_toNat (n : Nat) (h : n < 0xd800) : (Char.ofNat n).toNat = n := by
  unfold Char.ofNat
  split
  · rfl
  · exact absurd (Or.inl h) (by assumption)

/-- Arithmetic reading of `isWordChar`. -/
theorem isWordChar_iff (c : Char) : isWordChar c = true ↔
    (97 ≤ c.toNat ∧ c.toNat ≤ 122) ∨ (65 ≤ c.toNat ∧ c.toNat ≤ 90) ∨
    (48 ≤ c.toNat ∧ c.toNat ≤ 57) ∨ c.toNat = 95 := by
  unfold isWordChar
  simp only [Bool.or_eq_true, Bool.and_eq_true, decide_eq_true_eq, beq_iff_eq]
  tauto

/-- Case folding does not change `\w` membership. -/
theorem isWordChar_lowerJS (c : Char) : isWordChar (lowerJS c) = isWordChar c := by
  unfold lowerJS
  split
  · rename_i h
    simp only [Bool.or_eq_true, Bool.and_eq_true, decide_eq_true_eq, bne_iff_ne,
      ne_eq] at h
    have h32 : (Char.ofNat (c.toNat + 32)).toNat = c.toNat + 32 :=
      charOfNat_toNat _ (by omega)
    rw [Bool.eq_iff_iff, isWordChar_iff, isWordChar_iff, h32]
    omega
  · rfl

/-- Case-insensitively equal characters agree on `\w` membership. -/
theorem ciChar_isWordChar {a b : Char} (h : ciChar a b = true) :
    isWordChar a = isWordChar b := by
  have hl : lowerJS a = lowerJS b := by
    simpa [ciChar] using h
  rw [← isWordChar_lowerJS a, ← isWordChar_lowerJS b, hl]

/-! ### Case-insensitive list facts -/

/-- Case-insensitively equal lists have equal length. -/
theorem ciEqList_length : ∀ {u w : List Char}, ciEqList u w = true →
    u.length = w.length
  | [], [], _ => rfl
  | a :: u, b :: w, h => by
      simp only [ciEqList, Bool.and_eq_true] at h
      simpa using ciEqList_length h.2
  | [], _ :: _, h => by cases h
  | _ :: _, [], h => by cases h

/-- A case-insensitive copy of the pattern is a case-insensitive prefix of
any extension. -/
theorem ciPrefix_of_ciEqList : ∀ {u w x : List Char}, ciEqList u w = true →
    ciPrefix w (u ++ x) = true
  | [], [], _, _ => rfl
  | a :: u, b :: w, x, h => by
      simp only [ciEqList, Bool.and_eq_true] at h
      simp only [List.cons_append, ciPrefix, Bool.and_eq_true]
      exact ⟨h.1, ciPrefix_of_ciEqList h.2⟩
  | [], _ :: _, _, h => by cases h
  | _ :: _, [], _, h => by cases h

/-- A case-insensitive prefix of matching length is a case-insensitive copy. -/
theorem ciEqList_of_ciPrefix : ∀ {u w x : List Char}, ciPrefix w (u ++ x) = true →
    u.length = w.length → ciEqList u w = true
  | [], [], _, _, _ => rfl
  | a :: u, b :: w, x, h, hlen => by
      simp only [List.cons_append, ciPrefix, Bool.and_eq_true] at h
      simp only [List.length_cons, Nat.succ.injEq] at hlen
      simp only [ciEqList, Bool.and_eq_true]
      exact ⟨h.1, ciEqList_of_ciPrefix h.2 hlen⟩
  | [], _ :: _, _, _, hlen => by cases hlen
  | _ :: _, [], _, _, hlen => by cases hlen

/-- A case-insensitive prefix longer than `u` continues past `u` into the
rest of the text. -/
theorem ciPrefix_drop_of_long : ∀ {u w x : List Char}, ciPrefix w (u ++ x) = true →
    u.length < w.length → ciPrefix (w.drop u.length) x = true
  | [], w, x, h, _ => h
  | a :: u, b :: w, x, h, hlen => by
      simp only [List.cons_append, ciPrefix, Bool.and_eq_true] at h
      simp only [List.length_cons] at hlen
      simpa using ciPrefix_drop_of_long h.2 (by omega)
  | _ :: _, [], _, _, hlen => by simp at hlen

/-- Characters of a case-insensitive copy of `w` fold into the folded
characters of `w`. -/
theorem ciEqList_mem_lower : ∀ {u w : List Char}, ciEqList u w = true →
    ∀ c ∈ u, lowerJS c ∈ w.map lowerJS
  | [], [], _, c, hc => by cases hc
  | a :: u, b :: w, h, c, hc => by
      simp only [ciEqList, Bool.and_eq_true] at h
      rcases List.mem_cons.mp hc with rfl | hc
      · have : lowerJS c = lowerJS b := by simpa [ciChar] using h.1
        simp [this]
      · simpa using Or.inr (ciEqList_mem_lower h.2 c hc)
  | [], _ :: _, h, _, _ => by cases h
  | _ :: _, [], h, _, _ => by cases h

/-- All characters of a case-insensitive copy of an all-word pattern are word
characters. -/
theorem ciEqList_all_word : ∀ {u w : List Char}, ciEqList u w = true →
    w.all isWordChar = true → u.all isWordChar = true
  | [], [], _, _ => rfl
  | a :: u, b :: w, h, hw => by
      simp only [ciEqList, Bool.and_eq_true] at h
      simp only [List.all_cons, Bool.and_eq_true] at hw ⊢
      exact ⟨(ciChar_isWordChar h.1).trans hw.1, ciEqList_all_word h.2 hw.2⟩
  | [], _ :: _, h, _ => by cases h
  | _ :: _, [], h, _ => by cases h

/-- Dropping all but one character of a nonempty list prefix. -/
theorem drop_pred_append : ∀ (u : List Char) (x : List Char) (h : u ≠ []),
    (u ++ x).drop (u.length - 1) = u.getLast h :: x
  | [], _, h => absurd rfl h
  | [a], x, _ => by simp
  | a :: b :: u, x, _ => by
      have := drop_pred_append (b :: u) x (by simp)
      simpa [List.length_cons, List.getLast] using this

/-! ### Token-list facts -/

/-- `flatToks` distributes over cons. -/
theorem flatToks_cons (t : Tok) (ts : List Tok) :
    flatToks (t :: ts) = t.flat ++ flatToks ts := by
  simp [flatToks]

/-- `flatToks` of the empty token list. -/
theorem flatToks_nil : flatToks [] = [] := rfl

/-- Flattening after merging onto the first run prepends the characters. -/
theorem flatToks_mergeOnto (u : List Char) (ts : List Tok) :
    flatToks (mergeOnto u ts) = u ++ flatToks ts := by
  match ts with
  | [] => simp [mergeOnto, flatToks_cons, flatToks_nil, Tok.flat]
  | Tok.sep c :: ts => simp [mergeOnto, flatToks_cons, Tok.flat]
  | Tok.run v :: ts => simp [mergeOnto, flatToks_cons, Tok.flat]

/-- Tokenization flattens back to the original string. -/
theorem flatToks_toToks (s : List Char) : flatToks (toToks s) = s := by
  induction s with
  | nil => rfl
  | cons c rest ih =>
      by_cases hc : isWordChar c
      · simp only [toToks, hc, if_true]
        cases h : toToks rest with
        | nil =>
            rw [h] at ih
            simp [flatToks_cons, Tok.flat, ← ih]
        | cons t ts =>
            cases t with
            | sep d =>
                rw [h] at ih
                simp [flatToks_cons, Tok.flat, ← ih]
            | run u =>
                rw [h] at ih
                simp only [flatToks_cons, Tok.flat] at ih ⊢
                simp [← ih]
      · simp [toToks, hc, flatToks_cons, Tok.flat, ih]

/-- Unfolding of `wfToks` at a run. -/
theorem wfToks_run_iff (u : List Char) (ts : List Tok) :
    wfToks (Tok.run u :: ts) = true ↔
      u ≠ [] ∧ u.all isWordChar = true ∧ noRunHead ts = true ∧ wfToks ts = true := by
  simp [wfToks, Bool.and_eq_true, and_assoc]

/-- Unfolding of `wfToks` at a separator. -/
theorem wfToks_sep_iff (c : Char) (ts : List Tok) :
    wfToks (Tok.sep c :: ts) = true ↔ isWordChar c = false ∧ wfToks ts = true := by
  simp [wfToks, Bool.and_eq_true]

/-- Tokenization produces a well-formed token list. -/
theorem wfToks_toToks (s : List Char) : wfToks (toToks s) = true := by
  induction s with
  | nil => rfl
  | cons c rest ih =>
      by_cases hc : isWordChar c
      · simp only [toToks, hc, if_true]
        cases h : toToks rest with
        | nil => simp [wfToks_run_iff, hc, noRunHead, wfToks]
        | cons t ts =>
            cases t with
            | sep d =>
                rw [h] at ih
                rw [wfToks_run_iff]
                exact ⟨by simp, by simp [hc], rfl, ih⟩
            | run u =>
                rw [h] at ih
                rw [wfToks_run_iff] at ih ⊢
                obtain ⟨hne, hall, hnr, hwf⟩ := ih
                exact ⟨by simp, by simp [hc, hall], hnr, hwf⟩
      · have hc' : isWordChar c = false := by simpa using hc
        simp only [toToks, hc', Bool.false_eq_true, if_false]
        rw [wfToks_sep_iff]
        exact ⟨hc', ih⟩

/-! ### Scanner step lemmas -/

/-- The scanner emits nothing on an empty string. -/
theorem replaceWWAux_nil (w r : List Char) (prev : Bool) :
    replaceWWAux w r prev [] = [] := by
  rw [replaceWWAux]
  split <;> rfl

/-- One step of the scanner, phrased through `matchCond`. -/
theorem replaceWWAux_cons (w r : List Char) (prev : Bool) (c : Char)
    (rest : List Char) (hw : w ≠ []) :
    replaceWWAux w r prev (c :: rest) =
      if matchCond w prev (c :: rest) then
        r ++ replaceWWAux w r (isWordChar (((c :: rest).drop (w.length - 1)).headD c))
          ((c :: rest).drop w.length)
      else
        c :: replaceWWAux w r (isWordChar c) rest := by
  conv_lhs => rw [replaceWWAux]
  rw [dif_neg hw]
  simp only [matchCond]

/-- No match can start at a character whose `\w` class differs from the
pattern head's. -/
theorem matchCond_head_ne {w' : List Char} {w0 c : Char} {prev : Bool}
    {rest : List Char} (hne : isWordChar c ≠ isWordChar w0) :
    matchCond (w0 :: w') prev (c :: rest) = false := by
  cases hcc : ciChar c w0 with
  | true => exact absurd (ciChar_isWordChar hcc) hne
  | false => simp [matchCond, ciPrefix, hcc]

/-- No match can start at a word character right after a word character. -/
theorem matchCond_inside_run {w : List Char} {c : Char} {rest : List Char}
    (hc : isWordChar c = true) :
    matchCond w true (c :: rest) = false := by
  cases w <;> simp [matchCond, hc]

/-- No match can start at a non-word character right after a non-word
character (or the string start). -/
theorem matchCond_sep_after_sep {w : List Char} {c : Char} {rest : List Char}
    (hc : isWordChar c = false) :
    matchCond w false (c :: rest) = false := by
  cases w <;> simp [matchCond, hc]

/-- The scanner passes over word characters that follow a word character. -/
theorem scan_skip_inside (w r : List Char) (hw : w ≠ []) :
    ∀ (v x : List Char), v.all isWordChar = true →
      replaceWWAux w r true (v ++ x) = v ++ replaceWWAux w r true x := by
  intro v
  induction v with
  | nil => intro x _; simp
  | cons c v' ih =>
      intro x hall
      simp only [List.all_cons, Bool.and_eq_true] at hall
      rw [List.cons_append, replaceWWAux_cons w r true c (v' ++ x) hw,
        if_neg (by simp [matchCond_inside_run hall.1]), hall.1]
      rw [ih x hall.2, List.cons_append]

/-- On a maximal run that is a case-insensitive copy of the pattern, the
scanner fires: it emits the replacement and resumes after the run with a
word-character context. -/
theorem scan_match_run (w r u x : List Char) (hw : w ≠ [])
    (hu : u ≠ []) (huw : u.all isWordChar = true) (hci : ciEqList u w = true)
    (hx : x = [] ∨ ∃ d x', x = d :: x' ∧ isWordChar d = false) :
    replaceWWAux w r false (u ++ x) = r ++ replaceWWAux w r true x := by
  obtain ⟨c, u', rfl⟩ := List.exists_cons_of_ne_nil hu
  have hlen : (c :: u').length = w.length := ciEqList_length hci
  have hcw : isWordChar c = true := by
    simp only [List.all_cons, Bool.and_eq_true] at huw
    exact huw.1
  have hlast : ((c :: u') ++ x).drop ((c :: u').length - 1) =
      (c :: u').getLast (by simp) :: x := drop_pred_append _ _ (by simp)
  have hlastw : isWordChar ((c :: u').getLast (by simp)) = true :=
    List.all_eq_true.mp huw _ (List.getLast_mem _)
  have hdrop : ((c :: u') ++ x).drop w.length = x := by
    rw [← hlen]
    exact List.drop_left _ _
  have hend : endBoundary w ((c :: u') ++ x) = true := by
    unfold endBoundary
    rw [← hlen, hlast]
    rcases hx with rfl | ⟨d, x', rfl, hd⟩
    · simp [hlastw]
    · simp [hlastw, hd]
  have hmc : matchCond w false ((c :: u') ++ x) = true := by
    have hpre : ciPrefix w ((c :: u') ++ x) = true := ciPrefix_of_ciEqList hci
    simp only [List.cons_append] at hpre hend ⊢
    simp [matchCond, hpre, hcw, hend]
  have hcons := replaceWWAux_cons w r false c (u' ++ x) hw
  simp only [List.cons_append] at hlast hdrop hmc ⊢
  rw [hlen] at hlast
  rw [hcons, if_pos hmc, hdrop, hlast]
  simp [hlastw]

/-- On a maximal run that is not a case-insensitive copy of the pattern, a
word-pattern scanner does not fire anywhere in the run. -/
theorem scan_skip_run (w r u x : List Char) (hw : w ≠ [])
    (hword : w.all isWordChar = true)
    (hu : u ≠ []) (huw : u.all isWordChar = true) (hci : ciEqList u w = false)
    (hx : x = [] ∨ ∃ d x', x = d :: x' ∧ isWordChar d = false) :
    replaceWWAux w r false (u ++ x) = u ++ replaceWWAux w r true x := by
  obtain ⟨c, u', rfl⟩ := List.exists_cons_of_ne_nil hu
  have hcw : isWordChar c = true := by
    simp only [List.all_cons, Bool.and_eq_true] at huw
    exact huw.1
  have hmc : matchCond w false ((c :: u') ++ x) = false := by
    by_contra hne
    have hmt : matchCond w false ((c :: u') ++ x) = true := by
      cases h : matchCond w false ((c :: u') ++ x)
      · exact absurd h hne
      · rfl
    simp only [List.cons_append, matchCond, Bool.and_eq_true] at hmt
    obtain ⟨⟨hpre, _⟩, hend⟩ := hmt
    rcases Nat.lt_trichotomy (c :: u').length w.length with hlt | heq | hgt
    · -- the pattern is longer than the run: it would have to continue into
      -- the separator after the run
      have hdp : ciPrefix (w.drop (c :: u').length) x = true := by
        have := ciPrefix_drop_of_long (u := c :: u') (x := x) (by simpa using hpre) hlt
        exact this
      have hne2 : w.drop (c :: u').length ≠ [] := by
        intro hnil
        have := congrArg List.length hnil
        simp only [List.length_drop, List.length_nil] at this
        omega
      obtain ⟨e, w2, hw2⟩ := List.exists_cons_of_ne_nil hne2
      have hew : isWordChar e = true := by
        have hmem : e ∈ w := by
          have : e ∈ w.drop (c :: u').length := by rw [hw2]; simp
          exact List.drop_subset _ _ this
        exact List.all_eq_true.mp hword _ hmem
      rcases hx with rfl | ⟨d, x', rfl, hd⟩
      · rw [hw2] at hdp
        cases hdp
      · rw [hw2] at hdp
        simp only [ciPrefix, Bool.and_eq_true] at hdp
        have := ciChar_isWordChar hdp.1
        rw [hd, hew] at this
        cases this
    · -- equal length: the run would be a case-insensitive copy
      have := ciEqList_of_ciPrefix (u := c :: u') (x := x) (by simpa using hpre) heq
      rw [hci] at this
      cases this
    · -- the pattern is shorter: the trailing boundary falls inside the run
      have hle : w.length - 1 ≤ (c :: u').length := by omega
      have hsplit : ((c :: u') ++ x).drop (w.length - 1) =
          (c :: u').drop (w.length - 1) ++ x :=
        List.drop_append_of_le_length hle
      have hlen2 : 2 ≤ ((c :: u').drop (w.length - 1)).length := by
        simp only [List.length_drop, List.length_cons]
        have hw1 : 1 ≤ w.length := List.length_pos.mpr hw
        simp only [List.length_cons] at hgt
        omega
      obtain ⟨d, tl, hd⟩ : ∃ d tl, (c :: u').drop (w.length - 1) = d :: tl := by
        cases h : (c :: u').drop (w.length - 1) with
        | nil => rw [h] at hlen2; simp at hlen2
        | cons d tl => exact ⟨d, tl, rfl⟩
      obtain ⟨e, tl2, he⟩ : ∃ e tl2, tl = e :: tl2 := by
        cases h : tl with
        | nil => rw [h] at hd; rw [hd] at hlen2; simp at hlen2
        | cons e tl2 => exact ⟨e, tl2, rfl⟩
      have hdw : isWordChar d = true := by
        have hmem : d ∈ c :: u' :=
          List.drop_subset (w.length - 1) (c :: u') (by rw [hd]; simp)
        exact List.all_eq_true.mp huw _ hmem
      have hew2 : isWordChar e = true := by
        have hmem : e ∈ c :: u' :=
          List.drop_subset (w.length - 1) (c :: u') (by rw [hd, he]; simp)
        exact List.all_eq_true.mp huw _ hmem
      unfold endBoundary at hend
      rw [show (c :: (u' ++ x)).drop (w.length - 1) =
          ((c :: u') ++ x).drop (w.length - 1) from rfl] at hend
      rw [hsplit, hd, he] at hend
      simp only [List.cons_append] at hend
      rw [hdw, hew2] at hend
      simp at hend
  have hcons := replaceWWAux_cons w r false c (u' ++ x) hw
  simp only [List.cons_append] at hmc ⊢
  rw [hcons, if_neg (by rw [hmc]; exact Bool.false_ne_true), hcw]
  rw [scan_skip_inside w r hw u' x (by
    simp only [List.all_cons, Bool.and_eq_true] at huw
    exact huw.2)]

/-- Equivalence of the scanner and the run-map on well-formed token lists,
for a pattern made of word characters: the scanner replaces exactly the
maximal runs that are case-insensitive copies of the pattern. -/
theorem scan_word_rule (w r : List Char) (hw : w ≠ [])
    (hword : w.all isWordChar = true) :
    ∀ (ts : List Tok), wfToks ts = true → ∀ (p : Bool),
      (p = true → noRunHead ts = true) →
      replaceWWAux w r p (flatToks ts) = flatToks (mapRunToks (wordRuleFn w r) ts) := by
  intro ts
  induction ts with
  | nil =>
      intro _ p _
      simp [flatToks_nil, mapRunToks, replaceWWAux_nil]
  | cons t ts' ih =>
      intro hwf p hp
      cases t with
      | sep c =>
          obtain ⟨hc, hwf'⟩ := (wfToks_sep_iff c ts').mp hwf
          obtain ⟨w0, w', rfl⟩ := List.exists_cons_of_ne_nil hw
          have hw0 : isWordChar w0 = true := by
            simp only [List.all_cons, Bool.and_eq_true] at hword
            exact hword.1
          rw [flatToks_cons]
          simp only [Tok.flat, List.cons_append, List.nil_append]
          rw [replaceWWAux_cons _ _ _ _ _ hw,
            if_neg (by
              rw [matchCond_head_ne (by rw [hc, hw0]; exact Bool.false_ne_true)]
              exact Bool.false_ne_true),
            hc]
          rw [ih hwf' false (by intro h; cases h)]
          simp [mapRunToks, flatToks_cons, Tok.flat]
      | run u =>
          obtain ⟨hu, huw, hnr, hwf'⟩ := (wfToks_run_iff u ts').mp hwf
          have hpf : p = false := by
            cases p
            · rfl
            · have := hp rfl
              simp [noRunHead] at this
          subst hpf
          have hx : flatToks ts' = [] ∨
              ∃ d x', flatToks ts' = d :: x' ∧ isWordChar d = false := by
            cases ts' with
            | nil => exact Or.inl rfl
            | cons t2 ts2 =>
                cases t2 with
                | sep d =>
                    obtain ⟨hd, _⟩ := (wfToks_sep_iff d ts2).mp hwf'
                    exact Or.inr ⟨d, flatToks ts2, by
                      rw [flatToks_cons]; simp [Tok.flat], hd⟩
                | run v => simp [noRunHead] at hnr
          rw [flatToks_cons]
          simp only [Tok.flat]
          cases hci : ciEqList u w with
          | true =>
              rw [scan_match_run w r u (flatToks ts') hw hu huw hci hx]
              rw [ih hwf' true (fun _ => hnr)]
              simp [mapRunToks, wordRuleFn, hci, flatToks_cons, Tok.flat]
          | false =>
              rw [scan_skip_run w r u (flatToks ts') hw hword hu huw hci hx]
              rw [ih hwf' true (fun _ => hnr)]
              simp [mapRunToks, wordRuleFn, hci, flatToks_cons, Tok.flat]

/-- A scanner whose pattern starts with a non-word character passes over a
whole run of word characters. -/
theorem scan_run_forward_nonword (w r u x : List Char) (hw : w ≠ [])
    (hu : u ≠ []) (huw : u.all isWordChar = true)
    (hhead : ∀ w0 w', w = w0 :: w' → isWordChar w0 = false) :
    replaceWWAux w r false (u ++ x) = u ++ replaceWWAux w r true x := by
  obtain ⟨c, u', rfl⟩ := List.exists_cons_of_ne_nil hu
  obtain ⟨w0, w', rfl⟩ := List.exists_cons_of_ne_nil hw
  have hcw : isWordChar c = true := by
    simp only [List.all_cons, Bool.and_eq_true] at huw
    exact huw.1
  have hnm : matchCond (w0 :: w') false ((c :: u') ++ x) = false :=
    matchCond_head_ne (by rw [hcw, hhead w0 w' rfl]; decide)
  simp only [List.cons_append] at hnm ⊢
  rw [replaceWWAux_cons _ _ _ _ _ (by simp),
    if_neg (by rw [hnm]; exact Bool.false_ne_true), hcw]
  rw [scan_skip_inside _ _ (by simp) u' x (by
    simp only [List.all_cons, Bool.and_eq_true] at huw
    exact huw.2)]

/-- At a separator preceded by a word character, the `það` scanner fires
exactly when the head token window satisfies the token-level condition. -/
theorem matchCond_thad_at_sep (c : Char) (rest : List Tok)
    (hwf : wfToks (Tok.sep c :: rest) = true) :
    matchCond ['þ', 'a', 'ð'] true (c :: flatToks rest) =
      thadHeadMatch (Tok.sep c :: rest) := by
  obtain ⟨hc, hwf'⟩ := (wfToks_sep_iff c rest).mp hwf
  cases rest with
  | nil => simp [matchCond, ciPrefix, flatToks_nil, thadHeadMatch]
  | cons t2 rest2 =>
      cases t2 with
      | sep d =>
          obtain ⟨hd, _⟩ := (wfToks_sep_iff d rest2).mp hwf'
          have hda : ciChar d 'a' = false := by
            cases h : ciChar d 'a' with
            | false => rfl
            | true =>
                have := ciChar_isWordChar h
                rw [hd] at this
                exact absurd this.symm (by decide)
          rw [flatToks_cons]
          simp [Tok.flat, matchCond, ciPrefix, hda, thadHeadMatch]
      | run a =>
          obtain ⟨hane, haw, hnr2, hwf2⟩ := (wfToks_run_iff a rest2).mp hwf'
          obtain ⟨a1, a', rfl⟩ := List.exists_cons_of_ne_nil hane
          rw [flatToks_cons]
          simp only [Tok.flat, List.cons_append]
          cases a' with
          | cons a2 a'' =>
              have ha2w : isWordChar a2 = true := by
                simp only [List.all_cons, Bool.and_eq_true] at haw
                exact haw.2.1
              have ha2d : ciChar a2 'ð' = false := by
                cases h : ciChar a2 'ð' with
                | false => rfl
                | true =>
                    have := ciChar_isWordChar h
                    rw [ha2w] at this
                    exact absurd this.symm (by decide)
              have hciA : ciEqList (a1 :: a2 :: a'') ['a'] = false := by
                simp [ciEqList]
              have hrhs : thadHeadMatch
                  (Tok.sep c :: Tok.run (a1 :: a2 :: a'') :: rest2) = false := by
                cases rest2 with
                | nil => rfl
                | cons t3 rest3 =>
                    cases t3 with
                    | run _ => rfl
                    | sep c2 =>
                        cases rest3 with
                        | nil => rfl
                        | cons t4 rest4 =>
                            cases t4 with
                            | sep _ => rfl
                            | run _ => simp [thadHeadMatch, hciA]
              rw [hrhs]
              simp [matchCond, ciPrefix, ha2d]
          | nil =>
              cases rest2 with
              | nil =>
                  simp [matchCond, ciPrefix, flatToks_nil, thadHeadMatch, endBoundary]
              | cons t3 rest3 =>
                  cases t3 with
                  | run v => simp [noRunHead] at hnr2
                  | sep c2 =>
                      obtain ⟨hc2, hwf3⟩ := (wfToks_sep_iff c2 rest3).mp hwf2
                      rw [flatToks_cons]
                      simp only [Tok.flat, List.singleton_append]
                      cases rest3 with
                      | nil =>
                          simp [matchCond, ciPrefix, flatToks_nil, thadHeadMatch,
                            endBoundary, hc2]
                      | cons t4 rest4 =>
                          cases t4 with
                          | sep c3 =>
                              obtain ⟨hc3, _⟩ := (wfToks_sep_iff c3 rest4).mp hwf3
                              rw [flatToks_cons]
                              simp only [Tok.flat, List.singleton_append]
                              simp [matchCond, ciPrefix, thadHeadMatch, endBoundary,
                                hc2, hc3]
                          | run r =>
                              obtain ⟨hrne, hrw, _, _⟩ :=
                                (wfToks_run_iff r rest4).mp hwf3
                              obtain ⟨r1, r', rfl⟩ := List.exists_cons_of_ne_nil hrne
                              have hr1w : isWordChar r1 = true := by
                                simp only [List.all_cons, Bool.and_eq_true] at hrw
                                exact hrw.1
                              rw [flatToks_cons]
                              simp only [Tok.flat, List.cons_append]
                              simp [matchCond, ciPrefix, thadHeadMatch, endBoundary,
                                hc, hc2, hr1w, ciEqList, Bool.and_assoc]

/-- A pattern of word characters longer than a run cannot be a
case-insensitive prefix across the run's trailing junction. -/
theorem ciPrefix_run_junction : ∀ (w v x : List Char),
    w.all isWordChar = true → v.all isWordChar = true →
    (x = [] ∨ ∃ d x', x = d :: x' ∧ isWordChar d = false) →
    v.length < w.length → ciPrefix w (v ++ x) = false
  | [], v, x, hword, _, hx, hlen => by simp at hlen
  | e :: w', [], x, hword, _, hx, hlen => by
      have hew : isWordChar e = true := by
        simp only [List.all_cons, Bool.and_eq_true] at hword
        exact hword.1
      rcases hx with rfl | ⟨d, x', rfl, hd⟩
      · rfl
      · have hde : ciChar d e = false := by
          cases h : ciChar d e with
          | false => rfl
          | true =>
              have := ciChar_isWordChar h
              rw [hd, hew] at this
              cases this
        simp [ciPrefix, hde]
  | b :: w', a :: v', x, hword, hv, hx, hlen => by
      simp only [List.all_cons, Bool.and_eq_true] at hv hword
      simp only [List.length_cons] at hlen
      have := ciPrefix_run_junction w' v' x hword.2 hv.2 hx (by omega)
      simp [ciPrefix, this]

/-- At a run with no word character before it, the `rúpeas` scanner fires
exactly when the head token window satisfies the token-level condition. -/
theorem matchCond_rupeas_at_run (u : List Char) (rest : List Tok)
    (hwf : wfToks (Tok.run u :: rest) = true) :
    matchCond ['r', 'ú', 'p', 'e', 'a', 's'] false (flatToks (Tok.run u :: rest)) =
      rupeasHeadMatch (Tok.run u :: rest) := by
  obtain ⟨hune, huw, hnr, hwf'⟩ := (wfToks_run_iff u rest).mp hwf
  obtain ⟨u1, u', rfl⟩ := List.exists_cons_of_ne_nil hune
  rw [flatToks_cons]
  simp only [Tok.flat, List.cons_append]
  cases u' with
  | cons u2 u'' =>
      have hu2w : isWordChar u2 = true := by
        simp only [List.all_cons, Bool.and_eq_true] at huw
        exact huw.2.1
      have hu2 : ciChar u2 'ú' = false := by
        cases h : ciChar u2 'ú' with
        | false => rfl
        | true =>
            have := ciChar_isWordChar h
            rw [hu2w] at this
            exact absurd this.symm (by decide)
      have hciR : ciEqList (u1 :: u2 :: u'') ['r'] = false := by
        simp [ciEqList]
      have hrhs : rupeasHeadMatch (Tok.run (u1 :: u2 :: u'') :: rest) = false := by
        cases rest with
        | nil => rfl
        | cons t2 rest2 =>
            cases t2 with
            | run _ => rfl
            | sep cu =>
                cases rest2 with
                | nil => rfl
                | cons t3 rest3 =>
                    cases t3 with
                    | sep _ => rfl
                    | run _ => simp [rupeasHeadMatch, hciR]
      rw [hrhs]
      simp [matchCond, ciPrefix, hu2]
  | nil =>
      cases rest with
      | nil => simp [matchCond, ciPrefix, flatToks_nil, rupeasHeadMatch]
      | cons t2 rest2 =>
          cases t2 with
          | run _ => simp [noRunHead] at hnr
          | sep cu =>
              obtain ⟨hcu, hwf2⟩ := (wfToks_sep_iff cu rest2).mp hwf'
              rw [flatToks_cons]
              simp only [Tok.flat, List.singleton_append]
              cases rest2 with
              | nil =>
                  simp [matchCond, ciPrefix, flatToks_nil, rupeasHeadMatch]
              | cons t3 rest3 =>
                  cases t3 with
                  | sep c3 =>
                      obtain ⟨hc3, _⟩ := (wfToks_sep_iff c3 rest3).mp hwf2
                      have hc3p : ciChar c3 'p' = false := by
                        cases h : ciChar c3 'p' with
                        | false => rfl
                        | true =>
                            have := ciChar_isWordChar h
                            rw [hc3] at this
                            exact absurd this.symm (by decide)
                      rw [flatToks_cons]
                      simp only [Tok.flat, List.singleton_append]
                      simp [matchCond, ciPrefix, hc3p, rupeasHeadMatch]
                  | run r2 =>
                      obtain ⟨hr2ne, hr2w, hnr3, hwf3⟩ :=
                        (wfToks_run_iff r2 rest3).mp hwf2
                      have hx : flatToks rest3 = [] ∨
                          ∃ d x', flatToks rest3 = d :: x' ∧ isWordChar d = false := by
                        cases rest3 with
                        | nil => exact Or.inl rfl
                        | cons t4 rest4 =>
                            cases t4 with
                            | sep d =>
                                obtain ⟨hd, _⟩ := (wfToks_sep_iff d rest4).mp hwf3
                                exact Or.inr ⟨d, flatToks rest4, by
                                  rw [flatToks_cons]; simp [Tok.flat], hd⟩
                            | run _ => simp [noRunHead] at hnr3
                      rw [flatToks_cons]
                      simp only [Tok.flat, List.cons_append]
                      obtain ⟨b1, b', rfl⟩ := List.exists_cons_of_ne_nil hr2ne
                      have hword4 : (['p', 'e', 'a', 's'] : List Char).all isWordChar
                          = true := by decide
                      cases b' with
                      | nil =>
                          have hj := ciPrefix_run_junction ['e', 'a', 's'] []
                            (flatToks rest3) (by decide) rfl hx (by simp)
                          simp only [List.nil_append] at hj
                          simp [matchCond, ciPrefix, hj, rupeasHeadMatch, ciEqList]
                      | cons b2 b'' =>
                          cases b'' with
                          | nil =>
                              have hj := ciPrefix_run_junction ['a', 's'] []
                                (flatToks rest3) (by decide) rfl hx (by simp)
                              simp only [List.nil_append] at hj
                              simp [matchCond, ciPrefix, hj, rupeasHeadMatch, ciEqList]
                          | cons b3 b''' =>
                              cases b''' with
                              | nil =>
                                  have hj := ciPrefix_run_junction ['s'] []
                                    (flatToks rest3) (by decide) rfl hx (by simp)
                                  simp only [List.nil_append] at hj
                                  simp [matchCond, ciPrefix, hj, rupeasHeadMatch,
                                    ciEqList]
                              | cons b4 b'''' =>
                                  cases b'''' with
                                  | nil =>
                                      have hb4w : isWordChar b4 = true := by
                                        simp only [List.all_cons,
                                          Bool.and_eq_true] at hr2w
                                        exact hr2w.2.2.2.1
                                      have hu1w : isWordChar u1 = true := by
                                        simp only [List.all_cons,
                                          Bool.and_eq_true] at huw
                                        exact huw.1
                                      rcases hx with hx0 | ⟨d, x', hx1, hd⟩
                                      · rw [hx0]
                                        simp [matchCond, ciPrefix, rupeasHeadMatch,
                                          ciEqList, endBoundary, hb4w, hu1w,
                                          Bool.and_assoc]
                                      · rw [hx1]
                                        simp [matchCond, ciPrefix, rupeasHeadMatch,
                                          ciEqList, endBoundary, hb4w, hu1w, hd,
                                          Bool.and_assoc]
                                  | cons b5 b''''' =>
                                      have hb4w : isWordChar b4 = true := by
                                        simp only [List.all_cons,
                                          Bool.and_eq_true] at hr2w
                                        exact hr2w.2.2.2.1
                                      have hb5w : isWordChar b5 = true := by
                                        simp only [List.all_cons,
                                          Bool.and_eq_true] at hr2w
                                        exact hr2w.2.2.2.2.1
                                      have hciR2 : ciEqList
                                          (b1 :: b2 :: b3 :: b4 :: b5 :: b''''')
                                          ['p', 'e', 'a', 's'] = false := by
                                        simp [ciEqList]
                                      have hrhs : rupeasHeadMatch
                                          (Tok.run [u1] :: Tok.sep cu ::
                                            Tok.run (b1 :: b2 :: b3 :: b4 :: b5 ::
                                              b''''') :: rest3) = false := by
                                        simp [rupeasHeadMatch, hciR2]
                                      rw [hrhs]
                                      simp [matchCond, endBoundary, hb4w, hb5w]

/-- The `það` scanner advances over a separator when the head window does not
fire (or when the previous character is not a word character). -/
theorem scan_thad_sep_skip (c : Char) (rest : List Tok) (p : Bool)
    (hwf : wfToks (Tok.sep c :: rest) = true)
    (hp : p = true → thadHeadMatch (Tok.sep c :: rest) = false) :
    replaceWWAux ['þ', 'a', 'ð'] ['t', 'o'] p (flatToks (Tok.sep c :: rest)) =
      c :: replaceWWAux ['þ', 'a', 'ð'] ['t', 'o'] false (flatToks rest) := by
  obtain ⟨hc, hwf'⟩ := (wfToks_sep_iff c rest).mp hwf
  rw [flatToks_cons]
  simp only [Tok.flat, List.singleton_append]
  have hnomatch : matchCond ['þ', 'a', 'ð'] p (c :: flatToks rest) = false := by
    cases p with
    | false => exact matchCond_sep_after_sep hc
    | true => rw [matchCond_thad_at_sep c rest hwf]; exact hp rfl
  rw [replaceWWAux_cons _ _ _ _ _ (by simp),
    if_neg (by rw [hnomatch]; exact Bool.false_ne_true), hc]

/-- The `það` scanner fires on a firing head window after a word character:
it emits `to` and resumes at the following run with a non-word context. -/
theorem scan_thad_sep_fire (c1 : Char) (a : List Char) (c2 : Char)
    (r : List Char) (rest : List Tok)
    (hwf : wfToks (Tok.sep c1 :: Tok.run a :: Tok.sep c2 :: Tok.run r :: rest) = true)
    (hcond : (ciChar c1 'þ' && ciEqList a ['a'] && ciChar c2 'ð') = true) :
    replaceWWAux ['þ', 'a', 'ð'] ['t', 'o'] true
        (flatToks (Tok.sep c1 :: Tok.run a :: Tok.sep c2 :: Tok.run r :: rest)) =
      ['t', 'o'] ++ replaceWWAux ['þ', 'a', 'ð'] ['t', 'o'] false
        (flatToks (Tok.run r :: rest)) := by
  obtain ⟨hc1, hwf2⟩ := (wfToks_sep_iff c1 _).mp hwf
  obtain ⟨hane, haw, _, hwf3⟩ := (wfToks_run_iff a _).mp hwf2
  obtain ⟨hc2, hwf4⟩ := (wfToks_sep_iff c2 _).mp hwf3
  obtain ⟨hrne, hrw, _, _⟩ := (wfToks_run_iff r _).mp hwf4
  simp only [Bool.and_eq_true] at hcond
  obtain ⟨⟨hci1, hcia⟩, hci2⟩ := hcond
  obtain ⟨a1, a', rfl⟩ := List.exists_cons_of_ne_nil hane
  have hanil : a' = [] := by
    have h := ciEqList_length hcia
    simp only [List.length_cons, List.length_nil] at h
    exact List.eq_nil_of_length_eq_zero (by omega)
  subst hanil
  obtain ⟨r1, r', rfl⟩ := List.exists_cons_of_ne_nil hrne
  have hmc : matchCond ['þ', 'a', 'ð'] true
      (c1 :: flatToks (Tok.run [a1] :: Tok.sep c2 :: Tok.run (r1 :: r') :: rest)) =
      true := by
    rw [matchCond_thad_at_sep c1 _ hwf]
    simp [thadHeadMatch, hci1, hcia, hci2]
  rw [flatToks_cons]
  simp only [Tok.flat, List.singleton_append]
  rw [replaceWWAux_cons _ _ _ _ _ (by simp), if_pos hmc]
  rw [flatToks_cons, flatToks_cons, flatToks_cons]
  simp only [Tok.flat, List.singleton_append, List.cons_append, List.nil_append]
  rw [show (['þ', 'a', 'ð'] : List Char).length = 3 from rfl,
    show (3 : Nat) - 1 = 2 from rfl]
  rw [show (c1 :: a1 :: c2 :: (r1 :: (r' ++ flatToks rest))).drop 2 =
      c2 :: (r1 :: (r' ++ flatToks rest)) from rfl]
  rw [show (c1 :: a1 :: c2 :: (r1 :: (r' ++ flatToks rest))).drop 3 =
      r1 :: (r' ++ flatToks rest) from rfl]
  simp only [List.headD_cons]
  rw [hc2]

/-- Equivalence of the scanner and the token pass for `'það' → 'to'`: the
pattern fires exactly on a separator `þ`, run `a`, separator `ð` window
between two runs, merging everything into one run around `to`. -/
theorem scan_thad_rule : ∀ (ts : List Tok), wfToks ts = true → ∀ (p : Bool),
    (p = true → noRunHead ts = true ∧ thadHeadMatch ts = false) →
    replaceWWAux ['þ', 'a', 'ð'] ['t', 'o'] p (flatToks ts) =
      flatToks (tokenPassThad ts) := by
  intro ts
  induction ts using tokenPassThad.induct with
  | case1 l c1 a c2 r rest hcond ih =>
      intro hwf p hp
      obtain ⟨hlne, hlw, _, hwf2⟩ := (wfToks_run_iff l _).mp hwf
      have hpf : p = false := by
        cases p
        · rfl
        · have := (hp rfl).1
          simp [noRunHead] at this
      subst hpf
      rw [flatToks_cons]
      simp only [Tok.flat]
      rw [scan_run_forward_nonword _ _ l _ (by simp) hlne hlw
        (by intro w0 w' h; injection h with h1 _; rw [← h1]; decide)]
      rw [scan_thad_sep_fire c1 a c2 r rest hwf2 hcond]
      obtain ⟨hc1, hwf3⟩ := (wfToks_sep_iff c1 _).mp hwf2
      obtain ⟨_, _, _, hwf4⟩ := (wfToks_run_iff a _).mp hwf3
      obtain ⟨_, hwf5⟩ := (wfToks_sep_iff c2 _).mp hwf4
      rw [ih hwf5 false (by intro h; cases h)]
      have htok : tokenPassThad
          (Tok.run l :: Tok.sep c1 :: Tok.run a :: Tok.sep c2 :: Tok.run r :: rest) =
          mergeOnto (l ++ ['t', 'o']) (tokenPassThad (Tok.run r :: rest)) := by
        simp only [tokenPassThad]
        rw [if_pos hcond]
      rw [htok, flatToks_mergeOnto]
      simp [List.append_assoc]
  | case2 l c1 a c2 r rest hcond ih =>
      intro hwf p hp
      obtain ⟨hlne, hlw, _, hwf2⟩ := (wfToks_run_iff l _).mp hwf
      have hpf : p = false := by
        cases p
        · rfl
        · have := (hp rfl).1
          simp [noRunHead] at this
      subst hpf
      rw [flatToks_cons]
      simp only [Tok.flat]
      rw [scan_run_forward_nonword _ _ l _ (by simp) hlne hlw
        (by intro w0 w' h; injection h with h1 _; rw [← h1]; decide)]
      have hhm : thadHeadMatch
          (Tok.sep c1 :: Tok.run a :: Tok.sep c2 :: Tok.run r :: rest) = false := by
        simp only [thadHeadMatch]
        cases h : (ciChar c1 'þ' && ciEqList a ['a'] && ciChar c2 'ð') with
        | false => rfl
        | true => exact absurd h hcond
      rw [ih hwf2 true (fun _ => ⟨rfl, hhm⟩)]
      have htok : tokenPassThad
          (Tok.run l :: Tok.sep c1 :: Tok.run a :: Tok.sep c2 :: Tok.run r :: rest) =
          Tok.run l :: tokenPassThad
            (Tok.sep c1 :: Tok.run a :: Tok.sep c2 :: Tok.run r :: rest) := by
        simp only [tokenPassThad]
        rw [if_neg hcond]
      rw [htok, flatToks_cons]
      simp [Tok.flat]
  | case3 t rest hshape ih =>
      intro hwf p hp
      cases t with
      | sep c =>
          obtain ⟨hc, hwf'⟩ := (wfToks_sep_iff c _).mp hwf
          rw [scan_thad_sep_skip c rest p hwf (fun hpt => (hp hpt).2)]
          rw [ih hwf' false (by intro h; cases h)]
          have htok : tokenPassThad (Tok.sep c :: rest) =
              Tok.sep c :: tokenPassThad rest := rfl
          rw [htok, flatToks_cons]
          simp [Tok.flat]
      | run u =>
          obtain ⟨hune, huw, hnr, hwf'⟩ := (wfToks_run_iff u _).mp hwf
          have hpf : p = false := by
            cases p
            · rfl
            · have := (hp rfl).1
              simp [noRunHead] at this
          subst hpf
          rw [flatToks_cons]
          simp only [Tok.flat]
          rw [scan_run_forward_nonword _ _ u _ (by simp) hune huw
            (by intro w0 w' h; injection h with h1 _; rw [← h1]; decide)]
          have hhm : thadHeadMatch rest = false := by
            cases rest with
            | nil => rfl
            | cons t2 rest2 =>
                cases t2 with
                | run _ => rfl
                | sep c1 =>
                    cases rest2 with
                    | nil => rfl
                    | cons t3 rest3 =>
                        cases t3 with
                        | sep _ => rfl
                        | run a =>
                            cases rest3 with
                            | nil => rfl
                            | cons t4 rest4 =>
                                cases t4 with
                                | run _ => rfl
                                | sep c2 =>
                                    cases rest4 with
                                    | nil => rfl
                                    | cons t5 rest5 =>
                                        cases t5 with
                                        | sep _ => rfl
                                        | run rr =>
                                            exact (hshape u c1 a c2 rr rest5
                                              rfl rfl).elim
          have hsk : replaceWWAux ['þ', 'a', 'ð'] ['t', 'o'] true (flatToks rest) =
              flatToks (tokenPassThad rest) :=
            ih hwf' true (fun _ => ⟨hnr, hhm⟩)
          rw [hsk]
          have htok : tokenPassThad (Tok.run u :: rest) =
              Tok.run u :: tokenPassThad rest := by
            cases rest with
            | nil => rfl
            | cons t2 rest2 =>
                cases t2 with
                | run _ => rfl
                | sep c1 =>
                    cases rest2 with
                    | nil => rfl
                    | cons t3 rest3 =>
                        cases t3 with
                        | sep _ => rfl
                        | run a =>
                            cases rest3 with
                            | nil => rfl
                            | cons t4 rest4 =>
                                cases t4 with
                                | run _ => rfl
                                | sep c2 =>
                                    cases rest4 with
                                    | nil => rfl
                                    | cons t5 rest5 =>
                                        cases t5 with
                                        | sep _ => rfl
                                        | run rr =>
                                            exact (hshape u c1 a c2 rr rest5
                                              rfl rfl).elim
          rw [htok, flatToks_cons]
          simp [Tok.flat]
  | case4 =>
      intro _ p _
      simp [flatToks_nil, tokenPassThad, replaceWWAux_nil]

/-- Equivalence of the scanner and the token pass for `'rúpeas' → 'rupees'`:
the pattern fires exactly on a run `r`, separator `ú`, run `peas` window,
collapsing it into the run `rupees`. -/
theorem scan_rupeas_rule : ∀ (ts : List Tok), wfToks ts = true → ∀ (p : Bool),
    (p = true → noRunHead ts = true) →
    replaceWWAux ['r', 'ú', 'p', 'e', 'a', 's'] ['r', 'u', 'p', 'e', 'e', 's'] p
        (flatToks ts) =
      flatToks (tokenPassRupeas ts) := by
  intro ts
  induction ts using tokenPassRupeas.induct with
  | case1 r1 cu r2 rest hcond ih =>
      intro hwf p hp
      obtain ⟨hr1ne, hr1w, _, hwf2⟩ := (wfToks_run_iff r1 _).mp hwf
      obtain ⟨hcu, hwf3⟩ := (wfToks_sep_iff cu _).mp hwf2
      obtain ⟨hr2ne, hr2w, hnr3, hwf4⟩ := (wfToks_run_iff r2 _).mp hwf3
      have hpf : p = false := by
        cases p
        · rfl
        · have := hp rfl
          simp [noRunHead] at this
      subst hpf
      have hmc := matchCond_rupeas_at_run r1 (Tok.sep cu :: Tok.run r2 :: rest) hwf
      rw [show rupeasHeadMatch (Tok.run r1 :: Tok.sep cu :: Tok.run r2 :: rest) =
          true from by simp only [rupeasHeadMatch]; exact hcond] at hmc
      simp only [Bool.and_eq_true] at hcond
      obtain ⟨⟨hcir1, hcicu⟩, hcir2⟩ := hcond
      obtain ⟨u1, u', rfl⟩ := List.exists_cons_of_ne_nil hr1ne
      have hunil : u' = [] := by
        have h := ciEqList_length hcir1
        simp only [List.length_cons, List.length_nil] at h
        exact List.eq_nil_of_length_eq_zero (by omega)
      subst hunil
      obtain ⟨b1, b', rfl⟩ := List.exists_cons_of_ne_nil hr2ne
      obtain ⟨b2, b'', rfl⟩ : ∃ y ys, b' = y :: ys := by
        have h := ciEqList_length hcir2
        cases b' with
        | nil => simp at h
        | cons y ys => exact ⟨y, ys, rfl⟩
      obtain ⟨b3, b''', rfl⟩ : ∃ y ys, b'' = y :: ys := by
        have h := ciEqList_length hcir2
        cases b'' with
        | nil => simp at h
        | cons y ys => exact ⟨y, ys, rfl⟩
      obtain ⟨b4, b'''', rfl⟩ : ∃ y ys, b''' = y :: ys := by
        have h := ciEqList_length hcir2
        cases b''' with
        | nil => simp at h
        | cons y ys => exact ⟨y, ys, rfl⟩
      have hb4nil : b'''' = [] := by
        have h := ciEqList_length hcir2
        simp only [List.length_cons, List.length_nil] at h
        exact List.eq_nil_of_length_eq_zero (by omega)
      subst hb4nil
      have hb4w : isWordChar b4 = true := by
        simp only [List.all_cons, Bool.and_eq_true] at hr2w
        exact hr2w.2.2.2.1
      rw [flatToks_cons, flatToks_cons, flatToks_cons] at hmc ⊢
      simp only [Tok.flat, List.singleton_append, List.cons_append,
        List.nil_append] at hmc ⊢
      rw [replaceWWAux_cons _ _ _ _ _ (by simp), if_pos hmc]
      rw [show (['r', 'ú', 'p', 'e', 'a', 's'] : List Char).length = 6 from rfl,
        show (6 : Nat) - 1 = 5 from rfl]
      rw [show (u1 :: cu :: b1 :: b2 :: b3 :: b4 :: flatToks rest).drop 5 =
          b4 :: flatToks rest from rfl]
      rw [show (u1 :: cu :: b1 :: b2 :: b3 :: b4 :: flatToks rest).drop 6 =
          flatToks rest from rfl]
      simp only [List.headD_cons]
      rw [hb4w]
      rw [ih hwf4 true (fun _ => hnr3)]
      have htok : tokenPassRupeas (Tok.run [u1] :: Tok.sep cu ::
          Tok.run [b1, b2, b3, b4] :: rest) =
          Tok.run ['r', 'u', 'p', 'e', 'e', 's'] :: tokenPassRupeas rest := by
        simp only [tokenPassRupeas]
        rw [if_pos (by simp [hcir1, hcicu, hcir2])]
      rw [htok, flatToks_cons]
      simp [Tok.flat]
  | case2 r1 cu r2 rest hcond ih =>
      intro hwf p hp
      obtain ⟨hr1ne, hr1w, _, hwf2⟩ := (wfToks_run_iff r1 _).mp hwf
      have hpf : p = false := by
        cases p
        · rfl
        · have := hp rfl
          simp [noRunHead] at this
      subst hpf
      have hmc := matchCond_rupeas_at_run r1 (Tok.sep cu :: Tok.run r2 :: rest) hwf
      rw [show rupeasHeadMatch (Tok.run r1 :: Tok.sep cu :: Tok.run r2 :: rest) =
          false from by
        simp only [rupeasHeadMatch]
        cases h : (ciEqList r1 ['r'] && ciChar cu 'ú' &&
            ciEqList r2 ['p', 'e', 'a', 's']) with
        | false => rfl
        | true => exact absurd h hcond] at hmc
      obtain ⟨u1, u', rfl⟩ := List.exists_cons_of_ne_nil hr1ne
      have hu1w : isWordChar u1 = true := by
        simp only [List.all_cons, Bool.and_eq_true] at hr1w
        exact hr1w.1
      rw [flatToks_cons] at hmc ⊢
      simp only [Tok.flat, List.cons_append] at hmc ⊢
      rw [replaceWWAux_cons _ _ _ _ _ (by simp),
        if_neg (by rw [hmc]; exact Bool.false_ne_true), hu1w]
      rw [scan_skip_inside _ _ (by simp) u' _ (by
        simp only [List.all_cons, Bool.and_eq_true] at hr1w
        exact hr1w.2)]
      rw [ih hwf2 true (fun _ => rfl)]
      have htok : tokenPassRupeas (Tok.run (u1 :: u') :: Tok.sep cu ::
          Tok.run r2 :: rest) =
          Tok.run (u1 :: u') :: tokenPassRupeas (Tok.sep cu :: Tok.run r2 :: rest) := by
        simp only [tokenPassRupeas]
        rw [if_neg hcond]
      rw [htok, flatToks_cons]
      simp [Tok.flat]
  | case3 t rest hshape ih =>
      intro hwf p hp
      cases t with
      | sep c =>
          obtain ⟨hc, hwf'⟩ := (wfToks_sep_iff c _).mp hwf
          rw [flatToks_cons]
          simp only [Tok.flat, List.singleton_append]
          have hnomatch : matchCond ['r', 'ú', 'p', 'e', 'a', 's'] p
              (c :: flatToks rest) = false := by
            cases p with
            | false => exact matchCond_sep_after_sep hc
            | true => exact matchCond_head_ne (by rw [hc]; decide)
          rw [replaceWWAux_cons _ _ _ _ _ (by simp),
            if_neg (by rw [hnomatch]; exact Bool.false_ne_true), hc]
          rw [ih hwf' false (by intro h; cases h)]
          have htok : tokenPassRupeas (Tok.sep c :: rest) =
              Tok.sep c :: tokenPassRupeas rest := rfl
          rw [htok, flatToks_cons]
          simp [Tok.flat]
      | run u =>
          obtain ⟨hune, huw, hnr, hwf'⟩ := (wfToks_run_iff u _).mp hwf
          have hpf : p = false := by
            cases p
            · rfl
            · have := hp rfl
              simp [noRunHead] at this
          subst hpf
          have hrhm : rupeasHeadMatch (Tok.run u :: rest) = false := by
            cases rest with
            | nil => rfl
            | cons t2 rest2 =>
                cases t2 with
                | run _ => rfl
                | sep cu =>
                    cases rest2 with
                    | nil => rfl
                    | cons t3 rest3 =>
                        cases t3 with
                        | sep _ => rfl
                        | run r2 =>
                            exact (hshape u cu r2 rest3 rfl rfl).elim
          have hmc := matchCond_rupeas_at_run u rest hwf
          rw [hrhm] at hmc
          obtain ⟨u1, u', rfl⟩ := List.exists_cons_of_ne_nil hune
          have hu1w : isWordChar u1 = true := by
            simp only [List.all_cons, Bool.and_eq_true] at huw
            exact huw.1
          rw [flatToks_cons] at hmc ⊢
          simp only [Tok.flat, List.cons_append] at hmc ⊢
          rw [replaceWWAux_cons _ _ _ _ _ (by simp),
            if_neg (by rw [hmc]; exact Bool.false_ne_true), hu1w]
          rw [scan_skip_inside _ _ (by simp) u' _ (by
            simp only [List.all_cons, Bool.and_eq_true] at huw
            exact huw.2)]
          rw [ih hwf' true (fun _ => hnr)]
          have htok : tokenPassRupeas (Tok.run (u1 :: u') :: rest) =
              Tok.run (u1 :: u') :: tokenPassRupeas rest := by
            cases rest with
            | nil => rfl
            | cons t2 rest2 =>
                cases t2 with
                | run _ => rfl
                | sep cu =>
                    cases rest2 with
                    | nil => rfl
                    | cons t3 rest3 =>
                        cases t3 with
                        | sep _ => rfl
                        | run r2 =>
                            exact (hshape (u1 :: u') cu r2 rest3 rfl rfl).elim
          rw [htok, flatToks_cons]
          simp [Tok.flat]
  | case4 =>
      intro _ p _
      simp [flatToks_nil, tokenPassRupeas, replaceWWAux_nil]

/-- Equivalence of the scanner and the token pass for `'að' → 'to'`: the
pattern fires exactly on a maximal run `a` followed by a separator `ð`
followed by a run, merging the replacement into that following run. -/
theorem scan_ad_rule : ∀ (ts : List Tok), wfToks ts = true → ∀ (p : Bool),
    (p = true → noRunHead ts = true) →
    replaceWWAux ['a', 'ð'] ['t', 'o'] p (flatToks ts) =
      flatToks (tokenPassAd ts) := by
  intro ts
  induction ts using tokenPassAd.induct with
  | case1 r1 cu r2 rest hcond ih =>
      intro hwf p hp
      obtain ⟨hr1ne, hr1w, _, hwf2⟩ := (wfToks_run_iff r1 _).mp hwf
      obtain ⟨hcu, hwf3⟩ := (wfToks_sep_iff cu _).mp hwf2
      obtain ⟨hr2ne, hr2w, hnr2, hwf4⟩ := (wfToks_run_iff r2 _).mp hwf3
      simp only [Bool.and_eq_true] at hcond
      obtain ⟨hcir1, hcicu⟩ := hcond
      have hpf : p = false := by
        cases p
        · rfl
        · have := hp rfl
          simp [noRunHead] at this
      subst hpf
      obtain ⟨a1, r1', rfl⟩ := List.exists_cons_of_ne_nil hr1ne
      have hr1nil : r1' = [] := by
        have h := ciEqList_length hcir1
        simp only [List.length_cons, List.length_nil] at h
        exact List.eq_nil_of_length_eq_zero (by omega)
      subst hr1nil
      have ha1 : ciChar a1 'a' = true := by
        simpa [ciEqList] using hcir1
      have ha1w : isWordChar a1 = true := by
        rw [ciChar_isWordChar ha1]
        decide
      have hcuw : isWordChar cu = false := hcu
      obtain ⟨b1, r2', rfl⟩ := List.exists_cons_of_ne_nil hr2ne
      have hb1w : isWordChar b1 = true := by
        simp only [List.all_cons, Bool.and_eq_true] at hr2w
        exact hr2w.1
      rw [flatToks_cons, flatToks_cons, flatToks_cons]
      simp only [Tok.flat, List.cons_append, List.nil_append, List.singleton_append]
      rw [replaceWWAux_cons _ _ _ _ _ (by simp)]
      rw [if_pos (by
        simp [matchCond, ciPrefix, endBoundary, ha1, hcicu, ha1w, hcuw, hb1w])]
      simp only [List.length_cons, List.length_nil, List.length_singleton]
      simp only [show (2 : Nat) - 1 = 1 from rfl, List.drop_succ_cons, List.drop_zero,
        List.drop_one, List.tail_cons, List.headD_cons]
      rw [hcuw]
      have ihh := ih hwf3 false (by intro h; cases h)
      rw [flatToks_cons] at ihh
      simp only [Tok.flat, List.cons_append] at ihh
      rw [ihh]
      have htok : tokenPassAd (Tok.run [a1] :: Tok.sep cu :: Tok.run (b1 :: r2') :: rest) =
          mergeOnto ['t', 'o'] (tokenPassAd (Tok.run (b1 :: r2') :: rest)) := by
        simp only [tokenPassAd]
        rw [if_pos (by simp [hcir1, hcicu])]
      rw [htok, flatToks_mergeOnto]

  | case2 r1 cu r2 rest hcond ih =>
      intro hwf p hp
      obtain ⟨hr1ne, hr1w, _, hwf2⟩ := (wfToks_run_iff r1 _).mp hwf
      obtain ⟨hcu, hwf3⟩ := (wfToks_sep_iff cu _).mp hwf2
      obtain ⟨hr2ne, hr2w, hnr2, hwf4⟩ := (wfToks_run_iff r2 _).mp hwf3
      have hpf : p = false := by
        cases p
        · rfl
        · have := hp rfl
          simp [noRunHead] at this
      subst hpf
      obtain ⟨a1, r1', rfl⟩ := List.exists_cons_of_ne_nil hr1ne
      have ha1w : isWordChar a1 = true := by
        simp only [List.all_cons, Bool.and_eq_true] at hr1w
        exact hr1w.1
      rw [flatToks_cons]
      simp only [Tok.flat, List.cons_append]
      rw [replaceWWAux_cons _ _ _ _ _ (by simp)]
      have hnomatch : matchCond ['a', 'ð'] false
          (a1 :: (r1' ++ flatToks (Tok.sep cu :: Tok.run r2 :: rest))) = false := by
        cases r1' with
        | nil =>
            rw [flatToks_cons]
            simp only [Tok.flat, List.nil_append, List.singleton_append]
            cases hca : ciChar a1 'a' with
            | false => simp [matchCond, ciPrefix, hca]
            | true =>
                cases hcd : ciChar cu 'ð' with
                | false => simp [matchCond, ciPrefix, hca, hcd]
                | true =>
                    exact absurd (by simp [ciEqList, hca, hcd]) hcond
        | cons c2 r1'' =>
            have hc2w : isWordChar c2 = true := by
              simp only [List.all_cons, Bool.and_eq_true] at hr1w
              exact hr1w.2.1
            have hc2 : ciChar c2 'ð' = false := by
              cases h : ciChar c2 'ð' with
              | false => rfl
              | true =>
                  have := ciChar_isWordChar h
                  rw [hc2w] at this
                  exact absurd this.symm (by decide)
            simp [matchCond, ciPrefix, hc2]
      rw [if_neg (by rw [hnomatch]; exact Bool.false_ne_true), ha1w]
      rw [scan_skip_inside _ _ (by simp) r1' _ (by
        simp only [List.all_cons, Bool.and_eq_true] at hr1w
        exact hr1w.2)]
      rw [ih hwf2 true (by intro _; rfl)]
      have htok : tokenPassAd (Tok.run (a1 :: r1') :: Tok.sep cu :: Tok.run r2 :: rest) =
          Tok.run (a1 :: r1') :: tokenPassAd (Tok.sep cu :: Tok.run r2 :: rest) := by
        simp only [tokenPassAd]
        rw [if_neg hcond]
      rw [htok, flatToks_cons]
      simp [Tok.flat]

  | case3 t rest hshape ih =>
      intro hwf p hp
      cases t with
      | sep c =>
          obtain ⟨hc, hwf'⟩ := (wfToks_sep_iff c _).mp hwf
          rw [flatToks_cons]
          simp only [Tok.flat, List.singleton_append]
          rw [replaceWWAux_cons _ _ _ _ _ (by simp)]
          have hnomatch : matchCond ['a', 'ð'] p (c :: flatToks rest) = false := by
            cases p
            · exact matchCond_sep_after_sep hc
            · exact matchCond_head_ne (by rw [hc]; decide)
          rw [if_neg (by rw [hnomatch]; exact Bool.false_ne_true), hc]
          rw [ih hwf' false (by intro h; cases h)]
          simp [tokenPassAd, flatToks_cons, Tok.flat]
      | run u =>
          obtain ⟨hune, huw, hnr, hwf'⟩ := (wfToks_run_iff u _).mp hwf
          have hpf : p = false := by
            cases p
            · rfl
            · have := hp rfl
              simp [noRunHead] at this
          subst hpf
          obtain ⟨u1, u', rfl⟩ := List.exists_cons_of_ne_nil hune
          have hu1w : isWordChar u1 = true := by
            simp only [List.all_cons, Bool.and_eq_true] at huw
            exact huw.1
          rw [flatToks_cons]
          simp only [Tok.flat, List.cons_append]
          rw [replaceWWAux_cons _ _ _ _ _ (by simp)]
          have hnomatch : matchCond ['a', 'ð'] false
              (u1 :: (u' ++ flatToks rest)) = false := by
            cases u' with
            | cons c2 u'' =>
                have hc2w : isWordChar c2 = true := by
                  simp only [List.all_cons, Bool.and_eq_true] at huw
                  exact huw.2.1
                have hc2 : ciChar c2 'ð' = false := by
                  cases h : ciChar c2 'ð' with
                  | false => rfl
                  | true =>
                      have := ciChar_isWordChar h
                      rw [hc2w] at this
                      exact absurd this.symm (by decide)
                simp [matchCond, ciPrefix, hc2]
            | nil =>
                cases hrest : rest with
                | nil => simp [matchCond, ciPrefix, flatToks_nil]
                | cons t2 rest2 =>
                    cases t2 with
                    | run v =>
                        rw [hrest] at hnr
                        simp [noRunHead] at hnr
                    | sep c2 =>
                        rw [hrest] at hwf'
                        obtain ⟨hc2, hwf''⟩ := (wfToks_sep_iff c2 _).mp hwf'
                        rw [flatToks_cons]
                        simp only [Tok.flat, List.nil_append, List.singleton_append]
                        cases hrest2 : rest2 with
                        | nil =>
                            simp [matchCond, endBoundary, flatToks_nil, hc2]
                        | cons t3 rest3 =>
                            cases t3 with
                            | run v =>
                                exact (hshape [u1] c2 v rest3 rfl
                                  (by rw [hrest, hrest2])).elim
                            | sep c3 =>
                                rw [hrest2] at hwf''
                                obtain ⟨hc3, _⟩ := (wfToks_sep_iff c3 _).mp hwf''
                                rw [flatToks_cons]
                                simp only [Tok.flat, List.singleton_append]
                                simp [matchCond, endBoundary, hc2, hc3]
          rw [if_neg (by rw [hnomatch]; exact Bool.false_ne_true), hu1w]
          rw [scan_skip_inside _ _ (by simp) u' _ (by
            simp only [List.all_cons, Bool.and_eq_true] at huw
            exact huw.2)]
          have hnrh : noRunHead rest = true := hnr
          rw [ih hwf' true (fun _ => hnrh)]
          have htok : tokenPassAd (Tok.run (u1 :: u') :: rest) =
              Tok.run (u1 :: u') :: tokenPassAd rest := by
            cases hrest : rest with
            | nil => rfl
            | cons t2 rest2 =>
                cases t2 with
                | run v =>
                    rw [hrest] at hnr
                    simp [noRunHead] at hnr
                | sep c2 =>
                    cases hrest2 : rest2 with
                    | nil => rfl
                    | cons t3 rest3 =>
                        cases t3 with
                        | sep c3 => rfl
                        | run v =>
                            exact (hshape (u1 :: u') c2 v rest3 rfl
                              (by rw [hrest, hrest2])).elim
          rw [htok, flatToks_cons]
          simp [Tok.flat]

  | case4 =>
      intro _ p _
      simp [flatToks_nil, tokenPassAd, replaceWWAux_nil]

/-! ### Well-formedness preservation of the token passes -/

/-- `mapRunToks` preserves the head shape. -/
theorem noRunHead_mapRunToks (f : List Char → List Char) (ts : List Tok) :
    noRunHead (mapRunToks f ts) = noRunHead ts := by
  cases ts with
  | nil => rfl
  | cons t ts' => cases t <;> rfl

/-- `mapRunToks` preserves well-formedness when `f` maps nonempty word runs
to nonempty word runs. -/
theorem wfToks_mapRunToks (f : List Char → List Char)
    (hf : ∀ u, u ≠ [] → u.all isWordChar = true →
      f u ≠ [] ∧ (f u).all isWordChar = true) :
    ∀ ts, wfToks ts = true → wfToks (mapRunToks f ts) = true := by
  intro ts
  induction ts with
  | nil => intro _; rfl
  | cons t ts' ih =>
      intro hwf
      cases t with
      | sep c =>
          obtain ⟨hc, hwf'⟩ := (wfToks_sep_iff c ts').mp hwf
          rw [show mapRunToks f (Tok.sep c :: ts') = Tok.sep c :: mapRunToks f ts'
            from rfl, wfToks_sep_iff]
          exact ⟨hc, ih hwf'⟩
      | run u =>
          obtain ⟨hu, huw, hnr, hwf'⟩ := (wfToks_run_iff u ts').mp hwf
          rw [show mapRunToks f (Tok.run u :: ts') = Tok.run (f u) :: mapRunToks f ts'
            from rfl, wfToks_run_iff]
          obtain ⟨h1, h2⟩ := hf u hu huw
          exact ⟨h1, h2, by rw [noRunHead_mapRunToks]; exact hnr, ih hwf'⟩

/-- The run-map of a word substitution with a nonempty all-word replacement
satisfies the premise of `wfToks_mapRunToks`. -/
theorem wordRuleFn_preserves (w r : List Char) (hr : r ≠ [])
    (hrw : r.all isWordChar = true) :
    ∀ u, u ≠ [] → u.all isWordChar = true →
      wordRuleFn w r u ≠ [] ∧ (wordRuleFn w r u).all isWordChar = true := by
  intro u hu huw
  unfold wordRuleFn
  split
  · exact ⟨hr, hrw⟩
  · exact ⟨hu, huw⟩

/-- A sep-headed (or empty) token list stays sep-headed (or empty) under
`tokenPassRupeas`. -/
theorem noRunHead_tokenPassRupeas (ts : List Tok) (h : noRunHead ts = true) :
    noRunHead (tokenPassRupeas ts) = true := by
  cases ts with
  | nil => rfl
  | cons t ts' =>
      cases t with
      | sep c => rfl
      | run u => simp [noRunHead] at h

/-- `tokenPassRupeas` preserves well-formedness. -/
theorem wfToks_tokenPassRupeas : ∀ ts, wfToks ts = true →
    wfToks (tokenPassRupeas ts) = true := by
  intro ts
  induction ts using tokenPassRupeas.induct with
  | case1 r1 cu r2 rest hcond ih =>
      intro hwf
      obtain ⟨_, _, _, hwf2⟩ := (wfToks_run_iff r1 _).mp hwf
      obtain ⟨_, hwf3⟩ := (wfToks_sep_iff cu _).mp hwf2
      obtain ⟨_, _, hnr3, hwf4⟩ := (wfToks_run_iff r2 _).mp hwf3
      rw [show tokenPassRupeas (Tok.run r1 :: Tok.sep cu :: Tok.run r2 :: rest) =
          Tok.run ['r', 'u', 'p', 'e', 'e', 's'] :: tokenPassRupeas rest from by
        simp only [tokenPassRupeas]; rw [if_pos hcond]]
      rw [wfToks_run_iff]
      exact ⟨by simp, by decide, noRunHead_tokenPassRupeas rest hnr3, ih hwf4⟩
  | case2 r1 cu r2 rest hcond ih =>
      intro hwf
      obtain ⟨hr1, hr1w, _, hwf2⟩ := (wfToks_run_iff r1 _).mp hwf
      rw [show tokenPassRupeas (Tok.run r1 :: Tok.sep cu :: Tok.run r2 :: rest) =
          Tok.run r1 :: tokenPassRupeas (Tok.sep cu :: Tok.run r2 :: rest) from by
        simp only [tokenPassRupeas]; rw [if_neg hcond]]
      rw [wfToks_run_iff]
      exact ⟨hr1, hr1w, by rfl, ih hwf2⟩
  | case3 t rest hshape ih =>
      intro hwf
      cases t with
      | sep c =>
          obtain ⟨hc, hwf'⟩ := (wfToks_sep_iff c _).mp hwf
          rw [show tokenPassRupeas (Tok.sep c :: rest) =
              Tok.sep c :: tokenPassRupeas rest from rfl, wfToks_sep_iff]
          exact ⟨hc, ih hwf'⟩
      | run u =>
          obtain ⟨hu, huw, hnr, hwf'⟩ := (wfToks_run_iff u _).mp hwf
          have htok : tokenPassRupeas (Tok.run u :: rest) =
              Tok.run u :: tokenPassRupeas rest := by
            cases rest with
            | nil => rfl
            | cons t2 rest2 =>
                cases t2 with
                | run _ => rfl
                | sep cu =>
                    cases rest2 with
                    | nil => rfl
                    | cons t3 rest3 =>
                        cases t3 with
                        | sep _ => rfl
                        | run r2 => exact (hshape u cu r2 rest3 rfl rfl).elim
          rw [htok, wfToks_run_iff]
          exact ⟨hu, huw, noRunHead_tokenPassRupeas rest hnr, ih hwf'⟩
  | case4 => intro _; rfl

/-- `tokenPassAd` turns a run-headed list into a run-headed list. -/
theorem tokenPassAd_run_head (u : List Char) (rest : List Tok) :
    ∃ v ts', tokenPassAd (Tok.run u :: rest) = Tok.run v :: ts' := by
  cases rest with
  | nil => exact ⟨u, tokenPassAd [], rfl⟩
  | cons t2 rest2 =>
      cases t2 with
      | run w => exact ⟨u, tokenPassAd (Tok.run w :: rest2), rfl⟩
      | sep c2 =>
          cases rest2 with
          | nil => exact ⟨u, tokenPassAd (Tok.sep c2 :: []), rfl⟩
          | cons t3 rest3 =>
              cases t3 with
              | sep c3 =>
                  exact ⟨u, tokenPassAd (Tok.sep c2 :: Tok.sep c3 :: rest3), rfl⟩
              | run r =>
                  by_cases hcond : (ciEqList u ['a'] && ciChar c2 'ð') = true
                  · rw [show tokenPassAd (Tok.run u :: Tok.sep c2 :: Tok.run r :: rest3) =
                        mergeOnto ['t', 'o'] (tokenPassAd (Tok.run r :: rest3)) from by
                      simp only [tokenPassAd]; rw [if_pos hcond]]
                    cases h : tokenPassAd (Tok.run r :: rest3) with
                    | nil => exact ⟨['t', 'o'], [], rfl⟩
                    | cons t4 ts4 =>
                        cases t4 with
                        | run v => exact ⟨['t', 'o'] ++ v, ts4, rfl⟩
                        | sep d => exact ⟨['t', 'o'], Tok.sep d :: ts4, rfl⟩
                  · rw [show tokenPassAd (Tok.run u :: Tok.sep c2 :: Tok.run r :: rest3) =
                        Tok.run u :: tokenPassAd (Tok.sep c2 :: Tok.run r :: rest3) from by
                      simp only [tokenPassAd]; rw [if_neg hcond]]
                    exact ⟨u, _, rfl⟩

/-- A sep-headed (or empty) token list stays sep-headed (or empty) under
`tokenPassAd`. -/
theorem noRunHead_tokenPassAd (ts : List Tok) (h : noRunHead ts = true) :
    noRunHead (tokenPassAd ts) = true := by
  cases ts with
  | nil => rfl
  | cons t ts' =>
      cases t with
      | sep c => rfl
      | run u => simp [noRunHead] at h

/-- `tokenPassAd` preserves well-formedness. -/
theorem wfToks_tokenPassAd : ∀ ts, wfToks ts = true →
    wfToks (tokenPassAd ts) = true := by
  intro ts
  induction ts using tokenPassAd.induct with
  | case1 r1 cu r2 rest hcond ih =>
      intro hwf
      obtain ⟨_, _, _, hwf2⟩ := (wfToks_run_iff r1 _).mp hwf
      obtain ⟨_, hwf3⟩ := (wfToks_sep_iff cu _).mp hwf2
      rw [show tokenPassAd (Tok.run r1 :: Tok.sep cu :: Tok.run r2 :: rest) =
          mergeOnto ['t', 'o'] (tokenPassAd (Tok.run r2 :: rest)) from by
        simp only [tokenPassAd]; rw [if_pos hcond]]
      obtain ⟨v, ts', hv⟩ := tokenPassAd_run_head r2 rest
      have hwfv : wfToks (Tok.run v :: ts') = true := by
        rw [← hv]
        exact ih hwf3
      obtain ⟨hvne, hvw, hnr', hwf'⟩ := (wfToks_run_iff v ts').mp hwfv
      rw [hv]
      rw [show mergeOnto ['t', 'o'] (Tok.run v :: ts') =
          Tok.run (['t', 'o'] ++ v) :: ts' from rfl, wfToks_run_iff]
      refine ⟨by simp, ?_, hnr', hwf'⟩
      simp only [List.all_append, Bool.and_eq_true]
      exact ⟨by decide, hvw⟩
  | case2 r1 cu r2 rest hcond ih =>
      intro hwf
      obtain ⟨hr1, hr1w, _, hwf2⟩ := (wfToks_run_iff r1 _).mp hwf
      rw [show tokenPassAd (Tok.run r1 :: Tok.sep cu :: Tok.run r2 :: rest) =
          Tok.run r1 :: tokenPassAd (Tok.sep cu :: Tok.run r2 :: rest) from by
        simp only [tokenPassAd]; rw [if_neg hcond]]
      rw [wfToks_run_iff]
      exact ⟨hr1, hr1w, by rfl, ih hwf2⟩
  | case3 t rest hshape ih =>
      intro hwf
      cases t with
      | sep c =>
          obtain ⟨hc, hwf'⟩ := (wfToks_sep_iff c _).mp hwf
          rw [show tokenPassAd (Tok.sep c :: rest) =
              Tok.sep c :: tokenPassAd rest from rfl, wfToks_sep_iff]
          exact ⟨hc, ih hwf'⟩
      | run u =>
          obtain ⟨hu, huw, hnr, hwf'⟩ := (wfToks_run_iff u _).mp hwf
          have htok : tokenPassAd (Tok.run u :: rest) =
              Tok.run u :: tokenPassAd rest := by
            cases rest with
            | nil => rfl
            | cons t2 rest2 =>
                cases t2 with
                | run _ => rfl
                | sep cu =>
                    cases rest2 with
                    | nil => rfl
                    | cons t3 rest3 =>
                        cases t3 with
                        | sep _ => rfl
                        | run r2 => exact (hshape u cu r2 rest3 rfl rfl).elim
          rw [htok, wfToks_run_iff]
          exact ⟨hu, huw, noRunHead_tokenPassAd rest hnr, ih hwf'⟩
  | case4 => intro _; rfl

/-- `tokenPassThad` turns a run-headed list into a run-headed list. -/
theorem tokenPassThad_run_head (u : List Char) (rest : List Tok) :
    ∃ v ts', tokenPassThad (Tok.run u :: rest) = Tok.run v :: ts' := by
  cases rest with
  | nil => exact ⟨u, tokenPassThad [], rfl⟩
  | cons t2 rest2 =>
      cases t2 with
      | run w => exact ⟨u, tokenPassThad (Tok.run w :: rest2), rfl⟩
      | sep c1 =>
          cases rest2 with
          | nil => exact ⟨u, _, rfl⟩
          | cons t3 rest3 =>
              cases t3 with
              | sep c3 => exact ⟨u, _, rfl⟩
              | run a =>
                  cases rest3 with
                  | nil => exact ⟨u, _, rfl⟩
                  | cons t4 rest4 =>
                      cases t4 with
                      | run w => exact ⟨u, _, rfl⟩
                      | sep c2 =>
                          cases rest4 with
                          | nil => exact ⟨u, _, rfl⟩
                          | cons t5 rest5 =>
                              cases t5 with
                              | sep c4 => exact ⟨u, _, rfl⟩
                              | run r =>
                                  by_cases hcond : (ciChar c1 'þ' &&
                                      ciEqList a ['a'] && ciChar c2 'ð') = true
                                  · rw [show tokenPassThad (Tok.run u :: Tok.sep c1 ::
                                        Tok.run a :: Tok.sep c2 :: Tok.run r :: rest5) =
                                        mergeOnto (u ++ ['t', 'o'])
                                          (tokenPassThad (Tok.run r :: rest5)) from by
                                      simp only [tokenPassThad]; rw [if_pos hcond]]
                                    cases h : tokenPassThad (Tok.run r :: rest5) with
                                    | nil => exact ⟨u ++ ['t', 'o'], [], rfl⟩
                                    | cons t6 ts6 =>
                                        cases t6 with
                                        | run v => exact ⟨u ++ ['t', 'o'] ++ v, ts6, rfl⟩
                                        | sep d =>
                                            exact ⟨u ++ ['t', 'o'], Tok.sep d :: ts6, rfl⟩
                                  · rw [show tokenPassThad (Tok.run u :: Tok.sep c1 ::
                                        Tok.run a :: Tok.sep c2 :: Tok.run r :: rest5) =
                                        Tok.run u :: tokenPassThad (Tok.sep c1 ::
                                          Tok.run a :: Tok.sep c2 :: Tok.run r :: rest5)
                                        from by
                                      simp only [tokenPassThad]; rw [if_neg hcond]]
                                    exact ⟨u, _, rfl⟩

/-- A sep-headed (or empty) token list stays sep-headed (or empty) under
`tokenPassThad`. -/
theorem noRunHead_tokenPassThad (ts : List Tok) (h : noRunHead ts = true) :
    noRunHead (tokenPassThad ts) = true := by
  cases ts with
  | nil => rfl
  | cons t ts' =>
      cases t with
      | sep c => rfl
      | run u => simp [noRunHead] at h

/-- `tokenPassThad` preserves well-formedness. -/
theorem wfToks_tokenPassThad : ∀ ts, wfToks ts = true →
    wfToks (tokenPassThad ts) = true := by
  intro ts
  induction ts using tokenPassThad.induct with
  | case1 l c1 a c2 r rest hcond ih =>
      intro hwf
      obtain ⟨hlne, hlw, _, hwf2⟩ := (wfToks_run_iff l _).mp hwf
      obtain ⟨_, hwf3⟩ := (wfToks_sep_iff c1 _).mp hwf2
      obtain ⟨_, _, _, hwf4⟩ := (wfToks_run_iff a _).mp hwf3
      obtain ⟨_, hwf5⟩ := (wfToks_sep_iff c2 _).mp hwf4
      rw [show tokenPassThad (Tok.run l :: Tok.sep c1 :: Tok.run a :: Tok.sep c2 ::
          Tok.run r :: rest) =
          mergeOnto (l ++ ['t', 'o']) (tokenPassThad (Tok.run r :: rest)) from by
        simp only [tokenPassThad]; rw [if_pos hcond]]
      obtain ⟨v, ts', hv⟩ := tokenPassThad_run_head r rest
      have hwfv : wfToks (Tok.run v :: ts') = true := by
        rw [← hv]
        exact ih hwf5
      obtain ⟨hvne, hvw, hnr', hwf'⟩ := (wfToks_run_iff v ts').mp hwfv
      rw [hv]
      rw [show mergeOnto (l ++ ['t', 'o']) (Tok.run v :: ts') =
          Tok.run (l ++ ['t', 'o'] ++ v) :: ts' from rfl, wfToks_run_iff]
      refine ⟨by simp, ?_, hnr', hwf'⟩
      simp only [List.all_append, Bool.and_eq_true]
      exact ⟨⟨hlw, by decide⟩, hvw⟩
  | case2 l c1 a c2 r rest hcond ih =>
      intro hwf
      obtain ⟨hlne, hlw, _, hwf2⟩ := (wfToks_run_iff l _).mp hwf
      rw [show tokenPassThad (Tok.run l :: Tok.sep c1 :: Tok.run a :: Tok.sep c2 ::
          Tok.run r :: rest) =
          Tok.run l :: tokenPassThad (Tok.sep c1 :: Tok.run a :: Tok.sep c2 ::
            Tok.run r :: rest) from by
        simp only [tokenPassThad]; rw [if_neg hcond]]
      rw [wfToks_run_iff]
      exact ⟨hlne, hlw, by rfl, ih hwf2⟩
  | case3 t rest hshape ih =>
      intro hwf
      cases t with
      | sep c =>
          obtain ⟨hc, hwf'⟩ := (wfToks_sep_iff c _).mp hwf
          rw [show tokenPassThad (Tok.sep c :: rest) =
              Tok.sep c :: tokenPassThad rest from rfl, wfToks_sep_iff]
          exact ⟨hc, ih hwf'⟩
      | run u =>
          obtain ⟨hu, huw, hnr, hwf'⟩ := (wfToks_run_iff u _).mp hwf
          have htok : tokenPassThad (Tok.run u :: rest) =
              Tok.run u :: tokenPassThad rest := by
            cases rest with
            | nil => rfl
            | cons t2 rest2 =>
                cases t2 with
                | run _ => rfl
                | sep c1 =>
                    cases rest2 with
                    | nil => rfl
                    | cons t3 rest3 =>
                        cases t3 with
                        | sep _ => rfl
                        | run a =>
                            cases rest3 with
                            | nil => rfl
                            | cons t4 rest4 =>
                                cases t4 with
                                | run _ => rfl
                                | sep c2 =>
                                    cases rest4 with
                                    | nil => rfl
                                    | cons t5 rest5 =>
                                        cases t5 with
                                        | sep _ => rfl
                                        | run rr =>
                                            exact (hshape u c1 a c2 rr rest5
                                              rfl rfl).elim
          rw [htok, wfToks_run_iff]
          exact ⟨hu, huw, noRunHead_tokenPassThad rest hnr, ih hwf'⟩
  | case4 => intro _; rfl

/-! ### Run provenance of the token passes

A run of a pass's output is either a run of the input, the pass's literal
replacement run, or (for the merging passes) a merged run that contains the
inserted character `t`.  This is what keeps earlier substitutions from ever
matching again. -/

/-- Runs of `mapRunToks` come from runs of the input through `f`. -/
theorem mem_mapRunToks (f : List Char → List Char) :
    ∀ (ts : List Tok) (u : List Char), Tok.run u ∈ mapRunToks f ts →
      ∃ v, Tok.run v ∈ ts ∧ u = f v := by
  intro ts
  induction ts with
  | nil => intro u h; cases h
  | cons t ts' ih =>
      intro u h
      cases t with
      | sep c =>
          rw [show mapRunToks f (Tok.sep c :: ts') = Tok.sep c :: mapRunToks f ts'
            from rfl] at h
          rcases List.mem_cons.mp h with h1 | h2
          · cases h1
          · obtain ⟨v, hv, rfl⟩ := ih u h2
            exact ⟨v, List.mem_cons_of_mem _ hv, rfl⟩
      | run w =>
          rw [show mapRunToks f (Tok.run w :: ts') = Tok.run (f w) :: mapRunToks f ts'
            from rfl] at h
          rcases List.mem_cons.mp h with h1 | h2
          · exact ⟨w, List.mem_cons_self _ _, by injection h1⟩
          · obtain ⟨v, hv, rfl⟩ := ih u h2
            exact ⟨v, List.mem_cons_of_mem _ hv, rfl⟩

/-- Runs of `tokenPassRupeas` output: an input run or the literal `rupees`. -/
theorem mem_tokenPassRupeas : ∀ (ts : List Tok) (u : List Char),
    Tok.run u ∈ tokenPassRupeas ts →
      Tok.run u ∈ ts ∨ u = ['r', 'u', 'p', 'e', 'e', 's'] := by
  intro ts
  induction ts using tokenPassRupeas.induct with
  | case1 r1 cu r2 rest hcond ih =>
      intro u h
      rw [show tokenPassRupeas (Tok.run r1 :: Tok.sep cu :: Tok.run r2 :: rest) =
          Tok.run ['r', 'u', 'p', 'e', 'e', 's'] :: tokenPassRupeas rest from by
        simp only [tokenPassRupeas]; rw [if_pos hcond]] at h
      rcases List.mem_cons.mp h with h1 | h2
      · exact Or.inr (by injection h1)
      · rcases ih u h2 with h3 | h3
        · exact Or.inl (by simp [h3])
        · exact Or.inr h3
  | case2 r1 cu r2 rest hcond ih =>
      intro u h
      rw [show tokenPassRupeas (Tok.run r1 :: Tok.sep cu :: Tok.run r2 :: rest) =
          Tok.run r1 :: tokenPassRupeas (Tok.sep cu :: Tok.run r2 :: rest) from by
        simp only [tokenPassRupeas]; rw [if_neg hcond]] at h
      rcases List.mem_cons.mp h with h1 | h2
      · exact Or.inl (by simp [h1])
      · rcases ih u h2 with h3 | h3
        · exact Or.inl (List.mem_cons_of_mem _ h3)
        · exact Or.inr h3
  | case3 t rest hshape ih =>
      intro u h
      have htok : tokenPassRupeas (t :: rest) = t :: tokenPassRupeas rest := by
        cases t with
        | sep c => rfl
        | run w =>
            cases rest with
            | nil => rfl
            | cons t2 rest2 =>
                cases t2 with
                | run _ => rfl
                | sep cu =>
                    cases rest2 with
                    | nil => rfl
                    | cons t3 rest3 =>
                        cases t3 with
                        | sep _ => rfl
                        | run r2 => exact (hshape w cu r2 rest3 rfl rfl).elim
      rw [htok] at h
      rcases List.mem_cons.mp h with h1 | h2
      · exact Or.inl (by simp [h1])
      · rcases ih u h2 with h3 | h3
        · exact Or.inl (List.mem_cons_of_mem _ h3)
        · exact Or.inr h3
  | case4 => intro u h; cases h

/-- Runs of `tokenPassAd` output: an input run or a merged run containing the
inserted `t`. -/
theorem mem_tokenPassAd : ∀ (ts : List Tok) (u : List Char),
    Tok.run u ∈ tokenPassAd ts → Tok.run u ∈ ts ∨ 't' ∈ u := by
  intro ts
  induction ts using tokenPassAd.induct with
  | case1 r1 cu r2 rest hcond ih =>
      intro u h
      rw [show tokenPassAd (Tok.run r1 :: Tok.sep cu :: Tok.run r2 :: rest) =
          mergeOnto ['t', 'o'] (tokenPassAd (Tok.run r2 :: rest)) from by
        simp only [tokenPassAd]; rw [if_pos hcond]] at h
      have hmem : Tok.run u ∈ Tok.run ['t', 'o'] :: tokenPassAd (Tok.run r2 :: rest) ∨
          (∃ v ts', tokenPassAd (Tok.run r2 :: rest) = Tok.run v :: ts' ∧
            u = ['t', 'o'] ++ v) := by
        cases hshape : tokenPassAd (Tok.run r2 :: rest) with
        | nil =>
            rw [hshape] at h
            simp only [mergeOnto] at h
            exact Or.inl h
        | cons t4 ts4 =>
            cases t4 with
            | sep d =>
                rw [hshape] at h
                simp only [mergeOnto] at h
                exact Or.inl h
            | run v =>
                rw [hshape] at h
                simp only [mergeOnto] at h
                rcases List.mem_cons.mp h with h1 | h2
                · exact Or.inr ⟨v, ts4, rfl, by injection h1⟩
                · exact Or.inl (List.mem_cons_of_mem _ (List.mem_cons_of_mem _ h2))
      rcases hmem with hmem | ⟨v, ts', hv, rfl⟩
      · rcases List.mem_cons.mp hmem with h1 | h2
        · exact Or.inr (by rw [show u = ['t', 'o'] from by injection h1]; simp)
        · rcases ih u h2 with h3 | h3
          · rcases List.mem_cons.mp h3 with h4 | h4
            · exact Or.inl (by
                rw [h4]
                exact List.mem_cons_of_mem _ (List.mem_cons_of_mem _
                  (List.mem_cons_self _ _)))
            · exact Or.inl (List.mem_cons_of_mem _ (List.mem_cons_of_mem _
                (List.mem_cons_of_mem _ h4)))
          · exact Or.inr h3
      · exact Or.inr (by simp)
  | case2 r1 cu r2 rest hcond ih =>
      intro u h
      rw [show tokenPassAd (Tok.run r1 :: Tok.sep cu :: Tok.run r2 :: rest) =
          Tok.run r1 :: tokenPassAd (Tok.sep cu :: Tok.run r2 :: rest) from by
        simp only [tokenPassAd]; rw [if_neg hcond]] at h
      rcases List.mem_cons.mp h with h1 | h2
      · exact Or.inl (by simp [h1])
      · rcases ih u h2 with h3 | h3
        · exact Or.inl (List.mem_cons_of_mem _ h3)
        · exact Or.inr h3
  | case3 t rest hshape ih =>
      intro u h
      have htok : tokenPassAd (t :: rest) = t :: tokenPassAd rest := by
        cases t with
        | sep c => rfl
        | run w =>
            cases rest with
            | nil => rfl
            | cons t2 rest2 =>
                cases t2 with
                | run _ => rfl
                | sep cu =>
                    cases rest2 with
                    | nil => rfl
                    | cons t3 rest3 =>
                        cases t3 with
                        | sep _ => rfl
                        | run r2 => exact (hshape w cu r2 rest3 rfl rfl).elim
      rw [htok] at h
      rcases List.mem_cons.mp h with h1 | h2
      · exact Or.inl (by simp [h1])
      · rcases ih u h2 with h3 | h3
        · exact Or.inl (List.mem_cons_of_mem _ h3)
        · exact Or.inr h3
  | case4 => intro u h; cases h

/-- Runs of `tokenPassThad` output: an input run or a merged run containing
the inserted `t`. -/
theorem mem_tokenPassThad : ∀ (ts : List Tok) (u : List Char),
    Tok.run u ∈ tokenPassThad ts → Tok.run u ∈ ts ∨ 't' ∈ u := by
  intro ts
  induction ts using tokenPassThad.induct with
  | case1 l c1 a c2 r rest hcond ih =>
      intro u h
      rw [show tokenPassThad (Tok.run l :: Tok.sep c1 :: Tok.run a :: Tok.sep c2 ::
          Tok.run r :: rest) =
          mergeOnto (l ++ ['t', 'o']) (tokenPassThad (Tok.run r :: rest)) from by
        simp only [tokenPassThad]; rw [if_pos hcond]] at h
      have hmem : Tok.run u ∈ Tok.run (l ++ ['t', 'o']) ::
            tokenPassThad (Tok.run r :: rest) ∨
          (∃ v ts', tokenPassThad (Tok.run r :: rest) = Tok.run v :: ts' ∧
            u = l ++ ['t', 'o'] ++ v) := by
        cases hshape : tokenPassThad (Tok.run r :: rest) with
        | nil =>
            rw [hshape] at h
            simp only [mergeOnto] at h
            exact Or.inl h
        | cons t6 ts6 =>
            cases t6 with
            | sep d =>
                rw [hshape] at h
                simp only [mergeOnto] at h
                exact Or.inl h
            | run v =>
                rw [hshape] at h
                simp only [mergeOnto] at h
                rcases List.mem_cons.mp h with h1 | h2
                · exact Or.inr ⟨v, ts6, rfl, by injection h1⟩
                · exact Or.inl (List.mem_cons_of_mem _ (List.mem_cons_of_mem _ h2))
      rcases hmem with hmem | ⟨v, ts', hv, rfl⟩
      · rcases List.mem_cons.mp hmem with h1 | h2
        · exact Or.inr (by rw [show u = l ++ ['t', 'o'] from by injection h1]; simp)
        · rcases ih u h2 with h3 | h3
          · rcases List.mem_cons.mp h3 with h4 | h4
            · exact Or.inl (by
                rw [h4]
                exact List.mem_cons_of_mem _ (List.mem_cons_of_mem _
                  (List.mem_cons_of_mem _ (List.mem_cons_of_mem _
                    (List.mem_cons_self _ _)))))
            · exact Or.inl (List.mem_cons_of_mem _ (List.mem_cons_of_mem _
                (List.mem_cons_of_mem _ (List.mem_cons_of_mem _
                  (List.mem_cons_of_mem _ h4)))))
          · exact Or.inr h3
      · exact Or.inr (by simp)
  | case2 l c1 a c2 r rest hcond ih =>
      intro u h
      rw [show tokenPassThad (Tok.run l :: Tok.sep c1 :: Tok.run a :: Tok.sep c2 ::
          Tok.run r :: rest) =
          Tok.run l :: tokenPassThad (Tok.sep c1 :: Tok.run a :: Tok.sep c2 ::
            Tok.run r :: rest) from by
        simp only [tokenPassThad]; rw [if_neg hcond]] at h
      rcases List.mem_cons.mp h with h1 | h2
      · exact Or.inl (by simp [h1])
      · rcases ih u h2 with h3 | h3
        · exact Or.inl (List.mem_cons_of_mem _ h3)
        · exact Or.inr h3
  | case3 t rest hshape ih =>
      intro u h
      have htok : tokenPassThad (t :: rest) = t :: tokenPassThad rest := by
        cases t with
        | sep c => rfl
        | run w =>
            cases rest with
            | nil => rfl
            | cons t2 rest2 =>
                cases t2 with
                | run _ => rfl
                | sep c1 =>
                    cases rest2 with
                    | nil => rfl
                    | cons t3 rest3 =>
                        cases t3 with
                        | sep _ => rfl
                        | run a =>
                            cases rest3 with
                            | nil => rfl
                            | cons t4 rest4 =>
                                cases t4 with
                                | run _ => rfl
                                | sep c2 =>
                                    cases rest4 with
                                    | nil => rfl
                                    | cons t5 rest5 =>
                                        cases t5 with
                                        | sep _ => rfl
                                        | run rr =>
                                            exact (hshape w c1 a c2 rr rest5
                                              rfl rfl).elim
      rw [htok] at h
      rcases List.mem_cons.mp h with h1 | h2
      · exact Or.inl (by simp [h1])
      · rcases ih u h2 with h3 | h3
        · exact Or.inl (List.mem_cons_of_mem _ h3)
        · exact Or.inr h3
  | case4 => intro u h; cases h

/-! ### Run-level invariants: self-clearing and preservation

After a word-pattern substitution with replacement `r` not case-insensitively
equal to its own pattern `w`, no run equals `w` any more; and this property
survives every later pass, because later passes only create runs equal to
their own replacements or merged runs containing the inserted `t`. -/

/-- A run containing `t` is not case-insensitively equal to a word whose
lowering avoids `t`. -/
theorem ciEqList_false_of_t_mem {p : List Char} (hp : 't' ∉ p.map lowerJS)
    {u : List Char} (ht : 't' ∈ u) : ciEqList u p = false := by
  cases hciq : ciEqList u p with
  | false => rfl
  | true =>
      have := ciEqList_mem_lower hciq 't' ht
      rw [show lowerJS 't' = 't' from rfl] at this
      exact (hp this).elim

/-- Self-clearing: after the word rule `w → r` (with `r` not matching `w`),
no run matches `w`. -/
theorem runsAvoid_self (w r : List Char) (hrw : ciEqList r w = false)
    (ts : List Tok) : RunsAvoid w (mapRunToks (wordRuleFn w r) ts) := by
  intro u hu
  obtain ⟨v, _hv, rfl⟩ := mem_mapRunToks _ ts u hu
  unfold wordRuleFn
  split
  · exact hrw
  · next h => exact Bool.not_eq_true _ ▸ h

/-- Self-fixing for `anuj → Anuj`: every run matching `anuj` after the rule is
literally `Anuj`. -/
theorem runsFixed_self (w r : List Char) (ts : List Tok) :
    RunsFixed w r (mapRunToks (wordRuleFn w r) ts) := by
  intro u hu hciq
  obtain ⟨v, _hv, rfl⟩ := mem_mapRunToks _ ts u hu
  by_cases hcv : ciEqList v w = true
  · simp [wordRuleFn, hcv]
  · rw [show wordRuleFn w r v = v from by simp [wordRuleFn, hcv]] at hciq
    exact absurd hciq hcv

/-- `RunsAvoid` is preserved by any later word rule whose replacement does not
match `p`. -/
theorem runsAvoid_mapRunToks (p w r : List Char) (hrp : ciEqList r p = false)
    (ts : List Tok) (h : RunsAvoid p ts) :
    RunsAvoid p (mapRunToks (wordRuleFn w r) ts) := by
  intro u hu
  obtain ⟨v, hv, rfl⟩ := mem_mapRunToks _ ts u hu
  unfold wordRuleFn
  split
  · exact hrp
  · exact h v hv

/-- `RunsAvoid` is preserved by the `rúpeas` pass when `rupees` does not match
`p`. -/
theorem runsAvoid_tokenPassRupeas (p : List Char)
    (hrp : ciEqList ['r', 'u', 'p', 'e', 'e', 's'] p = false)
    (ts : List Tok) (h : RunsAvoid p ts) : RunsAvoid p (tokenPassRupeas ts) := by
  intro u hu
  rcases mem_tokenPassRupeas ts u hu with h1 | rfl
  · exact h u h1
  · exact hrp

/-- `RunsAvoid` is preserved by the `það` pass when the lowering of `p` avoids
`t`. -/
theorem runsAvoid_tokenPassThad (p : List Char) (hp : 't' ∉ p.map lowerJS)
    (ts : List Tok) (h : RunsAvoid p ts) : RunsAvoid p (tokenPassThad ts) := by
  intro u hu
  rcases mem_tokenPassThad ts u hu with h1 | h1
  · exact h u h1
  · exact ciEqList_false_of_t_mem hp h1

/-- `RunsAvoid` is preserved by the `að` pass when the lowering of `p` avoids
`t`. -/
theorem runsAvoid_tokenPassAd (p : List Char) (hp : 't' ∉ p.map lowerJS)
    (ts : List Tok) (h : RunsAvoid p ts) : RunsAvoid p (tokenPassAd ts) := by
  intro u hu
  rcases mem_tokenPassAd ts u hu with h1 | h1
  · exact h u h1
  · exact ciEqList_false_of_t_mem hp h1

/-- `RunsFixed` is preserved by a later word rule whose replacement does not
match `p`. -/
theorem runsFixed_mapRunToks (p q w r : List Char) (hrp : ciEqList r p = false)
    (ts : List Tok) (h : RunsFixed p q ts) :
    RunsFixed p q (mapRunToks (wordRuleFn w r) ts) := by
  intro u hu hciq
  obtain ⟨v, hv, rfl⟩ := mem_mapRunToks _ ts u hu
  by_cases hcv : ciEqList v w = true
  · rw [show wordRuleFn w r v = r from by simp [wordRuleFn, hcv]] at hciq ⊢
    exact absurd hciq (by simp [hrp])
  · rw [show wordRuleFn w r v = v from by simp [wordRuleFn, hcv]] at hciq ⊢
    exact h v hv hciq

/-- `RunsFixed` is preserved by the `rúpeas` pass when `rupees` does not match
`p`. -/
theorem runsFixed_tokenPassRupeas (p q : List Char)
    (hrp : ciEqList ['r', 'u', 'p', 'e', 'e', 's'] p = false)
    (ts : List Tok) (h : RunsFixed p q ts) : RunsFixed p q (tokenPassRupeas ts) := by
  intro u hu hciq
  rcases mem_tokenPassRupeas ts u hu with h1 | rfl
  · exact h u h1 hciq
  · exact absurd hciq (by simp [hrp])

/-- `RunsFixed` is preserved by the `það` pass when the lowering of `p` avoids
`t`. -/
theorem runsFixed_tokenPassThad (p q : List Char) (hp : 't' ∉ p.map lowerJS)
    (ts : List Tok) (h : RunsFixed p q ts) : RunsFixed p q (tokenPassThad ts) := by
  intro u hu hciq
  rcases mem_tokenPassThad ts u hu with h1 | h1
  · exact h u h1 hciq
  · exact absurd hciq (by simp [ciEqList_false_of_t_mem hp h1])

/-- `RunsFixed` is preserved by the `að` pass when the lowering of `p` avoids
`t`. -/
theorem runsFixed_tokenPassAd (p q : List Char) (hp : 't' ∉ p.map lowerJS)
    (ts : List Tok) (h : RunsFixed p q ts) : RunsFixed p q (tokenPassAd ts) := by
  intro u hu hciq
  rcases mem_tokenPassAd ts u hu with h1 | h1
  · exact h u h1 hciq
  · exact absurd hciq (by simp [ciEqList_false_of_t_mem hp h1])

/-! ### Head shapes of the merging passes -/

/-- The head run of `tokenPassRupeas` on a run-headed list is the original run
or the literal `rupees`. -/
theorem tokenPassRupeas_run_head_cases (u : List Char) (rest : List Tok) :
    ∃ v ts', tokenPassRupeas (Tok.run u :: rest) = Tok.run v :: ts' ∧
      (v = u ∨ v = ['r', 'u', 'p', 'e', 'e', 's']) := by
  cases rest with
  | nil => exact ⟨u, _, rfl, Or.inl rfl⟩
  | cons t2 rest2 =>
      cases t2 with
      | run w => exact ⟨u, _, rfl, Or.inl rfl⟩
      | sep cu =>
          cases rest2 with
          | nil => exact ⟨u, _, rfl, Or.inl rfl⟩
          | cons t3 rest3 =>
              cases t3 with
              | sep d => exact ⟨u, _, rfl, Or.inl rfl⟩
              | run r2 =>
                  by_cases hcond : (ciEqList u ['r'] && ciChar cu 'ú' &&
                      ciEqList r2 ['p', 'e', 'a', 's']) = true
                  · refine ⟨['r', 'u', 'p', 'e', 'e', 's'], tokenPassRupeas rest3,
                      ?_, Or.inr rfl⟩
                    simp only [tokenPassRupeas]
                    rw [if_pos hcond]
                  · refine ⟨u, tokenPassRupeas (Tok.sep cu :: Tok.run r2 :: rest3),
                      ?_, Or.inl rfl⟩
                    simp only [tokenPassRupeas]
                    rw [if_neg hcond]

/-- The head run of `tokenPassAd` on a run-headed list is the original run or
a merged run containing the inserted `t`. -/
theorem tokenPassAd_run_head_cases (u : List Char) (rest : List Tok) :
    ∃ v ts', tokenPassAd (Tok.run u :: rest) = Tok.run v :: ts' ∧
      (v = u ∨ 't' ∈ v) := by
  cases rest with
  | nil => exact ⟨u, _, rfl, Or.inl rfl⟩
  | cons t2 rest2 =>
      cases t2 with
      | run w => exact ⟨u, _, rfl, Or.inl rfl⟩
      | sep c2 =>
          cases rest2 with
          | nil => exact ⟨u, _, rfl, Or.inl rfl⟩
          | cons t3 rest3 =>
              cases t3 with
              | sep d => exact ⟨u, _, rfl, Or.inl rfl⟩
              | run r =>
                  by_cases hcond : (ciEqList u ['a'] && ciChar c2 'ð') = true
                  · obtain ⟨v0, ts0, hv0⟩ := tokenPassAd_run_head r rest3
                    refine ⟨['t', 'o'] ++ v0, ts0, ?_, Or.inr (by simp)⟩
                    simp only [tokenPassAd]
                    rw [if_pos hcond, hv0]
                    rfl
                  · refine ⟨u, tokenPassAd (Tok.sep c2 :: Tok.run r :: rest3),
                      ?_, Or.inl rfl⟩
                    simp only [tokenPassAd]
                    rw [if_neg hcond]

/-- The head run of `tokenPassThad` on a run-headed list is the original run
or a merged run containing the inserted `t`. -/
theorem tokenPassThad_run_head_cases (u : List Char) (rest : List Tok) :
    ∃ v ts', tokenPassThad (Tok.run u :: rest) = Tok.run v :: ts' ∧
      (v = u ∨ 't' ∈ v) := by
  cases rest with
  | nil => exact ⟨u, _, rfl, Or.inl rfl⟩
  | cons t2 rest2 =>
      cases t2 with
      | run w => exact ⟨u, _, rfl, Or.inl rfl⟩
      | sep c1 =>
          cases rest2 with
          | nil => exact ⟨u, _, rfl, Or.inl rfl⟩
          | cons t3 rest3 =>
              cases t3 with
              | sep d => exact ⟨u, _, rfl, Or.inl rfl⟩
              | run a =>
                  cases rest3 with
                  | nil => exact ⟨u, _, rfl, Or.inl rfl⟩
                  | cons t4 rest4 =>
                      cases t4 with
                      | run w => exact ⟨u, _, rfl, Or.inl rfl⟩
                      | sep c2 =>
                          cases rest4 with
                          | nil => exact ⟨u, _, rfl, Or.inl rfl⟩
                          | cons t5 rest5 =>
                              cases t5 with
                              | sep d => exact ⟨u, _, rfl, Or.inl rfl⟩
                              | run r =>
                                  by_cases hcond : (ciChar c1 'þ' &&
                                      ciEqList a ['a'] && ciChar c2 'ð') = true
                                  · obtain ⟨v0, ts0, hv0⟩ :=
                                      tokenPassThad_run_head r rest5
                                    refine ⟨u ++ ['t', 'o'] ++ v0, ts0, ?_,
                                      Or.inr (by simp)⟩
                                    simp only [tokenPassThad]
                                    rw [if_pos hcond, hv0]
                                    rfl
                                  · refine ⟨u, tokenPassThad (Tok.sep c1 ::
                                        Tok.run a :: Tok.sep c2 :: Tok.run r ::
                                        rest5), ?_, Or.inl rfl⟩
                                    simp only [tokenPassThad]
                                    rw [if_neg hcond]

/-! ### Identity of a pass once its pattern is gone -/

/-- A word rule is the identity on a token list whose matching runs are
already the replacement. -/
theorem mapRunToks_id_of_fixed (w r : List Char) :
    ∀ ts : List Tok, RunsFixed w r ts → mapRunToks (wordRuleFn w r) ts = ts := by
  intro ts
  induction ts with
  | nil => intro _; rfl
  | cons t ts' ih =>
      intro h
      cases t with
      | sep c =>
          rw [show mapRunToks (wordRuleFn w r) (Tok.sep c :: ts') =
              Tok.sep c :: mapRunToks (wordRuleFn w r) ts' from rfl,
            ih (fun u hu hc => h u (List.mem_cons_of_mem _ hu) hc)]
      | run u =>
          rw [show mapRunToks (wordRuleFn w r) (Tok.run u :: ts') =
              Tok.run (wordRuleFn w r u) :: mapRunToks (wordRuleFn w r) ts' from rfl,
            ih (fun v hv hc => h v (List.mem_cons_of_mem _ hv) hc)]
          by_cases hcu : ciEqList u w = true
          · have hur := h u (List.mem_cons_self _ _) hcu
            simp [wordRuleFn, hcu, hur]
          · simp [wordRuleFn, hcu]

/-- A word rule is the identity on a token list with no matching run. -/
theorem mapRunToks_id_of_avoid (w r : List Char) (ts : List Tok)
    (h : RunsAvoid w ts) : mapRunToks (wordRuleFn w r) ts = ts :=
  mapRunToks_id_of_fixed w r ts
    (fun u hu hc => absurd hc (by simp [h u hu]))

/-- The `rúpeas` pass is the identity when its window pattern is absent. -/
theorem tokenPassRupeas_id : ∀ ts : List Tok, hasPatRupeas ts = false →
    tokenPassRupeas ts = ts := by
  intro ts
  induction ts using tokenPassRupeas.induct with
  | case1 r1 cu r2 rest hcond ih =>
      intro h
      exact absurd (by
        rw [show hasPatRupeas (Tok.run r1 :: Tok.sep cu :: Tok.run r2 :: rest) =
          ((ciEqList r1 ['r'] && ciChar cu 'ú' && ciEqList r2 ['p', 'e', 'a', 's']) ||
            hasPatRupeas (Tok.sep cu :: Tok.run r2 :: rest)) from rfl,
          hcond] at h
        exact h) (by simp)
  | case2 r1 cu r2 rest hcond ih =>
      intro h
      rw [show hasPatRupeas (Tok.run r1 :: Tok.sep cu :: Tok.run r2 :: rest) =
        ((ciEqList r1 ['r'] && ciChar cu 'ú' && ciEqList r2 ['p', 'e', 'a', 's']) ||
          hasPatRupeas (Tok.sep cu :: Tok.run r2 :: rest)) from rfl,
        Bool.or_eq_false_iff] at h
      rw [show tokenPassRupeas (Tok.run r1 :: Tok.sep cu :: Tok.run r2 :: rest) =
          Tok.run r1 :: tokenPassRupeas (Tok.sep cu :: Tok.run r2 :: rest) from by
        simp only [tokenPassRupeas]; rw [if_neg hcond]]
      rw [ih h.2]
  | case3 t rest hshape ih =>
      intro h
      have htok : tokenPassRupeas (t :: rest) = t :: tokenPassRupeas rest := by
        cases t with
        | sep c => rfl
        | run w =>
            cases rest with
            | nil => rfl
            | cons t2 rest2 =>
                cases t2 with
                | run _ => rfl
                | sep cu =>
                    cases rest2 with
                    | nil => rfl
                    | cons t3 rest3 =>
                        cases t3 with
                        | sep _ => rfl
                        | run r2 => exact (hshape w cu r2 rest3 rfl rfl).elim
      have hpat : hasPatRupeas (t :: rest) = hasPatRupeas rest := by
        cases t with
        | sep c => rfl
        | run w =>
            cases rest with
            | nil => rfl
            | cons t2 rest2 =>
                cases t2 with
                | run _ => rfl
                | sep cu =>
                    cases rest2 with
                    | nil => rfl
                    | cons t3 rest3 =>
                        cases t3 with
                        | sep _ => rfl
                        | run r2 => exact (hshape w cu r2 rest3 rfl rfl).elim
      rw [htok, ih (hpat ▸ h)]
  | case4 => intro _; rfl

/-- The `það` pass is the identity when its window pattern is absent. -/
theorem tokenPassThad_id : ∀ ts : List Tok, hasPatThad ts = false →
    tokenPassThad ts = ts := by
  intro ts
  induction ts using tokenPassThad.induct with
  | case1 l c1 a c2 r rest hcond ih =>
      intro h
      exact absurd (by
        rw [show hasPatThad (Tok.run l :: Tok.sep c1 :: Tok.run a :: Tok.sep c2 ::
            Tok.run r :: rest) =
          ((ciChar c1 'þ' && ciEqList a ['a'] && ciChar c2 'ð') ||
            hasPatThad (Tok.sep c1 :: Tok.run a :: Tok.sep c2 :: Tok.run r :: rest))
            from rfl, hcond] at h
        exact h) (by simp)
  | case2 l c1 a c2 r rest hcond ih =>
      intro h
      rw [show hasPatThad (Tok.run l :: Tok.sep c1 :: Tok.run a :: Tok.sep c2 ::
          Tok.run r :: rest) =
        ((ciChar c1 'þ' && ciEqList a ['a'] && ciChar c2 'ð') ||
          hasPatThad (Tok.sep c1 :: Tok.run a :: Tok.sep c2 :: Tok.run r :: rest))
          from rfl, Bool.or_eq_false_iff] at h
      rw [show tokenPassThad (Tok.run l :: Tok.sep c1 :: Tok.run a :: Tok.sep c2 ::
          Tok.run r :: rest) =
          Tok.run l :: tokenPassThad (Tok.sep c1 :: Tok.run a :: Tok.sep c2 ::
            Tok.run r :: rest) from by
        simp only [tokenPassThad]; rw [if_neg hcond]]
      rw [ih h.2]
  | case3 t rest hshape ih =>
      intro h
      have htok : tokenPassThad (t :: rest) = t :: tokenPassThad rest := by
        cases t with
        | sep c => rfl
        | run w =>
            cases rest with
            | nil => rfl
            | cons t2 rest2 =>
                cases t2 with
                | run _ => rfl
                | sep c1 =>
                    cases rest2 with
                    | nil => rfl
                    | cons t3 rest3 =>
                        cases t3 with
                        | sep _ => rfl
                        | run a =>
                            cases rest3 with
                            | nil => rfl
                            | cons t4 rest4 =>
                                cases t4 with
                                | run _ => rfl
                                | sep c2 =>
                                    cases rest4 with
                                    | nil => rfl
                                    | cons t5 rest5 =>
                                        cases t5 with
                                        | sep _ => rfl
                                        | run rr =>
                                            exact (hshape w c1 a c2 rr rest5
                                              rfl rfl).elim
      have hpat : hasPatThad (t :: rest) = hasPatThad rest := by
        cases t with
        | sep c => rfl
        | run w =>
            cases rest with
            | nil => rfl
            | cons t2 rest2 =>
                cases t2 with
                | run _ => rfl
                | sep c1 =>
                    cases rest2 with
                    | nil => rfl
                    | cons t3 rest3 =>
                        cases t3 with
                        | sep _ => rfl
                        | run a =>
                            cases rest3 with
                            | nil => rfl
                            | cons t4 rest4 =>
                                cases t4 with
                                | run _ => rfl
                                | sep c2 =>
                                    cases rest4 with
                                    | nil => rfl
                                    | cons t5 rest5 =>
                                        cases t5 with
                                        | sep _ => rfl
                                        | run rr =>
                                            exact (hshape w c1 a c2 rr rest5
                                              rfl rfl).elim
      rw [htok, ih (hpat ▸ h)]
  | case4 => intro _; rfl

/-- The `að` pass is the identity when its window pattern is absent. -/
theorem tokenPassAd_id : ∀ ts : List Tok, hasPatAd ts = false →
    tokenPassAd ts = ts := by
  intro ts
  induction ts using tokenPassAd.induct with
  | case1 r1 cu r2 rest hcond ih =>
      intro h
      exact absurd (by
        rw [show hasPatAd (Tok.run r1 :: Tok.sep cu :: Tok.run r2 :: rest) =
          ((ciEqList r1 ['a'] && ciChar cu 'ð') ||
            hasPatAd (Tok.sep cu :: Tok.run r2 :: rest)) from rfl,
          hcond] at h
        exact h) (by simp)
  | case2 r1 cu r2 rest hcond ih =>
      intro h
      rw [show hasPatAd (Tok.run r1 :: Tok.sep cu :: Tok.run r2 :: rest) =
        ((ciEqList r1 ['a'] && ciChar cu 'ð') ||
          hasPatAd (Tok.sep cu :: Tok.run r2 :: rest)) from rfl,
        Bool.or_eq_false_iff] at h
      rw [show tokenPassAd (Tok.run r1 :: Tok.sep cu :: Tok.run r2 :: rest) =
          Tok.run r1 :: tokenPassAd (Tok.sep cu :: Tok.run r2 :: rest) from by
        simp only [tokenPassAd]; rw [if_neg hcond]]
      rw [ih h.2]
  | case3 t rest hshape ih =>
      intro h
      have htok : tokenPassAd (t :: rest) = t :: tokenPassAd rest := by
        cases t with
        | sep c => rfl
        | run w =>
            cases rest with
            | nil => rfl
            | cons t2 rest2 =>
                cases t2 with
                | run _ => rfl
                | sep cu =>
                    cases rest2 with
                    | nil => rfl
                    | cons t3 rest3 =>
                        cases t3 with
                        | sep _ => rfl
                        | run r2 => exact (hshape w cu r2 rest3 rfl rfl).elim
      have hpat : hasPatAd (t :: rest) = hasPatAd rest := by
        cases t with
        | sep c => rfl
        | run w =>
            cases rest with
            | nil => rfl
            | cons t2 rest2 =>
                cases t2 with
                | run _ => rfl
                | sep cu =>
                    cases rest2 with
                    | nil => rfl
                    | cons t3 rest3 =>
                        cases t3 with
                        | sep _ => rfl
                        | run r2 => exact (hshape w cu r2 rest3 rfl rfl).elim
      rw [htok, ih (hpat ▸ h)]
  | case4 => intro _; rfl

/-! ### The merging passes clear their own pattern -/

/-- Replacing the head run by one that cannot be `r` preserves the absence of
the `rúpeas` window. -/
theorem hasPatRupeas_replace_head (u v : List Char)
    (hu1 : ciEqList u ['r'] = false) (ts' : List Tok)
    (h : hasPatRupeas (Tok.run v :: ts') = false) :
    hasPatRupeas (Tok.run u :: ts') = false := by
  cases ts' with
  | nil => rfl
  | cons t1 ts1 =>
    cases t1 with
    | run y =>
        rw [show hasPatRupeas (Tok.run u :: Tok.run y :: ts1) =
          hasPatRupeas (Tok.run y :: ts1) from rfl]
        rw [show hasPatRupeas (Tok.run v :: Tok.run y :: ts1) =
          hasPatRupeas (Tok.run y :: ts1) from rfl] at h
        exact h
    | sep d =>
      cases ts1 with
      | nil => rfl
      | cons t2 ts2 =>
        cases t2 with
        | sep e =>
            rw [show hasPatRupeas (Tok.run u :: Tok.sep d :: Tok.sep e :: ts2) =
              hasPatRupeas (Tok.sep d :: Tok.sep e :: ts2) from rfl]
            rw [show hasPatRupeas (Tok.run v :: Tok.sep d :: Tok.sep e :: ts2) =
              hasPatRupeas (Tok.sep d :: Tok.sep e :: ts2) from rfl] at h
            exact h
        | run y =>
            rw [show hasPatRupeas (Tok.run u :: Tok.sep d :: Tok.run y :: ts2) =
              ((ciEqList u ['r'] && ciChar d 'ú' && ciEqList y ['p', 'e', 'a', 's']) ||
                hasPatRupeas (Tok.sep d :: Tok.run y :: ts2)) from rfl]
            rw [show hasPatRupeas (Tok.run v :: Tok.sep d :: Tok.run y :: ts2) =
              ((ciEqList v ['r'] && ciChar d 'ú' && ciEqList y ['p', 'e', 'a', 's']) ||
                hasPatRupeas (Tok.sep d :: Tok.run y :: ts2)) from rfl,
              Bool.or_eq_false_iff] at h
            simp [hu1, h.2]

/-- Replacing the head run by one that cannot be `a` preserves the absence of
the `að` window. -/
theorem hasPatAd_replace_head (u v : List Char)
    (hu1 : ciEqList u ['a'] = false) (ts' : List Tok)
    (h : hasPatAd (Tok.run v :: ts') = false) :
    hasPatAd (Tok.run u :: ts') = false := by
  cases ts' with
  | nil => rfl
  | cons t1 ts1 =>
    cases t1 with
    | run y =>
        rw [show hasPatAd (Tok.run u :: Tok.run y :: ts1) =
          hasPatAd (Tok.run y :: ts1) from rfl]
        rw [show hasPatAd (Tok.run v :: Tok.run y :: ts1) =
          hasPatAd (Tok.run y :: ts1) from rfl] at h
        exact h
    | sep d =>
      cases ts1 with
      | nil => rfl
      | cons t2 ts2 =>
        cases t2 with
        | sep e =>
            rw [show hasPatAd (Tok.run u :: Tok.sep d :: Tok.sep e :: ts2) =
              hasPatAd (Tok.sep d :: Tok.sep e :: ts2) from rfl]
            rw [show hasPatAd (Tok.run v :: Tok.sep d :: Tok.sep e :: ts2) =
              hasPatAd (Tok.sep d :: Tok.sep e :: ts2) from rfl] at h
            exact h
        | run y =>
            rw [show hasPatAd (Tok.run u :: Tok.sep d :: Tok.run y :: ts2) =
              ((ciEqList u ['a'] && ciChar d 'ð') ||
                hasPatAd (Tok.sep d :: Tok.run y :: ts2)) from rfl]
            rw [show hasPatAd (Tok.run v :: Tok.sep d :: Tok.run y :: ts2) =
              ((ciEqList v ['a'] && ciChar d 'ð') ||
                hasPatAd (Tok.sep d :: Tok.run y :: ts2)) from rfl,
              Bool.or_eq_false_iff] at h
            simp [hu1, h.2]

/-- The `það` window test does not look at the first run. -/
theorem hasPatThad_cons_run_irrel (u v : List Char) (ts' : List Tok) :
    hasPatThad (Tok.run u :: ts') = hasPatThad (Tok.run v :: ts') := by
  cases ts' with
  | nil => rfl
  | cons t1 ts1 =>
    cases t1 with
    | run _ => rfl
    | sep d =>
      cases ts1 with
      | nil => rfl
      | cons t2 ts2 =>
        cases t2 with
        | sep _ => rfl
        | run y =>
          cases ts2 with
          | nil => rfl
          | cons t3 ts3 =>
            cases t3 with
            | run _ => rfl
            | sep e =>
              cases ts3 with
              | nil => rfl
              | cons t4 ts4 =>
                cases t4 with
                | sep _ => rfl
                | run z => rfl

/-- Prepending a run that cannot be `r` to a list without the `rúpeas` window
keeps the window absent. -/
theorem hasPatRupeas_cons_run (u : List Char) (hu1 : ciEqList u ['r'] = false)
    (W : List Tok) (h : hasPatRupeas W = false) :
    hasPatRupeas (Tok.run u :: W) = false := by
  cases W with
  | nil => rfl
  | cons t1 W1 =>
    cases t1 with
    | run y =>
        rw [show hasPatRupeas (Tok.run u :: Tok.run y :: W1) =
          hasPatRupeas (Tok.run y :: W1) from rfl]
        exact h
    | sep d =>
      cases W1 with
      | nil => rfl
      | cons t2 W2 =>
        cases t2 with
        | sep e =>
            rw [show hasPatRupeas (Tok.run u :: Tok.sep d :: Tok.sep e :: W2) =
              hasPatRupeas (Tok.sep d :: Tok.sep e :: W2) from rfl]
            exact h
        | run y =>
            rw [show hasPatRupeas (Tok.run u :: Tok.sep d :: Tok.run y :: W2) =
              ((ciEqList u ['r'] && ciChar d 'ú' && ciEqList y ['p', 'e', 'a', 's']) ||
                hasPatRupeas (Tok.sep d :: Tok.run y :: W2)) from rfl]
            simp [hu1, h]

/-- Prepending a run that cannot be `a` to a list without the `að` window
keeps the window absent. -/
theorem hasPatAd_cons_run (u : List Char) (hu1 : ciEqList u ['a'] = false)
    (W : List Tok) (h : hasPatAd W = false) :
    hasPatAd (Tok.run u :: W) = false := by
  cases W with
  | nil => rfl
  | cons t1 W1 =>
    cases t1 with
    | run y =>
        rw [show hasPatAd (Tok.run u :: Tok.run y :: W1) =
          hasPatAd (Tok.run y :: W1) from rfl]
        exact h
    | sep d =>
      cases W1 with
      | nil => rfl
      | cons t2 W2 =>
        cases t2 with
        | sep e =>
            rw [show hasPatAd (Tok.run u :: Tok.sep d :: Tok.sep e :: W2) =
              hasPatAd (Tok.sep d :: Tok.sep e :: W2) from rfl]
            exact h
        | run y =>
            rw [show hasPatAd (Tok.run u :: Tok.sep d :: Tok.run y :: W2) =
              ((ciEqList u ['a'] && ciChar d 'ð') ||
                hasPatAd (Tok.sep d :: Tok.run y :: W2)) from rfl]
            simp [hu1, h]

/-- After the `rúpeas` pass no `rúpeas` window remains. -/
theorem hasPatRupeas_tokenPassRupeas : ∀ ts : List Tok,
    hasPatRupeas (tokenPassRupeas ts) = false := by
  intro ts
  induction ts using tokenPassRupeas.induct with
  | case1 r1 cu r2 rest hcond ih =>
      rw [show tokenPassRupeas (Tok.run r1 :: Tok.sep cu :: Tok.run r2 :: rest) =
          Tok.run ['r', 'u', 'p', 'e', 'e', 's'] :: tokenPassRupeas rest from by
        simp only [tokenPassRupeas]; rw [if_pos hcond]]
      exact hasPatRupeas_cons_run _ (by decide) _ ih
  | case2 r1 cu r2 rest hcond ih =>
      rw [show tokenPassRupeas (Tok.run r1 :: Tok.sep cu :: Tok.run r2 :: rest) =
          Tok.run r1 :: tokenPassRupeas (Tok.sep cu :: Tok.run r2 :: rest) from by
        simp only [tokenPassRupeas]; rw [if_neg hcond]]
      rw [show tokenPassRupeas (Tok.sep cu :: Tok.run r2 :: rest) =
        Tok.sep cu :: tokenPassRupeas (Tok.run r2 :: rest) from rfl]
      obtain ⟨v, ts', hv, hvcase⟩ := tokenPassRupeas_run_head_cases r2 rest
      rw [hv]
      have htail : hasPatRupeas (Tok.sep cu :: Tok.run v :: ts') = false := by
        rw [show hasPatRupeas (Tok.sep cu :: Tok.run v :: ts') =
          hasPatRupeas (Tok.run v :: ts') from rfl, ← hv]
        rw [show tokenPassRupeas (Tok.sep cu :: Tok.run r2 :: rest) =
          Tok.sep cu :: tokenPassRupeas (Tok.run r2 :: rest) from rfl,
          show hasPatRupeas (Tok.sep cu :: tokenPassRupeas (Tok.run r2 :: rest)) =
            hasPatRupeas (tokenPassRupeas (Tok.run r2 :: rest)) from rfl] at ih
        exact ih
      rw [show hasPatRupeas (Tok.run r1 :: Tok.sep cu :: Tok.run v :: ts') =
        ((ciEqList r1 ['r'] && ciChar cu 'ú' && ciEqList v ['p', 'e', 'a', 's']) ||
          hasPatRupeas (Tok.sep cu :: Tok.run v :: ts')) from rfl,
        Bool.or_eq_false_iff]
      rcases hvcase with rfl | rfl
      · exact ⟨Bool.not_eq_true _ ▸ hcond, htail⟩
      · exact ⟨by simp [show ciEqList ['r', 'u', 'p', 'e', 'e', 's']
          ['p', 'e', 'a', 's'] = false from by decide], htail⟩
  | case3 t rest hshape ih =>
      have htok : tokenPassRupeas (t :: rest) = t :: tokenPassRupeas rest := by
        cases t with
        | sep c => rfl
        | run w =>
            cases rest with
            | nil => rfl
            | cons t2 rest2 =>
                cases t2 with
                | run _ => rfl
                | sep cu =>
                    cases rest2 with
                    | nil => rfl
                    | cons t3 rest3 =>
                        cases t3 with
                        | sep _ => rfl
                        | run r2 => exact (hshape w cu r2 rest3 rfl rfl).elim
      rw [htok]
      cases t with
      | sep c =>
          rw [show hasPatRupeas (Tok.sep c :: tokenPassRupeas rest) =
            hasPatRupeas (tokenPassRupeas rest) from rfl]
          exact ih
      | run u =>
          cases rest with
          | nil => rfl
          | cons t2 rest2 =>
            cases t2 with
            | run y =>
                obtain ⟨v, ts', hv, _⟩ := tokenPassRupeas_run_head_cases y rest2
                rw [hv]
                rw [show hasPatRupeas (Tok.run u :: Tok.run v :: ts') =
                  hasPatRupeas (Tok.run v :: ts') from rfl, ← hv]
                exact ih
            | sep d =>
                have hnr2 : noRunHead rest2 = true := by
                  cases rest2 with
                  | nil => rfl
                  | cons t3 rest3 =>
                      cases t3 with
                      | sep _ => rfl
                      | run r2 => exact (hshape u d r2 rest3 rfl rfl).elim
                rw [show tokenPassRupeas (Tok.sep d :: rest2) =
                  Tok.sep d :: tokenPassRupeas rest2 from rfl]
                have hnr : noRunHead (tokenPassRupeas rest2) = true :=
                  noRunHead_tokenPassRupeas rest2 hnr2
                have hih : hasPatRupeas (tokenPassRupeas rest2) = false := by
                  rw [show tokenPassRupeas (Tok.sep d :: rest2) =
                    Tok.sep d :: tokenPassRupeas rest2 from rfl,
                    show hasPatRupeas (Tok.sep d :: tokenPassRupeas rest2) =
                      hasPatRupeas (tokenPassRupeas rest2) from rfl] at ih
                  exact ih
                cases hW2 : tokenPassRupeas rest2 with
                | nil => rfl
                | cons t3 W3 =>
                    cases t3 with
                    | run y => rw [hW2] at hnr; simp [noRunHead] at hnr
                    | sep e =>
                        rw [show hasPatRupeas (Tok.run u :: Tok.sep d ::
                            Tok.sep e :: W3) =
                          hasPatRupeas (Tok.sep d :: Tok.sep e :: W3) from rfl,
                          show hasPatRupeas (Tok.sep d :: Tok.sep e :: W3) =
                            hasPatRupeas (Tok.sep e :: W3) from rfl]
                        rw [hW2] at hih
                        exact hih
  | case4 => rfl

/-- After the `að` pass no `að` window remains. -/
theorem hasPatAd_tokenPassAd : ∀ ts : List Tok,
    hasPatAd (tokenPassAd ts) = false := by
  intro ts
  induction ts using tokenPassAd.induct with
  | case1 r1 cu r2 rest hcond ih =>
      rw [show tokenPassAd (Tok.run r1 :: Tok.sep cu :: Tok.run r2 :: rest) =
          mergeOnto ['t', 'o'] (tokenPassAd (Tok.run r2 :: rest)) from by
        simp only [tokenPassAd]; rw [if_pos hcond]]
      obtain ⟨v, ts', hv⟩ := tokenPassAd_run_head r2 rest
      rw [hv, show mergeOnto ['t', 'o'] (Tok.run v :: ts') =
        Tok.run (['t', 'o'] ++ v) :: ts' from rfl]
      rw [hv] at ih
      exact hasPatAd_replace_head _ v
        (ciEqList_false_of_t_mem (by decide) (by simp)) ts' ih
  | case2 r1 cu r2 rest hcond ih =>
      rw [show tokenPassAd (Tok.run r1 :: Tok.sep cu :: Tok.run r2 :: rest) =
          Tok.run r1 :: tokenPassAd (Tok.sep cu :: Tok.run r2 :: rest) from by
        simp only [tokenPassAd]; rw [if_neg hcond]]
      rw [show tokenPassAd (Tok.sep cu :: Tok.run r2 :: rest) =
        Tok.sep cu :: tokenPassAd (Tok.run r2 :: rest) from rfl]
      obtain ⟨v, ts', hv⟩ := tokenPassAd_run_head r2 rest
      rw [hv]
      have htail : hasPatAd (Tok.sep cu :: Tok.run v :: ts') = false := by
        rw [show hasPatAd (Tok.sep cu :: Tok.run v :: ts') =
          hasPatAd (Tok.run v :: ts') from rfl, ← hv]
        rw [show tokenPassAd (Tok.sep cu :: Tok.run r2 :: rest) =
          Tok.sep cu :: tokenPassAd (Tok.run r2 :: rest) from rfl,
          show hasPatAd (Tok.sep cu :: tokenPassAd (Tok.run r2 :: rest)) =
            hasPatAd (tokenPassAd (Tok.run r2 :: rest)) from rfl] at ih
        exact ih
      rw [show hasPatAd (Tok.run r1 :: Tok.sep cu :: Tok.run v :: ts') =
        ((ciEqList r1 ['a'] && ciChar cu 'ð') ||
          hasPatAd (Tok.sep cu :: Tok.run v :: ts')) from rfl,
        Bool.or_eq_false_iff]
      exact ⟨Bool.not_eq_true _ ▸ hcond, htail⟩
  | case3 t rest hshape ih =>
      have htok : tokenPassAd (t :: rest) = t :: tokenPassAd rest := by
        cases t with
        | sep c => rfl
        | run w =>
            cases rest with
            | nil => rfl
            | cons t2 rest2 =>
                cases t2 with
                | run _ => rfl
                | sep cu =>
                    cases rest2 with
                    | nil => rfl
                    | cons t3 rest3 =>
                        cases t3 with
                        | sep _ => rfl
                        | run r2 => exact (hshape w cu r2 rest3 rfl rfl).elim
      rw [htok]
      cases t with
      | sep c =>
          rw [show hasPatAd (Tok.sep c :: tokenPassAd rest) =
            hasPatAd (tokenPassAd rest) from rfl]
          exact ih
      | run u =>
          cases rest with
          | nil => rfl
          | cons t2 rest2 =>
            cases t2 with
            | run y =>
                obtain ⟨v, ts', hv⟩ := tokenPassAd_run_head y rest2
                rw [hv]
                rw [show hasPatAd (Tok.run u :: Tok.run v :: ts') =
                  hasPatAd (Tok.run v :: ts') from rfl, ← hv]
                exact ih
            | sep d =>
                have hnr2 : noRunHead rest2 = true := by
                  cases rest2 with
                  | nil => rfl
                  | cons t3 rest3 =>
                      cases t3 with
                      | sep _ => rfl
                      | run r2 => exact (hshape u d r2 rest3 rfl rfl).elim
                rw [show tokenPassAd (Tok.sep d :: rest2) =
                  Tok.sep d :: tokenPassAd rest2 from rfl]
                have hnr : noRunHead (tokenPassAd rest2) = true :=
                  noRunHead_tokenPassAd rest2 hnr2
                have hih : hasPatAd (tokenPassAd rest2) = false := by
                  rw [show tokenPassAd (Tok.sep d :: rest2) =
                    Tok.sep d :: tokenPassAd rest2 from rfl,
                    show hasPatAd (Tok.sep d :: tokenPassAd rest2) =
                      hasPatAd (tokenPassAd rest2) from rfl] at ih
                  exact ih
                cases hW2 : tokenPassAd rest2 with
                | nil => rfl
                | cons t3 W3 =>
                    cases t3 with
                    | run y => rw [hW2] at hnr; simp [noRunHead] at hnr
                    | sep e =>
                        rw [show hasPatAd (Tok.run u :: Tok.sep d ::
                            Tok.sep e :: W3) =
                          hasPatAd (Tok.sep d :: Tok.sep e :: W3) from rfl,
                          show hasPatAd (Tok.sep d :: Tok.sep e :: W3) =
                            hasPatAd (Tok.sep e :: W3) from rfl]
                        rw [hW2] at hih
                        rw [show hasPatAd (Tok.sep e :: W3) =
                          hasPatAd W3 from rfl]
                        rw [show hasPatAd (Tok.sep e :: W3) =
                          hasPatAd W3 from rfl] at hih
                        exact hih
  | case4 => rfl

/-- Lists of different lengths are never case-insensitively equal. -/
theorem ciEqList_false_of_length_ne {u w : List Char} (h : u.length ≠ w.length) :
    ciEqList u w = false := by
  cases hc : ciEqList u w with
  | false => rfl
  | true => exact absurd (ciEqList_length hc) h

/-- A head `það` window needs its middle run to match `a`. -/
theorem thadHeadMatch_sep_run (c1 : Char) (M : List Char)
    (hM : ciEqList M ['a'] = false) (ts : List Tok) :
    thadHeadMatch (Tok.sep c1 :: Tok.run M :: ts) = false := by
  cases ts with
  | nil => rfl
  | cons t1 ts1 =>
    cases t1 with
    | run _ => rfl
    | sep c2 =>
      cases ts1 with
      | nil => rfl
      | cons t2 ts2 =>
        cases t2 with
        | sep _ => rfl
        | run r =>
            rw [show thadHeadMatch (Tok.sep c1 :: Tok.run M :: Tok.sep c2 ::
                Tok.run r :: ts2) =
              (ciChar c1 'þ' && ciEqList M ['a'] && ciChar c2 'ð') from rfl]
            simp [hM]

/-- Prepending a run to a list without the `það` window, whose head is not a
matching window remainder, keeps the window absent. -/
theorem hasPatThad_cons_run (u : List Char) (W : List Tok)
    (h : hasPatThad W = false) (hhm : thadHeadMatch W = false) :
    hasPatThad (Tok.run u :: W) = false := by
  cases W with
  | nil => rfl
  | cons t1 W1 =>
    cases t1 with
    | run y =>
        rw [show hasPatThad (Tok.run u :: Tok.run y :: W1) =
          hasPatThad (Tok.run y :: W1) from rfl]
        exact h
    | sep d =>
      cases W1 with
      | nil => rfl
      | cons t2 W2 =>
        cases t2 with
        | sep e =>
            rw [show hasPatThad (Tok.run u :: Tok.sep d :: Tok.sep e :: W2) =
              hasPatThad (Tok.sep d :: Tok.sep e :: W2) from rfl]
            exact h
        | run y =>
          cases W2 with
          | nil => rfl
          | cons t3 W3 =>
            cases t3 with
            | run z =>
                rw [show hasPatThad (Tok.run u :: Tok.sep d :: Tok.run y ::
                    Tok.run z :: W3) =
                  hasPatThad (Tok.sep d :: Tok.run y :: Tok.run z :: W3) from rfl]
                exact h
            | sep e =>
              cases W3 with
              | nil => rfl
              | cons t4 W4 =>
                cases t4 with
                | sep f =>
                    rw [show hasPatThad (Tok.run u :: Tok.sep d :: Tok.run y ::
                        Tok.sep e :: Tok.sep f :: W4) =
                      hasPatThad (Tok.sep d :: Tok.run y :: Tok.sep e ::
                        Tok.sep f :: W4) from rfl]
                    exact h
                | run z =>
                    rw [show hasPatThad (Tok.run u :: Tok.sep d :: Tok.run y ::
                        Tok.sep e :: Tok.run z :: W4) =
                      ((ciChar d 'þ' && ciEqList y ['a'] && ciChar e 'ð') ||
                        hasPatThad (Tok.sep d :: Tok.run y :: Tok.sep e ::
                          Tok.run z :: W4)) from rfl]
                    have hc : (ciChar d 'þ' && ciEqList y ['a'] && ciChar e 'ð') =
                        false := hhm
                    simp [hc, h]

/-- After the `það` pass no `það` window remains, and a missing head window
stays missing. -/
theorem thad_clear : ∀ ts : List Tok,
    hasPatThad (tokenPassThad ts) = false ∧
      (thadHeadMatch ts = false → thadHeadMatch (tokenPassThad ts) = false) := by
  intro ts
  induction ts using tokenPassThad.induct with
  | case1 l c1 a c2 r rest hcond ih =>
      obtain ⟨ih1, ih2⟩ := ih
      obtain ⟨v, ts', hv⟩ := tokenPassThad_run_head r rest
      rw [show tokenPassThad (Tok.run l :: Tok.sep c1 :: Tok.run a :: Tok.sep c2 ::
          Tok.run r :: rest) =
          mergeOnto (l ++ ['t', 'o']) (tokenPassThad (Tok.run r :: rest)) from by
        simp only [tokenPassThad]; rw [if_pos hcond], hv,
        show mergeOnto (l ++ ['t', 'o']) (Tok.run v :: ts') =
          Tok.run (l ++ ['t', 'o'] ++ v) :: ts' from rfl]
      constructor
      · rw [hasPatThad_cons_run_irrel (l ++ ['t', 'o'] ++ v) v ts']
        rw [hv] at ih1
        exact ih1
      · intro _; rfl
  | case2 l c1 a c2 r rest hcond ih =>
      obtain ⟨ih1, ih2⟩ := ih
      rw [show tokenPassThad (Tok.run l :: Tok.sep c1 :: Tok.run a :: Tok.sep c2 ::
          Tok.run r :: rest) =
          Tok.run l :: tokenPassThad (Tok.sep c1 :: Tok.run a :: Tok.sep c2 ::
            Tok.run r :: rest) from by
        simp only [tokenPassThad]; rw [if_neg hcond]]
      constructor
      · exact hasPatThad_cons_run l _ ih1 (ih2 (Bool.not_eq_true _ ▸ hcond))
      · intro _; rfl
  | case3 t rest hshape ih =>
      obtain ⟨ih1, ih2⟩ := ih
      have htok : tokenPassThad (t :: rest) = t :: tokenPassThad rest := by
        cases t with
        | sep c => rfl
        | run w =>
            cases rest with
            | nil => rfl
            | cons t2 rest2 =>
                cases t2 with
                | run _ => rfl
                | sep c1 =>
                    cases rest2 with
                    | nil => rfl
                    | cons t3 rest3 =>
                        cases t3 with
                        | sep _ => rfl
                        | run a =>
                            cases rest3 with
                            | nil => rfl
                            | cons t4 rest4 =>
                                cases t4 with
                                | run _ => rfl
                                | sep c2 =>
                                    cases rest4 with
                                    | nil => rfl
                                    | cons t5 rest5 =>
                                        cases t5 with
                                        | sep _ => rfl
                                        | run rr =>
                                            exact (hshape w c1 a c2 rr rest5
                                              rfl rfl).elim
      rw [htok]
      cases t with
      | run u =>
          constructor
          · have hmrest : thadHeadMatch rest = false := by
              cases rest with
              | nil => rfl
              | cons t2 r2 =>
                cases t2 with
                | run _ => rfl
                | sep c1 =>
                  cases r2 with
                  | nil => rfl
                  | cons t3 r3 =>
                    cases t3 with
                    | sep _ => rfl
                    | run a =>
                      cases r3 with
                      | nil => rfl
                      | cons t4 r4 =>
                        cases t4 with
                        | run _ => rfl
                        | sep c2 =>
                          cases r4 with
                          | nil => rfl
                          | cons t5 r5 =>
                            cases t5 with
                            | sep _ => rfl
                            | run r => exact (hshape u c1 a c2 r r5 rfl rfl).elim
            exact hasPatThad_cons_run u _ ih1 (ih2 hmrest)
          · intro _; rfl
      | sep c =>
          constructor
          · rw [show hasPatThad (Tok.sep c :: tokenPassThad rest) =
              hasPatThad (tokenPassThad rest) from rfl]
            exact ih1
          · intro h
            cases rest with
            | nil => rfl
            | cons t2 r2 =>
              cases t2 with
              | sep d =>
                  rw [show tokenPassThad (Tok.sep d :: r2) =
                    Tok.sep d :: tokenPassThad r2 from rfl]
                  rfl
              | run a =>
                cases r2 with
                | nil => rfl
                | cons t3 r3 =>
                  cases t3 with
                  | run b =>
                      obtain ⟨v, ts0, hv⟩ := tokenPassThad_run_head b r3
                      rw [show tokenPassThad (Tok.run a :: Tok.run b :: r3) =
                        Tok.run a :: tokenPassThad (Tok.run b :: r3) from rfl, hv]
                      rfl
                  | sep e =>
                    cases r3 with
                    | nil => rfl
                    | cons t4 r4 =>
                      cases t4 with
                      | sep f => rfl
                      | run r =>
                        cases r4 with
                        | nil => exact h
                        | cons t5 r5 =>
                          cases t5 with
                          | run z =>
                              obtain ⟨v, ts0, hv⟩ :=
                                tokenPassThad_run_head r (Tok.run z :: r5)
                              rw [show tokenPassThad (Tok.run a :: Tok.sep e ::
                                  Tok.run r :: Tok.run z :: r5) =
                                Tok.run a :: Tok.sep e ::
                                  tokenPassThad (Tok.run r :: Tok.run z :: r5)
                                  from rfl, hv]
                              exact h
                          | sep f =>
                            cases r5 with
                            | nil => exact h
                            | cons t6 r6 =>
                              cases t6 with
                              | sep g => exact h
                              | run r2 =>
                                  by_cases hcond2 : (ciChar e 'þ' &&
                                      ciEqList r ['a'] && ciChar f 'ð') = true
                                  · obtain ⟨v, ts0, hv⟩ :=
                                      tokenPassThad_run_head r2 r6
                                    rw [show tokenPassThad (Tok.run a ::
                                        Tok.sep e :: Tok.run r :: Tok.sep f ::
                                        Tok.run r2 :: r6) =
                                        mergeOnto (a ++ ['t', 'o'])
                                          (tokenPassThad (Tok.run r2 :: r6))
                                        from by
                                      simp only [tokenPassThad]
                                      rw [if_pos hcond2], hv,
                                      show mergeOnto (a ++ ['t', 'o'])
                                          (Tok.run v :: ts0) =
                                        Tok.run (a ++ ['t', 'o'] ++ v) :: ts0
                                        from rfl]
                                    exact thadHeadMatch_sep_run c _
                                      (ciEqList_false_of_length_ne (by
                                        simp only [List.length_append,
                                          List.length_cons, List.length_nil]
                                        omega)) ts0
                                  · obtain ⟨v, ts0, hv⟩ :=
                                      tokenPassThad_run_head r
                                        (Tok.sep f :: Tok.run r2 :: r6)
                                    rw [show tokenPassThad (Tok.run a ::
                                        Tok.sep e :: Tok.run r :: Tok.sep f ::
                                        Tok.run r2 :: r6) =
                                        Tok.run a :: tokenPassThad (Tok.sep e ::
                                          Tok.run r :: Tok.sep f ::
                                          Tok.run r2 :: r6) from by
                                      simp only [tokenPassThad]
                                      rw [if_neg hcond2],
                                      show tokenPassThad (Tok.sep e ::
                                          Tok.run r :: Tok.sep f ::
                                          Tok.run r2 :: r6) =
                                        Tok.sep e :: tokenPassThad (Tok.run r ::
                                          Tok.sep f :: Tok.run r2 :: r6)
                                        from rfl, hv]
                                    exact h
  | case4 => exact ⟨rfl, fun _ => rfl⟩

/-! ### The patterns of the merging substitutions survive later passes -/

/-- Prepending a run to a list without the `rúpeas` window keeps the window
absent, provided a head window with this run would not fire. -/
theorem hasPatRupeas_cons_run_cond (u : List Char) (W : List Tok)
    (h : hasPatRupeas W = false)
    (hhm : ∀ d y W3, W = Tok.sep d :: Tok.run y :: W3 →
      (ciEqList u ['r'] && ciChar d 'ú' && ciEqList y ['p', 'e', 'a', 's']) =
        false) :
    hasPatRupeas (Tok.run u :: W) = false := by
  cases W with
  | nil => rfl
  | cons t1 W1 =>
    cases t1 with
    | run y =>
        rw [show hasPatRupeas (Tok.run u :: Tok.run y :: W1) =
          hasPatRupeas (Tok.run y :: W1) from rfl]
        exact h
    | sep d =>
      cases W1 with
      | nil => rfl
      | cons t2 W2 =>
        cases t2 with
        | sep e =>
            rw [show hasPatRupeas (Tok.run u :: Tok.sep d :: Tok.sep e :: W2) =
              hasPatRupeas (Tok.sep d :: Tok.sep e :: W2) from rfl]
            exact h
        | run y =>
            rw [show hasPatRupeas (Tok.run u :: Tok.sep d :: Tok.run y :: W2) =
              ((ciEqList u ['r'] && ciChar d 'ú' && ciEqList y ['p', 'e', 'a', 's']) ||
                hasPatRupeas (Tok.sep d :: Tok.run y :: W2)) from rfl]
            simp [hhm d y W2 rfl, h]

/-- Prepending a run to a list without the `að` window keeps the window
absent, provided a head window with this run would not fire. -/
theorem hasPatAd_cons_run_cond (u : List Char) (W : List Tok)
    (h : hasPatAd W = false)
    (hhm : ∀ d y W3, W = Tok.sep d :: Tok.run y :: W3 →
      (ciEqList u ['a'] && ciChar d 'ð') = false) :
    hasPatAd (Tok.run u :: W) = false := by
  cases W with
  | nil => rfl
  | cons t1 W1 =>
    cases t1 with
    | run y =>
        rw [show hasPatAd (Tok.run u :: Tok.run y :: W1) =
          hasPatAd (Tok.run y :: W1) from rfl]
        exact h
    | sep d =>
      cases W1 with
      | nil => rfl
      | cons t2 W2 =>
        cases t2 with
        | sep e =>
            rw [show hasPatAd (Tok.run u :: Tok.sep d :: Tok.sep e :: W2) =
              hasPatAd (Tok.sep d :: Tok.sep e :: W2) from rfl]
            exact h
        | run y =>
            rw [show hasPatAd (Tok.run u :: Tok.sep d :: Tok.run y :: W2) =
              ((ciEqList u ['a'] && ciChar d 'ð') ||
                hasPatAd (Tok.sep d :: Tok.run y :: W2)) from rfl]
            simp [hhm d y W2 rfl, h]

/-- A word rule whose replacement matches neither `r` nor `peas` cannot create
a `rúpeas` window. -/
theorem hasPatRupeas_mapRunToks (w r : List Char)
    (h1 : ciEqList r ['r'] = false)
    (h2 : ciEqList r ['p', 'e', 'a', 's'] = false) :
    ∀ ts : List Tok, hasPatRupeas ts = false →
      hasPatRupeas (mapRunToks (wordRuleFn w r) ts) = false := by
  intro ts
  induction ts using hasPatRupeas.induct with
  | case1 r1 cu r2 rest ih =>
      intro h
      rw [show hasPatRupeas (Tok.run r1 :: Tok.sep cu :: Tok.run r2 :: rest) =
        ((ciEqList r1 ['r'] && ciChar cu 'ú' && ciEqList r2 ['p', 'e', 'a', 's']) ||
          hasPatRupeas (Tok.sep cu :: Tok.run r2 :: rest)) from rfl,
        Bool.or_eq_false_iff] at h
      obtain ⟨hcond0, htail⟩ := h
      have htail2 := ih htail
      rw [show mapRunToks (wordRuleFn w r) (Tok.sep cu :: Tok.run r2 :: rest) =
        Tok.sep cu :: Tok.run (wordRuleFn w r r2) ::
          mapRunToks (wordRuleFn w r) rest from rfl] at htail2
      rw [show mapRunToks (wordRuleFn w r)
          (Tok.run r1 :: Tok.sep cu :: Tok.run r2 :: rest) =
        Tok.run (wordRuleFn w r r1) :: Tok.sep cu :: Tok.run (wordRuleFn w r r2) ::
          mapRunToks (wordRuleFn w r) rest from rfl]
      rw [show hasPatRupeas (Tok.run (wordRuleFn w r r1) :: Tok.sep cu ::
          Tok.run (wordRuleFn w r r2) :: mapRunToks (wordRuleFn w r) rest) =
        ((ciEqList (wordRuleFn w r r1) ['r'] && ciChar cu 'ú' &&
            ciEqList (wordRuleFn w r r2) ['p', 'e', 'a', 's']) ||
          hasPatRupeas (Tok.sep cu :: Tok.run (wordRuleFn w r r2) ::
            mapRunToks (wordRuleFn w r) rest)) from rfl,
        Bool.or_eq_false_iff]
      refine ⟨?_, htail2⟩
      by_cases ha : ciEqList r1 w = true
      · rw [show wordRuleFn w r r1 = r from by simp [wordRuleFn, ha]]
        simp [h1]
      · rw [show wordRuleFn w r r1 = r1 from by simp [wordRuleFn, ha]]
        by_cases hb : ciEqList r2 w = true
        · rw [show wordRuleFn w r r2 = r from by simp [wordRuleFn, hb]]
          simp [h2]
        · rw [show wordRuleFn w r r2 = r2 from by simp [wordRuleFn, hb]]
          exact hcond0
  | case2 t rest hshape ih =>
      intro h
      cases t with
      | sep c =>
          rw [show mapRunToks (wordRuleFn w r) (Tok.sep c :: rest) =
            Tok.sep c :: mapRunToks (wordRuleFn w r) rest from rfl,
            show hasPatRupeas (Tok.sep c :: mapRunToks (wordRuleFn w r) rest) =
              hasPatRupeas (mapRunToks (wordRuleFn w r) rest) from rfl]
          exact ih (by
            rw [show hasPatRupeas (Tok.sep c :: rest) = hasPatRupeas rest
              from rfl] at h
            exact h)
      | run u =>
          rw [show mapRunToks (wordRuleFn w r) (Tok.run u :: rest) =
            Tok.run (wordRuleFn w r u) :: mapRunToks (wordRuleFn w r) rest
            from rfl]
          have hrest : hasPatRupeas rest = false := by
            cases rest with
            | nil => rfl
            | cons t2 rest2 =>
                cases t2 with
                | run y =>
                    rw [show hasPatRupeas (Tok.run u :: Tok.run y :: rest2) =
                      hasPatRupeas (Tok.run y :: rest2) from rfl] at h
                    exact h
                | sep d =>
                    cases rest2 with
                    | nil => rfl
                    | cons t3 rest3 =>
                        cases t3 with
                        | sep e =>
                            rw [show hasPatRupeas (Tok.run u :: Tok.sep d ::
                                Tok.sep e :: rest3) =
                              hasPatRupeas (Tok.sep d :: Tok.sep e :: rest3)
                              from rfl] at h
                            exact h
                        | run y => exact (hshape u d y rest3 rfl rfl).elim
          refine hasPatRupeas_cons_run_cond _ _ (ih hrest) ?_
          intro d y W3 hW
          exfalso
          cases rest with
          | nil => exact absurd hW (by simp [mapRunToks])
          | cons t2 rest2 =>
              cases t2 with
              | run z =>
                  rw [show mapRunToks (wordRuleFn w r) (Tok.run z :: rest2) =
                    Tok.run (wordRuleFn w r z) :: mapRunToks (wordRuleFn w r) rest2
                    from rfl] at hW
                  exact absurd hW (by simp)
              | sep d' =>
                  cases rest2 with
                  | nil => exact absurd hW (by simp [mapRunToks])
                  | cons t3 rest3 =>
                      cases t3 with
                      | run y' => exact (hshape u d' y' rest3 rfl rfl).elim
                      | sep e' =>
                          rw [show mapRunToks (wordRuleFn w r) (Tok.sep d' ::
                              Tok.sep e' :: rest3) =
                            Tok.sep d' :: Tok.sep e' ::
                              mapRunToks (wordRuleFn w r) rest3 from rfl] at hW
                          injection hW with _ hW2
                          exact absurd hW2 (by simp)
  | case3 => intro _; rfl

/-- A word rule whose replacement does not match `a` cannot create an `að`
window. -/
theorem hasPatAd_mapRunToks (w r : List Char)
    (h1 : ciEqList r ['a'] = false) :
    ∀ ts : List Tok, hasPatAd ts = false →
      hasPatAd (mapRunToks (wordRuleFn w r) ts) = false := by
  intro ts
  induction ts using hasPatAd.induct with
  | case1 r1 cu r2 rest ih =>
      intro h
      rw [show hasPatAd (Tok.run r1 :: Tok.sep cu :: Tok.run r2 :: rest) =
        ((ciEqList r1 ['a'] && ciChar cu 'ð') ||
          hasPatAd (Tok.sep cu :: Tok.run r2 :: rest)) from rfl,
        Bool.or_eq_false_iff] at h
      obtain ⟨hcond0, htail⟩ := h
      have htail2 := ih htail
      rw [show mapRunToks (wordRuleFn w r) (Tok.sep cu :: Tok.run r2 :: rest) =
        Tok.sep cu :: Tok.run (wordRuleFn w r r2) ::
          mapRunToks (wordRuleFn w r) rest from rfl] at htail2
      rw [show mapRunToks (wordRuleFn w r)
          (Tok.run r1 :: Tok.sep cu :: Tok.run r2 :: rest) =
        Tok.run (wordRuleFn w r r1) :: Tok.sep cu :: Tok.run (wordRuleFn w r r2) ::
          mapRunToks (wordRuleFn w r) rest from rfl]
      rw [show hasPatAd (Tok.run (wordRuleFn w r r1) :: Tok.sep cu ::
          Tok.run (wordRuleFn w r r2) :: mapRunToks (wordRuleFn w r) rest) =
        ((ciEqList (wordRuleFn w r r1) ['a'] && ciChar cu 'ð') ||
          hasPatAd (Tok.sep cu :: Tok.run (wordRuleFn w r r2) ::
            mapRunToks (wordRuleFn w r) rest)) from rfl,
        Bool.or_eq_false_iff]
      refine ⟨?_, htail2⟩
      by_cases ha : ciEqList r1 w = true
      · rw [show wordRuleFn w r r1 = r from by simp [wordRuleFn, ha]]
        simp [h1]
      · rw [show wordRuleFn w r r1 = r1 from by simp [wordRuleFn, ha]]
        exact hcond0
  | case2 t rest hshape ih =>
      intro h
      cases t with
      | sep c =>
          rw [show mapRunToks (wordRuleFn w r) (Tok.sep c :: rest) =
            Tok.sep c :: mapRunToks (wordRuleFn w r) rest from rfl,
            show hasPatAd (Tok.sep c :: mapRunToks (wordRuleFn w r) rest) =
              hasPatAd (mapRunToks (wordRuleFn w r) rest) from rfl]
          exact ih (by
            rw [show hasPatAd (Tok.sep c :: rest) = hasPatAd rest
              from rfl] at h
            exact h)
      | run u =>
          rw [show mapRunToks (wordRuleFn w r) (Tok.run u :: rest) =
            Tok.run (wordRuleFn w r u) :: mapRunToks (wordRuleFn w r) rest
            from rfl]
          have hrest : hasPatAd rest = false := by
            cases rest with
            | nil => rfl
            | cons t2 rest2 =>
                cases t2 with
                | run y =>
                    rw [show hasPatAd (Tok.run u :: Tok.run y :: rest2) =
                      hasPatAd (Tok.run y :: rest2) from rfl] at h
                    exact h
                | sep d =>
                    cases rest2 with
                    | nil => rfl
                    | cons t3 rest3 =>
                        cases t3 with
                        | sep e =>
                            rw [show hasPatAd (Tok.run u :: Tok.sep d ::
                                Tok.sep e :: rest3) =
                              hasPatAd (Tok.sep d :: Tok.sep e :: rest3)
                              from rfl] at h
                            exact h
                        | run y => exact (hshape u d y rest3 rfl rfl).elim
          refine hasPatAd_cons_run_cond _ _ (ih hrest) ?_
          intro d y W3 hW
          exfalso
          cases rest with
          | nil => exact absurd hW (by simp [mapRunToks])
          | cons t2 rest2 =>
              cases t2 with
              | run z =>
                  rw [show mapRunToks (wordRuleFn w r) (Tok.run z :: rest2) =
                    Tok.run (wordRuleFn w r z) :: mapRunToks (wordRuleFn w r) rest2
                    from rfl] at hW
                  exact absurd hW (by simp)
              | sep d' =>
                  cases rest2 with
                  | nil => exact absurd hW (by simp [mapRunToks])
                  | cons t3 rest3 =>
                      cases t3 with
                      | run y' => exact (hshape u d' y' rest3 rfl rfl).elim
                      | sep e' =>
                          rw [show mapRunToks (wordRuleFn w r) (Tok.sep d' ::
                              Tok.sep e' :: rest3) =
                            Tok.sep d' :: Tok.sep e' ::
                              mapRunToks (wordRuleFn w r) rest3 from rfl] at hW
                          injection hW with _ hW2
                          exact absurd hW2 (by simp)
  | case3 => intro _; rfl

/-- A word rule whose replacement does not match `a` cannot create a head
`það` window. -/
theorem thadHeadMatch_mapRunToks (w r : List Char)
    (h1 : ciEqList r ['a'] = false) :
    ∀ ts : List Tok, thadHeadMatch ts = false →
      thadHeadMatch (mapRunToks (wordRuleFn w r) ts) = false := by
  intro ts h
  cases ts with
  | nil => rfl
  | cons t1 ts1 =>
    cases t1 with
    | run u =>
        rw [show mapRunToks (wordRuleFn w r) (Tok.run u :: ts1) =
          Tok.run (wordRuleFn w r u) :: mapRunToks (wordRuleFn w r) ts1 from rfl]
        rfl
    | sep c1 =>
      cases ts1 with
      | nil => rfl
      | cons t2 ts2 =>
        cases t2 with
        | sep d =>
            rw [show mapRunToks (wordRuleFn w r) (Tok.sep c1 :: Tok.sep d :: ts2) =
              Tok.sep c1 :: Tok.sep d :: mapRunToks (wordRuleFn w r) ts2 from rfl]
            rfl
        | run a =>
          cases ts2 with
          | nil => rfl
          | cons t3 ts3 =>
            cases t3 with
            | run z =>
                rw [show mapRunToks (wordRuleFn w r) (Tok.sep c1 :: Tok.run a ::
                    Tok.run z :: ts3) =
                  Tok.sep c1 :: Tok.run (wordRuleFn w r a) ::
                    Tok.run (wordRuleFn w r z) ::
                    mapRunToks (wordRuleFn w r) ts3 from rfl]
                rfl
            | sep c2 =>
              cases ts3 with
              | nil => rfl
              | cons t4 ts4 =>
                cases t4 with
                | sep f =>
                    rw [show mapRunToks (wordRuleFn w r) (Tok.sep c1 :: Tok.run a ::
                        Tok.sep c2 :: Tok.sep f :: ts4) =
                      Tok.sep c1 :: Tok.run (wordRuleFn w r a) :: Tok.sep c2 ::
                        Tok.sep f :: mapRunToks (wordRuleFn w r) ts4 from rfl]
                    rfl
                | run z =>
                    rw [show mapRunToks (wordRuleFn w r) (Tok.sep c1 :: Tok.run a ::
                        Tok.sep c2 :: Tok.run z :: ts4) =
                      Tok.sep c1 :: Tok.run (wordRuleFn w r a) :: Tok.sep c2 ::
                        Tok.run (wordRuleFn w r z) ::
                        mapRunToks (wordRuleFn w r) ts4 from rfl]
                    rw [show thadHeadMatch (Tok.sep c1 ::
                        Tok.run (wordRuleFn w r a) :: Tok.sep c2 ::
                        Tok.run (wordRuleFn w r z) ::
                        mapRunToks (wordRuleFn w r) ts4) =
                      (ciChar c1 'þ' && ciEqList (wordRuleFn w r a) ['a'] &&
                        ciChar c2 'ð') from rfl]
                    rw [show thadHeadMatch (Tok.sep c1 :: Tok.run a :: Tok.sep c2 ::
                        Tok.run z :: ts4) =
                      (ciChar c1 'þ' && ciEqList a ['a'] && ciChar c2 'ð')
                      from rfl] at h
                    by_cases ha : ciEqList a w = true
                    · rw [show wordRuleFn w r a = r from by simp [wordRuleFn, ha]]
                      simp [h1]
                    · rw [show wordRuleFn w r a = a from by simp [wordRuleFn, ha]]
                      exact h

/-- A word rule whose replacement does not match `a` cannot create a `það`
window. -/
theorem hasPatThad_mapRunToks (w r : List Char)
    (h1 : ciEqList r ['a'] = false) :
    ∀ ts : List Tok, hasPatThad ts = false →
      hasPatThad (mapRunToks (wordRuleFn w r) ts) = false := by
  intro ts
  induction ts using hasPatThad.induct with
  | case1 l c1 a c2 r' rest ih =>
      intro h
      rw [show hasPatThad (Tok.run l :: Tok.sep c1 :: Tok.run a :: Tok.sep c2 ::
          Tok.run r' :: rest) =
        ((ciChar c1 'þ' && ciEqList a ['a'] && ciChar c2 'ð') ||
          hasPatThad (Tok.sep c1 :: Tok.run a :: Tok.sep c2 :: Tok.run r' :: rest))
          from rfl, Bool.or_eq_false_iff] at h
      obtain ⟨hcond0, htail⟩ := h
      have htail2 := ih htail
      rw [show mapRunToks (wordRuleFn w r) (Tok.sep c1 :: Tok.run a :: Tok.sep c2 ::
          Tok.run r' :: rest) =
        Tok.sep c1 :: Tok.run (wordRuleFn w r a) :: Tok.sep c2 ::
          Tok.run (wordRuleFn w r r') :: mapRunToks (wordRuleFn w r) rest
          from rfl] at htail2
      rw [show mapRunToks (wordRuleFn w r) (Tok.run l :: Tok.sep c1 :: Tok.run a ::
          Tok.sep c2 :: Tok.run r' :: rest) =
        Tok.run (wordRuleFn w r l) :: Tok.sep c1 :: Tok.run (wordRuleFn w r a) ::
          Tok.sep c2 :: Tok.run (wordRuleFn w r r') ::
          mapRunToks (wordRuleFn w r) rest from rfl]
      rw [show hasPatThad (Tok.run (wordRuleFn w r l) :: Tok.sep c1 ::
          Tok.run (wordRuleFn w r a) :: Tok.sep c2 ::
          Tok.run (wordRuleFn w r r') :: mapRunToks (wordRuleFn w r) rest) =
        ((ciChar c1 'þ' && ciEqList (wordRuleFn w r a) ['a'] && ciChar c2 'ð') ||
          hasPatThad (Tok.sep c1 :: Tok.run (wordRuleFn w r a) :: Tok.sep c2 ::
            Tok.run (wordRuleFn w r r') :: mapRunToks (wordRuleFn w r) rest))
          from rfl, Bool.or_eq_false_iff]
      refine ⟨?_, htail2⟩
      by_cases ha : ciEqList a w = true
      · rw [show wordRuleFn w r a = r from by simp [wordRuleFn, ha]]
        simp [h1]
      · rw [show wordRuleFn w r a = a from by simp [wordRuleFn, ha]]
        exact hcond0
  | case2 t rest hshape ih =>
      intro h
      cases t with
      | sep c =>
          rw [show mapRunToks (wordRuleFn w r) (Tok.sep c :: rest) =
            Tok.sep c :: mapRunToks (wordRuleFn w r) rest from rfl,
            show hasPatThad (Tok.sep c :: mapRunToks (wordRuleFn w r) rest) =
              hasPatThad (mapRunToks (wordRuleFn w r) rest) from rfl]
          exact ih (by
            rw [show hasPatThad (Tok.sep c :: rest) = hasPatThad rest
              from rfl] at h
            exact h)
      | run u =>
          rw [show mapRunToks (wordRuleFn w r) (Tok.run u :: rest) =
            Tok.run (wordRuleFn w r u) :: mapRunToks (wordRuleFn w r) rest
            from rfl]
          have hpair : hasPatThad rest = false ∧ thadHeadMatch rest = false := by
            cases rest with
            | nil => exact ⟨rfl, rfl⟩
            | cons t2 r2 =>
              cases t2 with
              | run y =>
                  refine ⟨?_, rfl⟩
                  rw [show hasPatThad (Tok.run u :: Tok.run y :: r2) =
                    hasPatThad (Tok.run y :: r2) from rfl] at h
                  exact h
              | sep c1 =>
                cases r2 with
                | nil => exact ⟨rfl, rfl⟩
                | cons t3 r3 =>
                  cases t3 with
                  | sep e =>
                      refine ⟨?_, rfl⟩
                      rw [show hasPatThad (Tok.run u :: Tok.sep c1 ::
                          Tok.sep e :: r3) =
                        hasPatThad (Tok.sep c1 :: Tok.sep e :: r3) from rfl] at h
                      exact h
                  | run a =>
                    cases r3 with
                    | nil => exact ⟨rfl, rfl⟩
                    | cons t4 r4 =>
                      cases t4 with
                      | run z =>
                          refine ⟨?_, rfl⟩
                          rw [show hasPatThad (Tok.run u :: Tok.sep c1 ::
                              Tok.run a :: Tok.run z :: r4) =
                            hasPatThad (Tok.sep c1 :: Tok.run a :: Tok.run z :: r4)
                            from rfl] at h
                          exact h
                      | sep c2 =>
                        cases r4 with
                        | nil => exact ⟨rfl, rfl⟩
                        | cons t5 r5 =>
                          cases t5 with
                          | sep f =>
                              refine ⟨?_, rfl⟩
                              rw [show hasPatThad (Tok.run u :: Tok.sep c1 ::
                                  Tok.run a :: Tok.sep c2 :: Tok.sep f :: r5) =
                                hasPatThad (Tok.sep c1 :: Tok.run a :: Tok.sep c2 ::
                                  Tok.sep f :: r5) from rfl] at h
                              exact h
                          | run z => exact (hshape u c1 a c2 z r5 rfl rfl).elim
          exact hasPatThad_cons_run _ _ (ih hpair.1)
            (thadHeadMatch_mapRunToks w r h1 rest hpair.2)
  | case3 => intro _; rfl

/-- A merged run contains `t`, so it can never match `peas`. -/
theorem peas_kill {v : List Char} (ht : 't' ∈ v) :
    ciEqList v ['p', 'e', 'a', 's'] = false :=
  ciEqList_false_of_t_mem (by decide) ht

/-- The `að` pass cannot create a `rúpeas` window. -/
theorem hasPatRupeas_tokenPassAd : ∀ ts : List Tok, hasPatRupeas ts = false →
    hasPatRupeas (tokenPassAd ts) = false := by
  intro ts
  induction ts using tokenPassAd.induct with
  | case1 r1 cu r2 rest hcond ih =>
      intro h
      rw [show hasPatRupeas (Tok.run r1 :: Tok.sep cu :: Tok.run r2 :: rest) =
        ((ciEqList r1 ['r'] && ciChar cu 'ú' && ciEqList r2 ['p', 'e', 'a', 's']) ||
          hasPatRupeas (Tok.sep cu :: Tok.run r2 :: rest)) from rfl,
        Bool.or_eq_false_iff] at h
      have hR : hasPatRupeas (Tok.run r2 :: rest) = false := h.2
      obtain ⟨v, ts', hv⟩ := tokenPassAd_run_head r2 rest
      rw [show tokenPassAd (Tok.run r1 :: Tok.sep cu :: Tok.run r2 :: rest) =
          mergeOnto ['t', 'o'] (tokenPassAd (Tok.run r2 :: rest)) from by
        simp only [tokenPassAd]; rw [if_pos hcond], hv,
        show mergeOnto ['t', 'o'] (Tok.run v :: ts') =
          Tok.run (['t', 'o'] ++ v) :: ts' from rfl]
      have hvts : hasPatRupeas (Tok.run v :: ts') = false := by
        rw [← hv]; exact ih hR
      exact hasPatRupeas_replace_head _ v (ciEqList_false_of_length_ne (by
        simp only [List.length_append, List.length_cons, List.length_nil]
        omega)) ts' hvts
  | case2 r1 cu r2 rest hcond ih =>
      intro h
      rw [show hasPatRupeas (Tok.run r1 :: Tok.sep cu :: Tok.run r2 :: rest) =
        ((ciEqList r1 ['r'] && ciChar cu 'ú' && ciEqList r2 ['p', 'e', 'a', 's']) ||
          hasPatRupeas (Tok.sep cu :: Tok.run r2 :: rest)) from rfl,
        Bool.or_eq_false_iff] at h
      obtain ⟨hrc, htail⟩ := h
      obtain ⟨v, ts', hv, hvc⟩ := tokenPassAd_run_head_cases r2 rest
      rw [show tokenPassAd (Tok.run r1 :: Tok.sep cu :: Tok.run r2 :: rest) =
          Tok.run r1 :: tokenPassAd (Tok.sep cu :: Tok.run r2 :: rest) from by
        simp only [tokenPassAd]; rw [if_neg hcond],
        show tokenPassAd (Tok.sep cu :: Tok.run r2 :: rest) =
          Tok.sep cu :: tokenPassAd (Tok.run r2 :: rest) from rfl, hv]
      have htl2 : hasPatRupeas (Tok.sep cu :: Tok.run v :: ts') = false := by
        have := ih htail
        rw [show tokenPassAd (Tok.sep cu :: Tok.run r2 :: rest) =
          Tok.sep cu :: tokenPassAd (Tok.run r2 :: rest) from rfl, hv] at this
        exact this
      rw [show hasPatRupeas (Tok.run r1 :: Tok.sep cu :: Tok.run v :: ts') =
        ((ciEqList r1 ['r'] && ciChar cu 'ú' && ciEqList v ['p', 'e', 'a', 's']) ||
          hasPatRupeas (Tok.sep cu :: Tok.run v :: ts')) from rfl,
        Bool.or_eq_false_iff]
      refine ⟨?_, htl2⟩
      rcases hvc with rfl | ht
      · exact hrc
      · simp [peas_kill ht]
  | case3 t rest hshape ih =>
      intro h
      have htok : tokenPassAd (t :: rest) = t :: tokenPassAd rest := by
        cases t with
        | sep c => rfl
        | run w =>
            cases rest with
            | nil => rfl
            | cons t2 rest2 =>
                cases t2 with
                | run _ => rfl
                | sep cu =>
                    cases rest2 with
                    | nil => rfl
                    | cons t3 rest3 =>
                        cases t3 with
                        | sep _ => rfl
                        | run r2 => exact (hshape w cu r2 rest3 rfl rfl).elim
      rw [htok]
      cases t with
      | sep c =>
          rw [show hasPatRupeas (Tok.sep c :: tokenPassAd rest) =
            hasPatRupeas (tokenPassAd rest) from rfl]
          exact ih (by
            rw [show hasPatRupeas (Tok.sep c :: rest) = hasPatRupeas rest
              from rfl] at h
            exact h)
      | run u =>
          have hrest : hasPatRupeas rest = false := by
            cases rest with
            | nil => rfl
            | cons t2 rest2 =>
                cases t2 with
                | run y =>
                    rw [show hasPatRupeas (Tok.run u :: Tok.run y :: rest2) =
                      hasPatRupeas (Tok.run y :: rest2) from rfl] at h
                    exact h
                | sep d =>
                    cases rest2 with
                    | nil => rfl
                    | cons t3 rest3 =>
                        cases t3 with
                        | sep e =>
                            rw [show hasPatRupeas (Tok.run u :: Tok.sep d ::
                                Tok.sep e :: rest3) =
                              hasPatRupeas (Tok.sep d :: Tok.sep e :: rest3)
                              from rfl] at h
                            exact h
                        | run y => exact (hshape u d y rest3 rfl rfl).elim
          refine hasPatRupeas_cons_run_cond _ _ (ih hrest) ?_
          intro d y W3 hW
          exfalso
          cases rest with
          | nil => exact absurd hW (by simp [tokenPassAd])
          | cons t2 rest2 =>
              cases t2 with
              | run z =>
                  obtain ⟨v, ts', hv⟩ := tokenPassAd_run_head z rest2
                  rw [hv] at hW
                  exact absurd hW (by simp)
              | sep d' =>
                  have hnr2 : noRunHead rest2 = true := by
                    cases rest2 with
                    | nil => rfl
                    | cons t3 rest3 =>
                        cases t3 with
                        | sep _ => rfl
                        | run r2 => exact (hshape u d' r2 rest3 rfl rfl).elim
                  have hnr : noRunHead (tokenPassAd rest2) = true :=
                    noRunHead_tokenPassAd rest2 hnr2
                  rw [show tokenPassAd (Tok.sep d' :: rest2) =
                    Tok.sep d' :: tokenPassAd rest2 from rfl] at hW
                  injection hW with _ hW2
                  rw [hW2] at hnr
                  simp [noRunHead] at hnr
  | case4 => intro _; rfl

/-- The `það` pass cannot create a `rúpeas` window. -/
theorem hasPatRupeas_tokenPassThad : ∀ ts : List Tok, hasPatRupeas ts = false →
    hasPatRupeas (tokenPassThad ts) = false := by
  intro ts
  induction ts using tokenPassThad.induct with
  | case1 l c1 a c2 r rest hcond ih =>
      intro h
      rw [show hasPatRupeas (Tok.run l :: Tok.sep c1 :: Tok.run a :: Tok.sep c2 ::
          Tok.run r :: rest) =
        ((ciEqList l ['r'] && ciChar c1 'ú' && ciEqList a ['p', 'e', 'a', 's']) ||
          hasPatRupeas (Tok.sep c1 :: Tok.run a :: Tok.sep c2 :: Tok.run r :: rest))
          from rfl,
        show hasPatRupeas (Tok.sep c1 :: Tok.run a :: Tok.sep c2 :: Tok.run r ::
            rest) =
          hasPatRupeas (Tok.run a :: Tok.sep c2 :: Tok.run r :: rest) from rfl,
        show hasPatRupeas (Tok.run a :: Tok.sep c2 :: Tok.run r :: rest) =
          ((ciEqList a ['r'] && ciChar c2 'ú' && ciEqList r ['p', 'e', 'a', 's']) ||
            hasPatRupeas (Tok.sep c2 :: Tok.run r :: rest)) from rfl,
        Bool.or_eq_false_iff, Bool.or_eq_false_iff] at h
      have hR : hasPatRupeas (Tok.run r :: rest) = false := h.2.2
      obtain ⟨v, ts', hv⟩ := tokenPassThad_run_head r rest
      rw [show tokenPassThad (Tok.run l :: Tok.sep c1 :: Tok.run a :: Tok.sep c2 ::
          Tok.run r :: rest) =
          mergeOnto (l ++ ['t', 'o']) (tokenPassThad (Tok.run r :: rest)) from by
        simp only [tokenPassThad]; rw [if_pos hcond], hv,
        show mergeOnto (l ++ ['t', 'o']) (Tok.run v :: ts') =
          Tok.run (l ++ ['t', 'o'] ++ v) :: ts' from rfl]
      have hvts : hasPatRupeas (Tok.run v :: ts') = false := by
        rw [← hv]; exact ih hR
      exact hasPatRupeas_replace_head _ v (ciEqList_false_of_length_ne (by
        simp only [List.length_append, List.length_cons, List.length_nil]
        omega)) ts' hvts
  | case2 l c1 a c2 r rest hcond ih =>
      intro h
      rw [show hasPatRupeas (Tok.run l :: Tok.sep c1 :: Tok.run a :: Tok.sep c2 ::
          Tok.run r :: rest) =
        ((ciEqList l ['r'] && ciChar c1 'ú' && ciEqList a ['p', 'e', 'a', 's']) ||
          hasPatRupeas (Tok.sep c1 :: Tok.run a :: Tok.sep c2 :: Tok.run r :: rest))
          from rfl, Bool.or_eq_false_iff] at h
      obtain ⟨hrc, htail⟩ := h
      obtain ⟨v, ts'', hv, hvc⟩ :=
        tokenPassThad_run_head_cases a (Tok.sep c2 :: Tok.run r :: rest)
      rw [show tokenPassThad (Tok.run l :: Tok.sep c1 :: Tok.run a :: Tok.sep c2 ::
          Tok.run r :: rest) =
          Tok.run l :: tokenPassThad (Tok.sep c1 :: Tok.run a :: Tok.sep c2 ::
            Tok.run r :: rest) from by
        simp only [tokenPassThad]; rw [if_neg hcond],
        show tokenPassThad (Tok.sep c1 :: Tok.run a :: Tok.sep c2 :: Tok.run r ::
            rest) =
          Tok.sep c1 :: tokenPassThad (Tok.run a :: Tok.sep c2 :: Tok.run r :: rest)
          from rfl, hv]
      have htl2 : hasPatRupeas (Tok.sep c1 :: Tok.run v :: ts'') = false := by
        have := ih htail
        rw [show tokenPassThad (Tok.sep c1 :: Tok.run a :: Tok.sep c2 ::
            Tok.run r :: rest) =
          Tok.sep c1 :: tokenPassThad (Tok.run a :: Tok.sep c2 :: Tok.run r :: rest)
          from rfl, hv] at this
        exact this
      rw [show hasPatRupeas (Tok.run l :: Tok.sep c1 :: Tok.run v :: ts'') =
        ((ciEqList l ['r'] && ciChar c1 'ú' && ciEqList v ['p', 'e', 'a', 's']) ||
          hasPatRupeas (Tok.sep c1 :: Tok.run v :: ts'')) from rfl,
        Bool.or_eq_false_iff]
      refine ⟨?_, htl2⟩
      rcases hvc with rfl | ht
      · exact hrc
      · simp [peas_kill ht]
  | case3 t rest hshape ih =>
      intro h
      have htok : tokenPassThad (t :: rest) = t :: tokenPassThad rest := by
        cases t with
        | sep c => rfl
        | run w =>
            cases rest with
            | nil => rfl
            | cons t2 rest2 =>
                cases t2 with
                | run _ => rfl
                | sep c1 =>
                    cases rest2 with
                    | nil => rfl
                    | cons t3 rest3 =>
                        cases t3 with
                        | sep _ => rfl
                        | run a =>
                            cases rest3 with
                            | nil => rfl
                            | cons t4 rest4 =>
                                cases t4 with
                                | run _ => rfl
                                | sep c2 =>
                                    cases rest4 with
                                    | nil => rfl
                                    | cons t5 rest5 =>
                                        cases t5 with
                                        | sep _ => rfl
                                        | run rr =>
                                            exact (hshape w c1 a c2 rr rest5
                                              rfl rfl).elim
      rw [htok]
      cases t with
      | sep c =>
          rw [show hasPatRupeas (Tok.sep c :: tokenPassThad rest) =
            hasPatRupeas (tokenPassThad rest) from rfl]
          exact ih (by
            rw [show hasPatRupeas (Tok.sep c :: rest) = hasPatRupeas rest
              from rfl] at h
            exact h)
      | run u =>
          cases rest with
          | nil => rfl
          | cons t2 rest2 =>
            cases t2 with
            | run z =>
                obtain ⟨v, ts', hv⟩ := tokenPassThad_run_head z rest2
                rw [hv, show hasPatRupeas (Tok.run u :: Tok.run v :: ts') =
                  hasPatRupeas (Tok.run v :: ts') from rfl, ← hv]
                exact ih (by
                  rw [show hasPatRupeas (Tok.run u :: Tok.run z :: rest2) =
                    hasPatRupeas (Tok.run z :: rest2) from rfl] at h
                  exact h)
            | sep d =>
              rw [show tokenPassThad (Tok.sep d :: rest2) =
                Tok.sep d :: tokenPassThad rest2 from rfl]
              cases rest2 with
              | nil => rfl
              | cons t3 rest3 =>
                cases t3 with
                | sep e =>
                    rw [show tokenPassThad (Tok.sep e :: rest3) =
                      Tok.sep e :: tokenPassThad rest3 from rfl,
                      show hasPatRupeas (Tok.run u :: Tok.sep d :: Tok.sep e ::
                          tokenPassThad rest3) =
                        hasPatRupeas (Tok.sep e :: tokenPassThad rest3) from rfl]
                    have hrest : hasPatRupeas (Tok.sep d :: Tok.sep e :: rest3) =
                        false := by
                      rw [show hasPatRupeas (Tok.run u :: Tok.sep d :: Tok.sep e ::
                          rest3) =
                        hasPatRupeas (Tok.sep d :: Tok.sep e :: rest3) from rfl] at h
                      exact h
                    have := ih hrest
                    rw [show tokenPassThad (Tok.sep d :: Tok.sep e :: rest3) =
                      Tok.sep d :: Tok.sep e :: tokenPassThad rest3 from rfl,
                      show hasPatRupeas (Tok.sep d :: Tok.sep e ::
                          tokenPassThad rest3) =
                        hasPatRupeas (Tok.sep e :: tokenPassThad rest3)
                        from rfl] at this
                    exact this
                | run y =>
                    rw [show hasPatRupeas (Tok.run u :: Tok.sep d :: Tok.run y ::
                        rest3) =
                      ((ciEqList u ['r'] && ciChar d 'ú' &&
                          ciEqList y ['p', 'e', 'a', 's']) ||
                        hasPatRupeas (Tok.sep d :: Tok.run y :: rest3)) from rfl,
                      Bool.or_eq_false_iff] at h
                    obtain ⟨hrc, htl⟩ := h
                    obtain ⟨v, ts', hv, hvc⟩ := tokenPassThad_run_head_cases y rest3
                    rw [hv]
                    have htl2 : hasPatRupeas (Tok.sep d :: Tok.run v :: ts') =
                        false := by
                      have := ih htl
                      rw [show tokenPassThad (Tok.sep d :: Tok.run y :: rest3) =
                        Tok.sep d :: tokenPassThad (Tok.run y :: rest3) from rfl,
                        hv] at this
                      exact this
                    rw [show hasPatRupeas (Tok.run u :: Tok.sep d :: Tok.run v ::
                        ts') =
                      ((ciEqList u ['r'] && ciChar d 'ú' &&
                          ciEqList v ['p', 'e', 'a', 's']) ||
                        hasPatRupeas (Tok.sep d :: Tok.run v :: ts')) from rfl,
                      Bool.or_eq_false_iff]
                    refine ⟨?_, htl2⟩
                    rcases hvc with rfl | ht
                    · exact hrc
                    · simp [peas_kill ht]
  | case4 => intro _; rfl

/-- Dropping a leading run and separator from a list without the `það` window
leaves a list without the `það` window. -/
theorem hasPatThad_tail2 (A : List Char) (c2 : Char) :
    ∀ X : List Tok, hasPatThad (Tok.run A :: Tok.sep c2 :: X) = false →
      hasPatThad X = false := by
  intro X h
  cases X with
  | nil => rfl
  | cons t1 X1 =>
    cases t1 with
    | sep d =>
        rw [show hasPatThad (Tok.run A :: Tok.sep c2 :: Tok.sep d :: X1) =
          hasPatThad (Tok.sep d :: X1) from rfl] at h
        exact h
    | run y =>
      cases X1 with
      | nil =>
          rw [show hasPatThad (Tok.run A :: Tok.sep c2 :: Tok.run y :: []) =
            hasPatThad ([] : List Tok) from rfl] at h
          exact h
      | cons t2 X2 =>
        cases t2 with
        | run z =>
            rw [show hasPatThad (Tok.run A :: Tok.sep c2 :: Tok.run y ::
                Tok.run z :: X2) =
              hasPatThad (Tok.run y :: Tok.run z :: X2) from rfl] at h
            exact h
        | sep e =>
          cases X2 with
          | nil =>
              rw [show hasPatThad (Tok.run A :: Tok.sep c2 :: Tok.run y ::
                  Tok.sep e :: []) =
                hasPatThad (Tok.run y :: Tok.sep e :: []) from rfl] at h
              exact h
          | cons t3 X3 =>
            cases t3 with
            | sep f =>
                rw [show hasPatThad (Tok.run A :: Tok.sep c2 :: Tok.run y ::
                    Tok.sep e :: Tok.sep f :: X3) =
                  hasPatThad (Tok.run y :: Tok.sep e :: Tok.sep f :: X3)
                  from rfl] at h
                exact h
            | run z =>
                rw [show hasPatThad (Tok.run A :: Tok.sep c2 :: Tok.run y ::
                    Tok.sep e :: Tok.run z :: X3) =
                  ((ciChar c2 'þ' && ciEqList y ['a'] && ciChar e 'ð') ||
                    hasPatThad (Tok.sep c2 :: Tok.run y :: Tok.sep e ::
                      Tok.run z :: X3)) from rfl,
                  Bool.or_eq_false_iff] at h
                rw [show hasPatThad (Tok.sep c2 :: Tok.run y :: Tok.sep e ::
                    Tok.run z :: X3) =
                  hasPatThad (Tok.run y :: Tok.sep e :: Tok.run z :: X3)
                  from rfl] at h
                exact h.2

/-- The `að` pass cannot create a head `það` window after a given separator. -/
theorem thadHeadMatch_sep_tokenPassAd (c : Char) :
    ∀ X : List Tok, thadHeadMatch (Tok.sep c :: X) = false →
      thadHeadMatch (Tok.sep c :: tokenPassAd X) = false := by
  intro X h
  cases X with
  | nil => rfl
  | cons t1 X1 =>
    cases t1 with
    | sep f =>
        rw [show tokenPassAd (Tok.sep f :: X1) =
          Tok.sep f :: tokenPassAd X1 from rfl]
        rfl
    | run R =>
      cases X1 with
      | nil => rfl
      | cons t2 X2 =>
        cases t2 with
        | run y =>
            obtain ⟨v, ts0, hv⟩ := tokenPassAd_run_head y X2
            rw [show tokenPassAd (Tok.run R :: Tok.run y :: X2) =
              Tok.run R :: tokenPassAd (Tok.run y :: X2) from rfl, hv]
            rfl
        | sep d =>
          cases X2 with
          | nil => rfl
          | cons t3 X3 =>
            cases t3 with
            | sep e =>
                rw [show tokenPassAd (Tok.run R :: Tok.sep d :: Tok.sep e :: X3) =
                  Tok.run R :: Tok.sep d :: Tok.sep e :: tokenPassAd X3 from rfl]
                rfl
            | run r2 =>
                by_cases hcond3 : (ciEqList R ['a'] && ciChar d 'ð') = true
                · obtain ⟨v, ts0, hv⟩ := tokenPassAd_run_head r2 X3
                  rw [show tokenPassAd (Tok.run R :: Tok.sep d :: Tok.run r2 ::
                      X3) =
                      mergeOnto ['t', 'o'] (tokenPassAd (Tok.run r2 :: X3)) from by
                    simp only [tokenPassAd]; rw [if_pos hcond3], hv,
                    show mergeOnto ['t', 'o'] (Tok.run v :: ts0) =
                      Tok.run (['t', 'o'] ++ v) :: ts0 from rfl]
                  exact thadHeadMatch_sep_run c _ (ciEqList_false_of_length_ne (by
                    simp only [List.length_append, List.length_cons,
                      List.length_nil]
                    omega)) ts0
                · obtain ⟨v, ts0, hv⟩ := tokenPassAd_run_head r2 X3
                  rw [show tokenPassAd (Tok.run R :: Tok.sep d :: Tok.run r2 ::
                      X3) =
                      Tok.run R :: tokenPassAd (Tok.sep d :: Tok.run r2 :: X3)
                      from by
                    simp only [tokenPassAd]; rw [if_neg hcond3],
                    show tokenPassAd (Tok.sep d :: Tok.run r2 :: X3) =
                      Tok.sep d :: tokenPassAd (Tok.run r2 :: X3) from rfl, hv]
                  rw [show thadHeadMatch (Tok.sep c :: Tok.run R :: Tok.sep d ::
                      Tok.run v :: ts0) =
                    (ciChar c 'þ' && ciEqList R ['a'] && ciChar d 'ð') from rfl]
                  rw [show thadHeadMatch (Tok.sep c :: Tok.run R :: Tok.sep d ::
                      Tok.run r2 :: X3) =
                    (ciChar c 'þ' && ciEqList R ['a'] && ciChar d 'ð')
                    from rfl] at h
                  exact h

/-- The `að` pass cannot create a head `það` window. -/
theorem thadHeadMatch_tokenPassAd : ∀ X : List Tok, thadHeadMatch X = false →
    thadHeadMatch (tokenPassAd X) = false := by
  intro X h
  cases X with
  | nil => rfl
  | cons t1 X1 =>
    cases t1 with
    | run u =>
        obtain ⟨v, ts0, hv⟩ := tokenPassAd_run_head u X1
        rw [hv]
        rfl
    | sep c =>
        rw [show tokenPassAd (Tok.sep c :: X1) = Tok.sep c :: tokenPassAd X1
          from rfl]
        exact thadHeadMatch_sep_tokenPassAd c X1 h

/-- The `að` pass cannot create a `það` window. -/
theorem hasPatThad_tokenPassAd : ∀ ts : List Tok, hasPatThad ts = false →
    hasPatThad (tokenPassAd ts) = false := by
  intro ts
  induction ts using tokenPassAd.induct with
  | case1 r1 cu r2 rest hcond ih =>
      intro h
      have hR : hasPatThad (Tok.run r2 :: rest) = false :=
        hasPatThad_tail2 r1 cu _ h
      obtain ⟨v, ts', hv⟩ := tokenPassAd_run_head r2 rest
      rw [show tokenPassAd (Tok.run r1 :: Tok.sep cu :: Tok.run r2 :: rest) =
          mergeOnto ['t', 'o'] (tokenPassAd (Tok.run r2 :: rest)) from by
        simp only [tokenPassAd]; rw [if_pos hcond], hv,
        show mergeOnto ['t', 'o'] (Tok.run v :: ts') =
          Tok.run (['t', 'o'] ++ v) :: ts' from rfl]
      rw [hasPatThad_cons_run_irrel (['t', 'o'] ++ v) v ts']
      have := ih hR
      rw [hv] at this
      exact this
  | case2 r1 cu r2 rest hcond ih =>
      intro h
      rw [show tokenPassAd (Tok.run r1 :: Tok.sep cu :: Tok.run r2 :: rest) =
          Tok.run r1 :: tokenPassAd (Tok.sep cu :: Tok.run r2 :: rest) from by
        simp only [tokenPassAd]; rw [if_neg hcond]]
      have hsep : hasPatThad (Tok.sep cu :: Tok.run r2 :: rest) = false := by
        have := hasPatThad_tail2 r1 cu _ h
        rw [show hasPatThad (Tok.sep cu :: Tok.run r2 :: rest) =
          hasPatThad (Tok.run r2 :: rest) from rfl]
        exact this
      have hhm0 : thadHeadMatch (Tok.sep cu :: Tok.run r2 :: rest) = false := by
        cases rest with
        | nil => rfl
        | cons t3 rest3 =>
          cases t3 with
          | run _ => rfl
          | sep d =>
            cases rest3 with
            | nil => rfl
            | cons t4 rest4 =>
              cases t4 with
              | sep _ => rfl
              | run z =>
                  rw [show thadHeadMatch (Tok.sep cu :: Tok.run r2 :: Tok.sep d ::
                      Tok.run z :: rest4) =
                    (ciChar cu 'þ' && ciEqList r2 ['a'] && ciChar d 'ð')
                    from rfl]
                  rw [show hasPatThad (Tok.run r1 :: Tok.sep cu :: Tok.run r2 ::
                      Tok.sep d :: Tok.run z :: rest4) =
                    ((ciChar cu 'þ' && ciEqList r2 ['a'] && ciChar d 'ð') ||
                      hasPatThad (Tok.sep cu :: Tok.run r2 :: Tok.sep d ::
                        Tok.run z :: rest4)) from rfl,
                    Bool.or_eq_false_iff] at h
                  exact h.1
      have hW : hasPatThad (tokenPassAd (Tok.sep cu :: Tok.run r2 :: rest)) =
          false := ih hsep
      have hhmW : thadHeadMatch (tokenPassAd (Tok.sep cu :: Tok.run r2 :: rest)) =
          false := by
        rw [show tokenPassAd (Tok.sep cu :: Tok.run r2 :: rest) =
          Tok.sep cu :: tokenPassAd (Tok.run r2 :: rest) from rfl]
        exact thadHeadMatch_sep_tokenPassAd cu _ hhm0
      exact hasPatThad_cons_run r1 _ hW hhmW
  | case3 t rest hshape ih =>
      intro h
      have htok : tokenPassAd (t :: rest) = t :: tokenPassAd rest := by
        cases t with
        | sep c => rfl
        | run w =>
            cases rest with
            | nil => rfl
            | cons t2 rest2 =>
                cases t2 with
                | run _ => rfl
                | sep cu =>
                    cases rest2 with
                    | nil => rfl
                    | cons t3 rest3 =>
                        cases t3 with
                        | sep _ => rfl
                        | run r2 => exact (hshape w cu r2 rest3 rfl rfl).elim
      rw [htok]
      cases t with
      | sep c =>
          rw [show hasPatThad (Tok.sep c :: tokenPassAd rest) =
            hasPatThad (tokenPassAd rest) from rfl]
          exact ih (by
            rw [show hasPatThad (Tok.sep c :: rest) = hasPatThad rest
              from rfl] at h
            exact h)
      | run u =>
          have hpair : hasPatThad rest = false ∧ thadHeadMatch rest = false := by
            cases rest with
            | nil => exact ⟨rfl, rfl⟩
            | cons t2 rest2 =>
                cases t2 with
                | run y =>
                    refine ⟨?_, rfl⟩
                    rw [show hasPatThad (Tok.run u :: Tok.run y :: rest2) =
                      hasPatThad (Tok.run y :: rest2) from rfl] at h
                    exact h
                | sep d =>
                    cases rest2 with
                    | nil =>
                        refine ⟨rfl, rfl⟩
                    | cons t3 rest3 =>
                        cases t3 with
                        | sep e =>
                            refine ⟨?_, rfl⟩
                            rw [show hasPatThad (Tok.run u :: Tok.sep d ::
                                Tok.sep e :: rest3) =
                              hasPatThad (Tok.sep d :: Tok.sep e :: rest3)
                              from rfl] at h
                            exact h
                        | run y => exact (hshape u d y rest3 rfl rfl).elim
          exact hasPatThad_cons_run u _ (ih hpair.1)
            (thadHeadMatch_tokenPassAd rest hpair.2)
  | case4 => intro _; rfl

/-! ### Tokenization is inverse to flattening on well-formed lists -/

/-- Tokenizing with a prefix of word characters merges them onto the first
run of the tokenization of the tail. -/
theorem toToks_word_cons : ∀ (u' : List Char) (c : Char), isWordChar c = true →
    u'.all isWordChar = true → ∀ x : List Char,
      toToks (c :: (u' ++ x)) = mergeOnto (c :: u') (toToks x) := by
  intro u'
  induction u' with
  | nil =>
      intro c hc _ x
      show (if isWordChar c then
          match toToks x with
          | Tok.run u :: ts => Tok.run (c :: u) :: ts
          | ts => Tok.run [c] :: ts
        else Tok.sep c :: toToks x) = mergeOnto [c] (toToks x)
      rw [if_pos hc]
      cases htx : toToks x with
      | nil => rfl
      | cons t ts =>
          cases t with
          | run v => rfl
          | sep d => rfl
  | cons c2 u2 ih =>
      intro c hc hall x
      simp only [List.all_cons, Bool.and_eq_true] at hall
      obtain ⟨hc2, hall2⟩ := hall
      show (if isWordChar c then
          match toToks (c2 :: (u2 ++ x)) with
          | Tok.run u :: ts => Tok.run (c :: u) :: ts
          | ts => Tok.run [c] :: ts
        else Tok.sep c :: toToks (c2 :: (u2 ++ x))) =
        mergeOnto (c :: c2 :: u2) (toToks x)
      rw [if_pos hc, ih c2 hc2 hall2 x]
      cases htx : toToks x with
      | nil => rfl
      | cons t ts =>
          cases t with
          | run v => rfl
          | sep d => rfl

/-- Tokenizing with a nonempty prefix of word characters merges them onto the
first run of the tokenization of the tail. -/
theorem toToks_word_append : ∀ u : List Char, u ≠ [] →
    u.all isWordChar = true → ∀ x : List Char,
      toToks (u ++ x) = mergeOnto u (toToks x) := by
  intro u hne hall x
  cases u with
  | nil => exact absurd rfl hne
  | cons c u' =>
      simp only [List.all_cons, Bool.and_eq_true] at hall
      exact toToks_word_cons u' c hall.1 hall.2 x

/-- On a well-formed token list, tokenizing the flattening recovers the
tokens. -/
theorem toToks_flatToks : ∀ ts : List Tok, wfToks ts = true →
    toToks (flatToks ts) = ts := by
  intro ts
  induction ts with
  | nil => intro _; rfl
  | cons t ts' ih =>
      intro hwf
      cases t with
      | sep c =>
          obtain ⟨hcw, hwf'⟩ := (wfToks_sep_iff c ts').mp hwf
          rw [flatToks_cons, show Tok.flat (Tok.sep c) = [c] from rfl,
            show (([c] ++ flatToks ts' : List Char)) = c :: flatToks ts' from rfl]
          rw [show toToks (c :: flatToks ts') =
            (if isWordChar c then
              match toToks (flatToks ts') with
              | Tok.run u :: ts => Tok.run (c :: u) :: ts
              | ts => Tok.run [c] :: ts
            else Tok.sep c :: toToks (flatToks ts')) from rfl,
            if_neg (by simp [hcw]), ih hwf']
      | run u =>
          obtain ⟨hune, huw, hnr, hwf'⟩ := (wfToks_run_iff u ts').mp hwf
          rw [flatToks_cons, show Tok.flat (Tok.run u) = u from rfl,
            toToks_word_append u hune huw, ih hwf']
          cases ts' with
          | nil => rfl
          | cons t2 ts2 =>
              cases t2 with
              | sep d => rfl
              | run v => simp [noRunHead] at hnr

/-! ### One substitution, from string level to token level -/

/-- A word-pattern substitution acts on the token view as `mapRunToks` of its
run transformation. -/
theorem replaceWholeWord_word_step (w r : String) (hw : w.toList ≠ [])
    (hword : w.toList.all isWordChar = true) (ts : List Tok)
    (hwf : wfToks ts = true) :
    replaceWholeWord w r (String.mk (flatToks ts)) =
      String.mk (flatToks (mapRunToks (wordRuleFn w.toList r.toList) ts)) := by
  unfold replaceWholeWord
  congr 1
  rw [show (String.mk (flatToks ts)).toList = flatToks ts from rfl]
  exact scan_word_rule w.toList r.toList hw hword ts hwf false (fun h => nomatch h)

/-- The `rúpeas → rupees` substitution acts on the token view as
`tokenPassRupeas`. -/
theorem replaceWholeWord_rupeas_step (ts : List Tok) (hwf : wfToks ts = true) :
    replaceWholeWord "rúpeas" "rupees" (String.mk (flatToks ts)) =
      String.mk (flatToks (tokenPassRupeas ts)) := by
  unfold replaceWholeWord
  congr 1
  rw [show (String.mk (flatToks ts)).toList = flatToks ts from rfl,
    show "rúpeas".toList = ['r', 'ú', 'p', 'e', 'a', 's'] from rfl,
    show "rupees".toList = ['r', 'u', 'p', 'e', 'e', 's'] from rfl]
  exact scan_rupeas_rule ts hwf false (fun h => nomatch h)

/-- The `það → to` substitution acts on the token view as `tokenPassThad`. -/
theorem replaceWholeWord_thad_step (ts : List Tok) (hwf : wfToks ts = true) :
    replaceWholeWord "það" "to" (String.mk (flatToks ts)) =
      String.mk (flatToks (tokenPassThad ts)) := by
  unfold replaceWholeWord
  congr 1
  rw [show (String.mk (flatToks ts)).toList = flatToks ts from rfl,
    show "það".toList = ['þ', 'a', 'ð'] from rfl,
    show "to".toList = ['t', 'o'] from rfl]
  exact scan_thad_rule ts hwf false (fun h => nomatch h)

/-- The `að → to` substitution acts on the token view as `tokenPassAd`. -/
theorem replaceWholeWord_ad_step (ts : List Tok) (hwf : wfToks ts = true) :
    replaceWholeWord "að" "to" (String.mk (flatToks ts)) =
      String.mk (flatToks (tokenPassAd ts)) := by
  unfold replaceWholeWord
  congr 1
  rw [show (String.mk (flatToks ts)).toList = flatToks ts from rfl,
    show "að".toList = ['a', 'ð'] from rfl,
    show "to".toList = ['t', 'o'] from rfl]
  exact scan_ad_rule ts hwf false (fun h => nomatch h)

/-! ### Well-formedness along the pipeline -/

/-- The whole token pipeline preserves well-formedness. -/
theorem wfToks_tokenPipeline (ts : List Tok) (h : wfToks ts = true) :
    wfToks (tokenPipeline ts) = true := by
  unfold tokenPipeline
  refine wfToks_mapRunToks _ (wordRuleFn_preserves _ _ (by decide) (by decide)) _
    (wfToks_mapRunToks _ (wordRuleFn_preserves _ _ (by decide) (by decide)) _
      (wfToks_mapRunToks _ (wordRuleFn_preserves _ _ (by decide) (by decide)) _
        (wfToks_mapRunToks _ (wordRuleFn_preserves _ _ (by decide) (by decide)) _
          (wfToks_mapRunToks _ (wordRuleFn_preserves _ _ (by decide) (by decide)) _
            (wfToks_mapRunToks _ (wordRuleFn_preserves _ _ (by decide) (by decide))
              _ (wfToks_mapRunToks _
                (wordRuleFn_preserves _ _ (by decide) (by decide)) _
                (wfToks_tokenPassAd _
                  (wfToks_tokenPassThad _
                    (wfToks_mapRunToks _
                      (wordRuleFn_preserves _ _ (by decide) (by decide)) _
                      (wfToks_mapRunToks _
                        (wordRuleFn_preserves _ _ (by decide) (by decide)) _
                        (wfToks_tokenPassRupeas _
                          (wfToks_mapRunToks _
                            (wordRuleFn_preserves _ _ (by decide) (by decide)) _
                            (wfToks_mapRunToks _
                              (wordRuleFn_preserves _ _ (by decide) (by decide)) _
                              (wfToks_mapRunToks _
                                (wordRuleFn_preserves _ _ (by decide) (by decide))
                                _ (wfToks_mapRunToks _
                                  (wordRuleFn_preserves _ _ (by decide)
                                    (by decide)) _ h)))))))))))))))

/-! ### The sixteen substitutions equal the token pipeline -/

/-- The full correction pass over a string is the token pipeline over its
tokenization. -/
theorem applyCorrections_mk (l : List Char) :
    applyCorrections (String.mk l) =
      String.mk (flatToks (tokenPipeline (toToks l))) := by
  have h0 : wfToks (toToks l) = true := wfToks_toToks l
  have hp1 := wfToks_mapRunToks (wordRuleFn "nudj".toList "Anuj".toList)
    (wordRuleFn_preserves _ _ (by decide) (by decide)) _ h0
  have hp2 := wfToks_mapRunToks (wordRuleFn "anuj".toList "Anuj".toList)
    (wordRuleFn_preserves _ _ (by decide) (by decide)) _ hp1
  have hp3 := wfToks_mapRunToks (wordRuleFn "grazie".toList "Rahul".toList)
    (wordRuleFn_preserves _ _ (by decide) (by decide)) _ hp2
  have hp4 := wfToks_mapRunToks (wordRuleFn "grazi".toList "Rahul".toList)
    (wordRuleFn_preserves _ _ (by decide) (by decide)) _ hp3
  have hp5 := wfToks_tokenPassRupeas _ hp4
  have hp6 := wfToks_mapRunToks (wordRuleFn "rupaye".toList "rupees".toList)
    (wordRuleFn_preserves _ _ (by decide) (by decide)) _ hp5
  have hp7 := wfToks_mapRunToks (wordRuleFn "rupay".toList "rupees".toList)
    (wordRuleFn_preserves _ _ (by decide) (by decide)) _ hp6
  have hp8 := wfToks_tokenPassThad _ hp7
  have hp9 := wfToks_tokenPassAd _ hp8
  have hp10 := wfToks_mapRunToks (wordRuleFn "sau".toList "100".toList)
    (wordRuleFn_preserves _ _ (by decide) (by decide)) _ hp9
  have hp11 := wfToks_mapRunToks (wordRuleFn "so".toList "100".toList)
    (wordRuleFn_preserves _ _ (by decide) (by decide)) _ hp10
  have hp12 := wfToks_mapRunToks (wordRuleFn "pachas".toList "50".toList)
    (wordRuleFn_preserves _ _ (by decide) (by decide)) _ hp11
  have hp13 := wfToks_mapRunToks (wordRuleFn "das".toList "10".toList)
    (wordRuleFn_preserves _ _ (by decide) (by decide)) _ hp12
  have hp14 := wfToks_mapRunToks (wordRuleFn "bees".toList "20".toList)
    (wordRuleFn_preserves _ _ (by decide) (by decide)) _ hp13
  have hp15 := wfToks_mapRunToks (wordRuleFn "pachees".toList "25".toList)
    (wordRuleFn_preserves _ _ (by decide) (by decide)) _ hp14
  simp only [applyCorrections, nameCorrections, List.foldl]
  rw [show String.mk l = String.mk (flatToks (toToks l)) from by
    rw [flatToks_toToks]]
  rw [replaceWholeWord_word_step "nudj" "Anuj" (by decide) (by decide) _ h0]
  rw [replaceWholeWord_word_step "anuj" "Anuj" (by decide) (by decide) _ hp1]
  rw [replaceWholeWord_word_step "grazie" "Rahul" (by decide) (by decide) _ hp2]
  rw [replaceWholeWord_word_step "grazi" "Rahul" (by decide) (by decide) _ hp3]
  rw [replaceWholeWord_rupeas_step _ hp4]
  rw [replaceWholeWord_word_step "rupaye" "rupees" (by decide) (by decide) _ hp5]
  rw [replaceWholeWord_word_step "rupay" "rupees" (by decide) (by decide) _ hp6]
  rw [replaceWholeWord_thad_step _ hp7]
  rw [replaceWholeWord_ad_step _ hp8]
  rw [replaceWholeWord_word_step "sau" "100" (by decide) (by decide) _ hp9]
  rw [replaceWholeWord_word_step "so" "100" (by decide) (by decide) _ hp10]
  rw [replaceWholeWord_word_step "pachas" "50" (by decide) (by decide) _ hp11]
  rw [replaceWholeWord_word_step "das" "10" (by decide) (by decide) _ hp12]
  rw [replaceWholeWord_word_step "bees" "20" (by decide) (by decide) _ hp13]
  rw [replaceWholeWord_word_step "pachees" "25" (by decide) (by decide) _ hp14]
  rw [replaceWholeWord_word_step "paanch" "5" (by decide) (by decide) _ hp15]
  rfl

/-! ### The pipeline is idempotent -/

/-- Running the sixteen token-level substitutions a second time changes
nothing: each substitution's pattern is absent from the final list. -/
theorem tokenPipeline_idem (ts : List Tok) :
    tokenPipeline (tokenPipeline ts) = tokenPipeline ts := by
  have a1 : RunsAvoid "nudj".toList (tokenPipeline ts) :=
    runsAvoid_mapRunToks _ "paanch".toList "5".toList (by decide) _
      (runsAvoid_mapRunToks _ "pachees".toList "25".toList (by decide) _
        (runsAvoid_mapRunToks _ "bees".toList "20".toList (by decide) _
          (runsAvoid_mapRunToks _ "das".toList "10".toList (by decide) _
            (runsAvoid_mapRunToks _ "pachas".toList "50".toList (by decide) _
              (runsAvoid_mapRunToks _ "so".toList "100".toList (by decide) _
                (runsAvoid_mapRunToks _ "sau".toList "100".toList (by decide) _
                  (runsAvoid_tokenPassAd _ (by decide) _
                    (runsAvoid_tokenPassThad _ (by decide) _
                      (runsAvoid_mapRunToks _ "rupay".toList "rupees".toList
                          (by decide) _
                        (runsAvoid_mapRunToks _ "rupaye".toList "rupees".toList
                            (by decide) _
                          (runsAvoid_tokenPassRupeas _ (by decide) _
                            (runsAvoid_mapRunToks _ "grazi".toList "Rahul".toList
                                (by decide) _
                              (runsAvoid_mapRunToks _ "grazie".toList
                                  "Rahul".toList (by decide) _
                                (runsAvoid_mapRunToks _ "anuj".toList
                                    "Anuj".toList (by decide) _
                                  (runsAvoid_self "nudj".toList "Anuj".toList
                                    (by decide) ts)))))))))))))))
  have a2 : RunsFixed "anuj".toList "Anuj".toList (tokenPipeline ts) :=
    runsFixed_mapRunToks _ _ "paanch".toList "5".toList (by decide) _
      (runsFixed_mapRunToks _ _ "pachees".toList "25".toList (by decide) _
        (runsFixed_mapRunToks _ _ "bees".toList "20".toList (by decide) _
          (runsFixed_mapRunToks _ _ "das".toList "10".toList (by decide) _
            (runsFixed_mapRunToks _ _ "pachas".toList "50".toList (by decide) _
              (runsFixed_mapRunToks _ _ "so".toList "100".toList (by decide) _
                (runsFixed_mapRunToks _ _ "sau".toList "100".toList (by decide) _
                  (runsFixed_tokenPassAd _ _ (by decide) _
                    (runsFixed_tokenPassThad _ _ (by decide) _
                      (runsFixed_mapRunToks _ _ "rupay".toList "rupees".toList
                          (by decide) _
                        (runsFixed_mapRunToks _ _ "rupaye".toList "rupees".toList
                            (by decide) _
                          (runsFixed_tokenPassRupeas _ _ (by decide) _
                            (runsFixed_mapRunToks _ _ "grazi".toList
                                "Rahul".toList (by decide) _
                              (runsFixed_mapRunToks _ _ "grazie".toList
                                  "Rahul".toList (by decide) _
                                (runsFixed_self "anuj".toList "Anuj".toList
                                  _))))))))))))))
  have a3 : RunsAvoid "grazie".toList (tokenPipeline ts) :=
    runsAvoid_mapRunToks _ "paanch".toList "5".toList (by decide) _
      (runsAvoid_mapRunToks _ "pachees".toList "25".toList (by decide) _
        (runsAvoid_mapRunToks _ "bees".toList "20".toList (by decide) _
          (runsAvoid_mapRunToks _ "das".toList "10".toList (by decide) _
            (runsAvoid_mapRunToks _ "pachas".toList "50".toList (by decide) _
              (runsAvoid_mapRunToks _ "so".toList "100".toList (by decide) _
                (runsAvoid_mapRunToks _ "sau".toList "100".toList (by decide) _
                  (runsAvoid_tokenPassAd _ (by decide) _
                    (runsAvoid_tokenPassThad _ (by decide) _
                      (runsAvoid_mapRunToks _ "rupay".toList "rupees".toList
                          (by decide) _
                        (runsAvoid_mapRunToks _ "rupaye".toList "rupees".toList
                            (by decide) _
                          (runsAvoid_tokenPassRupeas _ (by decide) _
                            (runsAvoid_mapRunToks _ "grazi".toList "Rahul".toList
                                (by decide) _
                              (runsAvoid_self "grazie".toList "Rahul".toList
                                (by decide) _)))))))))))))
  have a4 : RunsAvoid "grazi".toList (tokenPipeline ts) :=
    runsAvoid_mapRunToks _ "paanch".toList "5".toList (by decide) _
      (runsAvoid_mapRunToks _ "pachees".toList "25".toList (by decide) _
        (runsAvoid_mapRunToks _ "bees".toList "20".toList (by decide) _
          (runsAvoid_mapRunToks _ "das".toList "10".toList (by decide) _
            (runsAvoid_mapRunToks _ "pachas".toList "50".toList (by decide) _
              (runsAvoid_mapRunToks _ "so".toList "100".toList (by decide) _
                (runsAvoid_mapRunToks _ "sau".toList "100".toList (by decide) _
                  (runsAvoid_tokenPassAd _ (by decide) _
                    (runsAvoid_tokenPassThad _ (by decide) _
                      (runsAvoid_mapRunToks _ "rupay".toList "rupees".toList
                          (by decide) _
                        (runsAvoid_mapRunToks _ "rupaye".toList "rupees".toList
                            (by decide) _
                          (runsAvoid_tokenPassRupeas _ (by decide) _
                            (runsAvoid_self "grazi".toList "Rahul".toList
                              (by decide) _))))))))))))
  have a5 : hasPatRupeas (tokenPipeline ts) = false :=
    hasPatRupeas_mapRunToks "paanch".toList "5".toList (by decide) (by decide) _
      (hasPatRupeas_mapRunToks "pachees".toList "25".toList (by decide)
          (by decide) _
        (hasPatRupeas_mapRunToks "bees".toList "20".toList (by decide)
            (by decide) _
          (hasPatRupeas_mapRunToks "das".toList "10".toList (by decide)
              (by decide) _
            (hasPatRupeas_mapRunToks "pachas".toList "50".toList (by decide)
                (by decide) _
              (hasPatRupeas_mapRunToks "so".toList "100".toList (by decide)
                  (by decide) _
                (hasPatRupeas_mapRunToks "sau".toList "100".toList (by decide)
                    (by decide) _
                  (hasPatRupeas_tokenPassAd _
                    (hasPatRupeas_tokenPassThad _
                      (hasPatRupeas_mapRunToks "rupay".toList "rupees".toList
                          (by decide) (by decide) _
                        (hasPatRupeas_mapRunToks "rupaye".toList "rupees".toList
                            (by decide) (by decide) _
                          (hasPatRupeas_tokenPassRupeas _)))))))))))
  have a6 : RunsAvoid "rupaye".toList (tokenPipeline ts) :=
    runsAvoid_mapRunToks _ "paanch".toList "5".toList (by decide) _
      (runsAvoid_mapRunToks _ "pachees".toList "25".toList (by decide) _
        (runsAvoid_mapRunToks _ "bees".toList "20".toList (by decide) _
          (runsAvoid_mapRunToks _ "das".toList "10".toList (by decide) _
            (runsAvoid_mapRunToks _ "pachas".toList "50".toList (by decide) _
              (runsAvoid_mapRunToks _ "so".toList "100".toList (by decide) _
                (runsAvoid_mapRunToks _ "sau".toList "100".toList (by decide) _
                  (runsAvoid_tokenPassAd _ (by decide) _
                    (runsAvoid_tokenPassThad _ (by decide) _
                      (runsAvoid_mapRunToks _ "rupay".toList "rupees".toList
                          (by decide) _
                        (runsAvoid_self "rupaye".toList "rupees".toList
                          (by decide) _))))))))))
  have a7 : RunsAvoid "rupay".toList (tokenPipeline ts) :=
    runsAvoid_mapRunToks _ "paanch".toList "5".toList (by decide) _
      (runsAvoid_mapRunToks _ "pachees".toList "25".toList (by decide) _
        (runsAvoid_mapRunToks _ "bees".toList "20".toList (by decide) _
          (runsAvoid_mapRunToks _ "das".toList "10".toList (by decide) _
            (runsAvoid_mapRunToks _ "pachas".toList "50".toList (by decide) _
              (runsAvoid_mapRunToks _ "so".toList "100".toList (by decide) _
                (runsAvoid_mapRunToks _ "sau".toList "100".toList (by decide) _
                  (runsAvoid_tokenPassAd _ (by decide) _
                    (runsAvoid_tokenPassThad _ (by decide) _
                      (runsAvoid_self "rupay".toList "rupees".toList
                        (by decide) _)))))))))
  have a8 : hasPatThad (tokenPipeline ts) = false :=
    hasPatThad_mapRunToks "paanch".toList "5".toList (by decide) _
      (hasPatThad_mapRunToks "pachees".toList "25".toList (by decide) _
        (hasPatThad_mapRunToks "bees".toList "20".toList (by decide) _
          (hasPatThad_mapRunToks "das".toList "10".toList (by decide) _
            (hasPatThad_mapRunToks "pachas".toList "50".toList (by decide) _
              (hasPatThad_mapRunToks "so".toList "100".toList (by decide) _
                (hasPatThad_mapRunToks "sau".toList "100".toList (by decide) _
                  (hasPatThad_tokenPassAd _ (thad_clear _).1)))))))
  have a9 : hasPatAd (tokenPipeline ts) = false :=
    hasPatAd_mapRunToks "paanch".toList "5".toList (by decide) _
      (hasPatAd_mapRunToks "pachees".toList "25".toList (by decide) _
        (hasPatAd_mapRunToks "bees".toList "20".toList (by decide) _
          (hasPatAd_mapRunToks "das".toList "10".toList (by decide) _
            (hasPatAd_mapRunToks "pachas".toList "50".toList (by decide) _
              (hasPatAd_mapRunToks "so".toList "100".toList (by decide) _
                (hasPatAd_mapRunToks "sau".toList "100".toList (by decide) _
                  (hasPatAd_tokenPassAd _)))))))
  have a10 : RunsAvoid "sau".toList (tokenPipeline ts) :=
    runsAvoid_mapRunToks _ "paanch".toList "5".toList (by decide) _
      (runsAvoid_mapRunToks _ "pachees".toList "25".toList (by decide) _
        (runsAvoid_mapRunToks _ "bees".toList "20".toList (by decide) _
          (runsAvoid_mapRunToks _ "das".toList "10".toList (by decide) _
            (runsAvoid_mapRunToks _ "pachas".toList "50".toList (by decide) _
              (runsAvoid_mapRunToks _ "so".toList "100".toList (by decide) _
                (runsAvoid_self "sau".toList "100".toList (by decide) _))))))
  have a11 : RunsAvoid "so".toList (tokenPipeline ts) :=
    runsAvoid_mapRunToks _ "paanch".toList "5".toList (by decide) _
      (runsAvoid_mapRunToks _ "pachees".toList "25".toList (by decide) _
        (runsAvoid_mapRunToks _ "bees".toList "20".toList (by decide) _
          (runsAvoid_mapRunToks _ "das".toList "10".toList (by decide) _
            (runsAvoid_mapRunToks _ "pachas".toList "50".toList (by decide) _
              (runsAvoid_self "so".toList "100".toList (by decide) _)))))
  have a12 : RunsAvoid "pachas".toList (tokenPipeline ts) :=
    runsAvoid_mapRunToks _ "paanch".toList "5".toList (by decide) _
      (runsAvoid_mapRunToks _ "pachees".toList "25".toList (by decide) _
        (runsAvoid_mapRunToks _ "bees".toList "20".toList (by decide) _
          (runsAvoid_mapRunToks _ "das".toList "10".toList (by decide) _
            (runsAvoid_self "pachas".toList "50".toList (by decide) _))))
  have a13 : RunsAvoid "das".toList (tokenPipeline ts) :=
    runsAvoid_mapRunToks _ "paanch".toList "5".toList (by decide) _
      (runsAvoid_mapRunToks _ "pachees".toList "25".toList (by decide) _
        (runsAvoid_mapRunToks _ "bees".toList "20".toList (by decide) _
          (runsAvoid_self "das".toList "10".toList (by decide) _)))
  have a14 : RunsAvoid "bees".toList (tokenPipeline ts) :=
    runsAvoid_mapRunToks _ "paanch".toList "5".toList (by decide) _
      (runsAvoid_mapRunToks _ "pachees".toList "25".toList (by decide) _
        (runsAvoid_self "bees".toList "20".toList (by decide) _))
  have a15 : RunsAvoid "pachees".toList (tokenPipeline ts) :=
    runsAvoid_mapRunToks _ "paanch".toList "5".toList (by decide) _
      (runsAvoid_self "pachees".toList "25".toList (by decide) _)
  have a16 : RunsAvoid "paanch".toList (tokenPipeline ts) :=
    runsAvoid_self "paanch".toList "5".toList (by decide) _
  have i1 := mapRunToks_id_of_avoid "nudj".toList "Anuj".toList _ a1
  have i2 := mapRunToks_id_of_fixed "anuj".toList "Anuj".toList _ a2
  have i3 := mapRunToks_id_of_avoid "grazie".toList "Rahul".toList _ a3
  have i4 := mapRunToks_id_of_avoid "grazi".toList "Rahul".toList _ a4
  have i5 := tokenPassRupeas_id _ a5
  have i6 := mapRunToks_id_of_avoid "rupaye".toList "rupees".toList _ a6
  have i7 := mapRunToks_id_of_avoid "rupay".toList "rupees".toList _ a7
  have i8 := tokenPassThad_id _ a8
  have i9 := tokenPassAd_id _ a9
  have i10 := mapRunToks_id_of_avoid "sau".toList "100".toList _ a10
  have i11 := mapRunToks_id_of_avoid "so".toList "100".toList _ a11
  have i12 := mapRunToks_id_of_avoid "pachas".toList "50".toList _ a12
  have i13 := mapRunToks_id_of_avoid "das".toList "10".toList _ a13
  have i14 := mapRunToks_id_of_avoid "bees".toList "20".toList _ a14
  have i15 := mapRunToks_id_of_avoid "pachees".toList "25".toList _ a15
  have i16 := mapRunToks_id_of_avoid "paanch".toList "5".toList _ a16
  show mapRunToks (wordRuleFn "paanch".toList "5".toList)
      (mapRunToks (wordRuleFn "pachees".toList "25".toList)
        (mapRunToks (wordRuleFn "bees".toList "20".toList)
          (mapRunToks (wordRuleFn "das".toList "10".toList)
            (mapRunToks (wordRuleFn "pachas".toList "50".toList)
              (mapRunToks (wordRuleFn "so".toList "100".toList)
                (mapRunToks (wordRuleFn "sau".toList "100".toList)
                  (tokenPassAd
                    (tokenPassThad
                      (mapRunToks (wordRuleFn "rupay".toList "rupees".toList)
                        (mapRunToks (wordRuleFn "rupaye".toList "rupees".toList)
                          (tokenPassRupeas
                            (mapRunToks (wordRuleFn "grazi".toList "Rahul".toList)
                              (mapRunToks
                                (wordRuleFn "grazie".toList "Rahul".toList)
                                (mapRunToks
                                  (wordRuleFn "anuj".toList "Anuj".toList)
                                  (mapRunToks
                                    (wordRuleFn "nudj".toList "Anuj".toList)
                                    (tokenPipeline ts)))))))))))))))) =
    tokenPipeline ts
  rw [i1, i2, i3, i4, i5, i6, i7, i8, i9, i10, i11, i12, i13, i14, i15, i16]

/-- Claim C5: the transcript-correction function — the ordered,
case-insensitive, whole-word substitution table of `transcribeAudio` applied
to the transcribed text — is idempotent: for every input text, applying the
full correction pass twice yields the same result as applying it once. -/
theorem correction_idempotent (text : String) :
    applyCorrections (applyCorrections text) = applyCorrections text := by
  have h1 : applyCorrections text =
      String.mk (flatToks (tokenPipeline (toToks text.toList))) := by
    have h := applyCorrections_mk text.toList
    rwa [show String.mk text.toList = text from rfl] at h
  have hwfT : wfToks (tokenPipeline (toToks text.toList)) = true :=
    wfToks_tokenPipeline _ (wfToks_toToks _)
  rw [h1]
  rw [applyCorrections_mk (flatToks (tokenPipeline (toToks text.toList))),
    toToks_flatToks _ hwfT, tokenPipeline_idem]

end PayVoice

